import Mathlib

/-!
# Pecan pair-HMM base aligner (`baseAlignment/impl/pairwiseAligner.c`)

A shallow embedding of the pairwise aligner and of its banded driver.

Modelling conventions.

* A C `double` is a value of `Dbl K`: not-a-number, minus infinity, a finite
  number of the ordered field `K`, or plus infinity.  Finite arithmetic is
  exact (no rounding of an operation, no overflow to infinity, no signed
  zero).  A decimal literal of the source without suffix stands for its
  decimal value.  A literal with the suffix `f` is a `float`: it stands for
  the binary32 number nearest to the decimal, written out in full (the
  coefficients of `lookup`; `lookup_coefficients` relates each of them to the
  decimal of the source).  With `K := ℚ` every function below can be
  evaluated.
* `exp` of `<math.h>` is a parameter `exp : K → K` on finite values.
* `PAIR_ALIGNMENT_PROB_1` (a macro of `pairwiseAligner.h`) is a parameter, a
  natural number.  The two `int32_t` computations it bounds are explicit: the
  conversion `(int32_t) floor(..)` of a score and the sum of two scores.
* The other `int32_t` values are integers of `Int`: sequence lengths,
  coordinates, diagonals and offsets.  The sequences are taken to be short
  enough for the sums the driver forms of them and of the band size to stay
  inside the `int32_t` range.  The cell count of `getEmptyMatrix`, a product,
  wraps explicitly.
* A C string is a `List Char`; `strlen` is `List.length`.
* A run that aborts (a failed `assert`, an allocation that `st_malloc` cannot
  serve) or leaves the defined behaviour of C (a negative length handed to
  `memcpy`, a write outside a buffer) is the result `none`.  In particular
  `getAlignedPairs` is `none` when the cell count of its matrices has wrapped
  (`matricesOverflow`), and so is every band of `getAlignedPairs_Fast` that
  calls it.
* sonLib's `stList` is a `List`; its `stSortedSet` is a list kept in the order
  of the comparison function.
-/

namespace Cactus

/-! ## Doubles -/

/-- A C `double` over exact finite arithmetic in `K`. -/
inductive Dbl (K : Type) where
  | nan : Dbl K
  | negInf : Dbl K
  | fin (v : K) : Dbl K
  | posInf : Dbl K
  deriving DecidableEq, Repr

namespace Dbl

variable {K : Type} [LinearOrderedField K]

/-- Sum of two doubles (`x + y`). -/
def add : Dbl K → Dbl K → Dbl K
  | nan, _ => nan
  | _, nan => nan
  | negInf, posInf => nan
  | posInf, negInf => nan
  | negInf, _ => negInf
  | _, negInf => negInf
  | posInf, _ => posInf
  | _, posInf => posInf
  | fin a, fin b => fin (a + b)

/-- Negation of a double (`-x`). -/
def neg : Dbl K → Dbl K
  | nan => nan
  | negInf => posInf
  | fin a => fin (-a)
  | posInf => negInf

/-- Difference of two doubles (`x - y`). -/
def sub (x y : Dbl K) : Dbl K := add x (neg y)

/-- An infinity with the sign of `a`, not-a-number for `a = 0`. -/
def infOfSign (a : K) : Dbl K :=
  if 0 < a then posInf else if a < 0 then negInf else nan

/-- Product of two doubles (`x * y`). -/
def mul : Dbl K → Dbl K → Dbl K
  | nan, _ => nan
  | _, nan => nan
  | fin a, fin b => fin (a * b)
  | fin a, posInf => infOfSign a
  | fin a, negInf => infOfSign (-a)
  | posInf, fin b => infOfSign b
  | negInf, fin b => infOfSign (-b)
  | posInf, posInf => posInf
  | negInf, negInf => posInf
  | posInf, negInf => negInf
  | negInf, posInf => negInf

/-- Quotient of two doubles (`x / y`). -/
def div : Dbl K → Dbl K → Dbl K
  | nan, _ => nan
  | _, nan => nan
  | fin a, fin b => if b = 0 then infOfSign a else fin (a / b)
  | fin _, posInf => fin 0
  | fin _, negInf => fin 0
  | posInf, fin b => if 0 ≤ b then posInf else negInf
  | negInf, fin b => if 0 ≤ b then negInf else posInf
  | posInf, posInf => nan
  | negInf, negInf => nan
  | posInf, negInf => nan
  | negInf, posInf => nan

instance : Add (Dbl K) := ⟨add⟩
instance : Sub (Dbl K) := ⟨sub⟩
instance : Mul (Dbl K) := ⟨mul⟩
instance : Div (Dbl K) := ⟨div⟩

/-- The comparison `x < y` of C: false as soon as an operand is not a number. -/
def lt : Dbl K → Dbl K → Bool
  | nan, _ => false
  | _, nan => false
  | negInf, negInf => false
  | negInf, _ => true
  | _, negInf => false
  | posInf, _ => false
  | _, posInf => true
  | fin a, fin b => decide (a < b)

/-- The comparison `x == y` of C: false as soon as an operand is not a number. -/
def eq : Dbl K → Dbl K → Bool
  | negInf, negInf => true
  | posInf, posInf => true
  | fin a, fin b => decide (a = b)
  | _, _ => false

/-- The comparison `x <= y` of C. -/
def le (x y : Dbl K) : Bool := lt x y || eq x y

/-- The comparison `x > y` of C. -/
def gt (x y : Dbl K) : Bool := lt y x

/-- The comparison `x >= y` of C. -/
def ge (x y : Dbl K) : Bool := le y x

/-- The function `exp` of `<math.h>`, given its values on finite numbers. -/
def exp (e : K → K) : Dbl K → Dbl K
  | nan => nan
  | negInf => fin 0
  | fin a => fin (e a)
  | posInf => posInf

/-- The conversion `(int32_t) floor(x)`.  It is only defined by C for a finite
`x` whose floor is an `int32_t`; elsewhere the model answers `INT32_MIN`, as
the conversion instruction of x86 does. -/
def floorToInt32 [FloorRing K] : Dbl K → Int
  | fin a => if -2147483648 ≤ ⌊a⌋ ∧ ⌊a⌋ ≤ 2147483647 then ⌊a⌋ else -2147483648
  | _ => -2147483648

end Dbl

open Dbl

variable {K : Type} [LinearOrderedField K]

/-! ## Basic maths -/

/-- The macro `logZero`, minus infinity. -/
def logZero : Dbl K := negInf

/-- The macro `logUnderflowThreshold`. -/
def logUnderflowThreshold : Dbl K := fin 7.5

/-- The macro `posteriorMatchThreshold`. -/
def posteriorMatchThreshold : Dbl K := fin 0.01

/-- The function `lookup`: a piecewise cubic for `log (exp x + 1)`.  The
argument is a `double`; the three thresholds and the sixteen coefficients are
`float` literals, converted to `double` without change.  The thresholds
`1.00f`, `2.50f`, `4.50f` are binary32 numbers.  Each coefficient is the
binary32 number nearest to the decimal of the source, in the order of the
source:

* `-0.009350833524763f`, `0.130659527668286f`, `0.498799810682272f`,
  `0.693203116424741f`;
* `-0.014532321752540f`, `0.139942324101744f`, `0.495635523139337f`,
  `0.692140569840976f`;
* `-0.004605031767994f`, `0.063427417320019f`, `0.695956496475118f`,
  `0.514272634594009f`;
* `-0.000458661602210f`, `0.009695946122598f`, `0.930734667215156f`,
  `0.168037164329057f`. -/
def lookup (x : Dbl K) : Dbl K :=
  if Dbl.le x (fin 1.00) then
    ((fin (-0.009350833483040332794189453125) * x + fin 0.130659520626068115234375) * x
      + fin 0.498799800872802734375) * x + fin 0.69320309162139892578125
  else if Dbl.le x (fin 2.50) then
    ((fin (-0.01453232206404209136962890625) * x + fin 0.1399423182010650634765625) * x
      + fin 0.495635509490966796875) * x + fin 0.6921405792236328125
  else if Dbl.le x (fin 4.50) then
    ((fin (-0.004605031572282314300537109375) * x + fin 0.0634274184703826904296875) * x
      + fin 0.6959564685821533203125) * x + fin 0.514272630214691162109375
  else
    ((fin (-0.00045866161235608160495758056640625) * x
        + fin 0.009695946238934993743896484375) * x
      + fin 0.930734694004058837890625) * x + fin 0.16803716123104095458984375

/-- The value of `lookup` at a finite argument `t` (`lookup_fin`): the cubic of
the piece of `t`, with the coefficients of `lookup`. -/
def lookupCubic (t : K) : K :=
  if t ≤ 1.0 then
    ((-0.009350833483040332794189453125 * t + 0.130659520626068115234375) * t
      + 0.498799800872802734375) * t + 0.69320309162139892578125
  else if t ≤ 2.5 then
    ((-0.01453232206404209136962890625 * t + 0.1399423182010650634765625) * t
      + 0.495635509490966796875) * t + 0.6921405792236328125
  else if t ≤ 4.5 then
    ((-0.004605031572282314300537109375 * t + 0.0634274184703826904296875) * t
      + 0.6959564685821533203125) * t + 0.514272630214691162109375
  else
    ((-0.00045866161235608160495758056640625 * t + 0.009695946238934993743896484375) * t
      + 0.930734694004058837890625) * t + 0.16803716123104095458984375

/-- The function `logAdd`. -/
def logAdd (x y : Dbl K) : Dbl K :=
  if Dbl.lt x y then
    (if Dbl.eq x logZero || Dbl.ge (y - x) logUnderflowThreshold then y
     else lookup (y - x) + x)
  else
    (if Dbl.eq y logZero || Dbl.ge (x - y) logUnderflowThreshold then x
     else lookup (x - y) + y)

/-- The piecewise cubic `f` of the spec's section 4.B, written from the spec's
words: the pieces on `[0, 1]`, `(1, 2.5]`, `(2.5, 4.5]` and `(4.5, 7.5]`, with
the coefficients as the decimals the spec lists. -/
def specCubic (t : K) : K :=
  if t ≤ 1.0 then
    ((-0.009350833524763 * t + 0.130659527668286) * t + 0.498799810682272) * t
      + 0.693203116424741
  else if t ≤ 2.5 then
    ((-0.014532321752540 * t + 0.139942324101744) * t + 0.495635523139337) * t
      + 0.692140569840976
  else if t ≤ 4.5 then
    ((-0.004605031767994 * t + 0.063427417320019) * t + 0.695956496475118) * t
      + 0.514272634594009
  else
    ((-0.000458661602210 * t + 0.009695946122598) * t + 0.930734667215156) * t
      + 0.168037164329057

/-- The function `logAddAndAssign`, as the value stored through the pointer. -/
def logAddAndAssign (x y : Dbl K) : Dbl K := logAdd x y

/-! ## Sequences -/

/-- The function `convertChar`. -/
def convertChar (i : Char) : Nat :=
  if i = 'A' ∨ i = 'a' then 0
  else if i = 'C' ∨ i = 'c' then 1
  else if i = 'G' ∨ i = 'g' then 2
  else if i = 'T' ∨ i = 't' then 3
  else 4

/-- The function `convertSequence`.  The two assertions abort the run; the
result lists `cS[0] .. cS[sL - 1]` (the terminating `cS[sL] = 0` is left
implicit, see `readSeq`). -/
def convertSequence (s : List Char) (sL : Int) : Option (List Nat) :=
  if sL ≥ 0 ∧ (s.length : Int) = sL then
    some ((List.range sL.toNat).map (fun i => convertChar (s.getD i (Char.ofNat 0))))
  else none

/-- The read `cS[i]` of an encoded sequence; `cS[sL]` is the terminator `0`. -/
def readSeq (cS : List Nat) (i : Int) : Nat := cS.getD i.toNat 0

/-! ## States -/

/-- The constant `cellNo`. -/
def cellNo : Nat := 5

def matchContinueTransition : Dbl K := fin (-0.030064059121770816)
def gapOpenShortTransition : Dbl K := fin (-4.34381910900448)
def gapOpenLongTransition : Dbl K := fin (-6.30810595366929)
def gapShortExtendTransition : Dbl K := fin (-0.3388262689231553)
def gapShortSwitchTransition : Dbl K := fin (-4.910694825551255)
def matchFromShortGapTransition : Dbl K := fin (-1.272871422049609)
def gapLongExtendTransition : Dbl K := fin (-0.003442492794189331)
def matchFromLongGapTransition : Dbl K := fin (-5.673280173170473)

/-- The table `transitions` of `transitionProb`. -/
def transitions : List (Dbl K) :=
  [ /- Match -/ matchContinueTransition,
    matchFromShortGapTransition, matchFromShortGapTransition,
    matchFromLongGapTransition, matchFromLongGapTransition,
    /- To shortGapX -/ gapOpenShortTransition, gapShortExtendTransition,
    gapShortSwitchTransition, logZero, logZero,
    /- To shortGapY -/ gapOpenShortTransition, gapShortSwitchTransition,
    gapShortExtendTransition, logZero, logZero,
    /- To longGapX -/ gapOpenLongTransition, logZero, logZero,
    gapLongExtendTransition, logZero,
    /- To longGapY -/ gapOpenLongTransition, logZero, logZero, logZero,
    gapLongExtendTransition ]

/-- The function `transitionProb`. -/
def transitionProb (fromState toState : Nat) : Dbl K :=
  (transitions (K := K)).getD (toState * cellNo + fromState) nan

/-- The function `getTransitionOffSetX`. -/
def getTransitionOffSetX (state : Nat) : Int :=
  ([1, 1, 0, 1, 0] : List Int).getD state 0

/-- The function `getTransitionOffSetY`. -/
def getTransitionOffSetY (state : Nat) : Int :=
  ([1, 0, 1, 0, 1] : List Int).getD state 0

def gapEmission : Dbl K := fin (-1.6094379124341003)
def matchEmission : Dbl K := fin (-2.1149196655034745)
def transversionEmission : Dbl K := fin (-4.5691014376830479)
def transitionEmission : Dbl K := fin (-3.9833860032220842)
def matchNEmission : Dbl K := fin (-3.2188758248682006)

/-- The table `gapM` of `emissionProb`. -/
def gapM : List (Dbl K) :=
  [gapEmission, gapEmission, gapEmission, gapEmission, gapEmission]

/-- The table `matchM` of `emissionProb`. -/
def matchM : List (Dbl K) :=
  [ matchEmission, transversionEmission,
    transitionEmission, transversionEmission, matchNEmission,
    transversionEmission, matchEmission, transversionEmission,
    transitionEmission, matchNEmission, transitionEmission,
    transversionEmission, matchEmission, transversionEmission,
    matchNEmission, transversionEmission, transitionEmission,
    transversionEmission, matchEmission, matchNEmission,
    matchNEmission, matchNEmission, matchNEmission, matchNEmission,
    matchNEmission ]

/-- The function `emissionProb`.  The arguments `lX`, `lY` only feed the
debug checks of the source. -/
def emissionProb (x y _lX _lY : Int) (sX sY : List Nat) (state : Nat) : Dbl K :=
  match state with
  | 0 => (matchM (K := K)).getD (readSeq sX (x - 1) * 5 + readSeq sY (y - 1)) nan
  | 1 => (gapM (K := K)).getD (readSeq sX (x - 1)) nan
  | 3 => (gapM (K := K)).getD (readSeq sX (x - 1)) nan
  | 2 => (gapM (K := K)).getD (readSeq sY (y - 1)) nan
  | 4 => (gapM (K := K)).getD (readSeq sY (y - 1)) nan
  | _ => fin 0.0

/-- The function `startStateProbs`. -/
def startStateProbs (state : Nat) : Dbl K :=
  ([matchContinueTransition, gapOpenShortTransition, gapOpenShortTransition,
    gapOpenLongTransition, gapOpenLongTransition] : List (Dbl K)).getD state nan

/-- The function `endStateProbs`. -/
def endStateProbs (state : Nat) : Dbl K :=
  let endProb : Dbl K := fin (-1.6094379124341)
  ([endProb, endProb, endProb, endProb, endProb] : List (Dbl K)).getD state nan

/-! ## Forward matrix -/

/-- The wrap of an integer into the `int32_t` range. -/
def wrapInt32 (z : Int) : Int := (z + 2147483648) % 4294967296 - 2147483648

/-- The function `getCell`: the position in the buffer of the first of the
five entries of cell `(x, y)`, `none` for the `NULL` pointer. -/
def getCell (x y lX : Int) : Option Nat :=
  if x ≥ 0 ∧ y ≥ 0 then some ((y * lX + x) * cellNo).toNat else none

/-- The function `getEmptyMatrix`, as the buffer it hands back.  The cell
count `j` is an `int32_t` product, which wraps; the buffer has `j` entries,
all equal to `logZero`.  With a negative `j` the call does not come back at
all (`st_malloc` is asked for `j * sizeof(double)` bytes as a `size_t`, and
aborts): the list is empty then, and `matricesOverflow` records the failure
for `getAlignedPairs`, the only caller of the matrix functions. -/
def getEmptyMatrix (lX lY : Int) : List (Dbl K) :=
  let j := wrapInt32 (wrapInt32 (lX * lY) * cellNo)
  List.replicate j.toNat logZero

/-- Whether the cell count `lX * lY * cellNo` of `getEmptyMatrix lX lY` is too
large for an `int32_t`.  Then the count that `getEmptyMatrix` computes has
wrapped and is not the product (`matricesOverflow_iff_wrap`).  A negative
count makes `st_malloc` abort the program.  A count that is not negative is
less than the product: the buffer is too short for the writes of
`forwardMatrix` and `backwardMatrix` (`initialiseBackwardMatrix` writes the
last cell, `(lX - 1, lY - 1)`, first), and the run leaves the defined
behaviour of C. -/
def matricesOverflow (lX lY : Int) : Bool :=
  decide (lX * lY * cellNo > 2147483647)

/-- The function `initialiseForwardMatrix`, on a buffer of the intended
size. -/
def initialiseForwardMatrix (lX lY : Int) : List (Dbl K) :=
  let fM : List (Dbl K) := getEmptyMatrix lX lY
  match getCell 0 0 lX with
  | none => fM
  | some cell =>
    (List.range cellNo).foldl (fun fM i => fM.set (cell + i) (startStateProbs i)) fM

/-- The function `forwardCell`. -/
def forwardCell (fM : List (Dbl K)) (x y lX lY : Int) (sX sY : List Nat) :
    List (Dbl K) :=
  match getCell x y lX with
  | none => fM
  | some cell =>
    (List.range cellNo).foldl (fun fM toState =>
      match getCell (x - getTransitionOffSetX toState) (y - getTransitionOffSetY toState) lX with
      | none => fM
      | some pCell =>
        let eP : Dbl K := emissionProb x y lX lY sX sY toState
        (List.range cellNo).foldl (fun fM fromState =>
          fM.set (cell + toState)
            (logAddAndAssign (fM.getD (cell + toState) nan)
              (fM.getD (pCell + fromState) nan + transitionProb fromState toState + eP))) fM) fM

/-- The function `forwardMatrix`. -/
def forwardMatrix (lX lY : Int) (sX sY : List Nat) : List (Dbl K) :=
  (List.range lX.toNat).foldl (fun fM (x : Nat) =>
    (List.range lY.toNat).foldl (fun fM (y : Nat) =>
      forwardCell fM x y lX lY sX sY) fM) (initialiseForwardMatrix lX lY)

/-- The function `totalForwardProb`. -/
def totalForwardProb (fM : List (Dbl K)) (lX lY : Int) : Dbl K :=
  match getCell (lX - 1) (lY - 1) lX with
  | none => nan
  | some cell =>
    (List.range' 1 (cellNo - 1)).foldl (fun totalProb i =>
      logAddAndAssign totalProb (endStateProbs i + fM.getD (cell + i) nan))
      (endStateProbs 0 + fM.getD (cell + 0) nan)

/-! ## Backward matrix -/

/-- The function `initialiseBackwardMatrix`. -/
def initialiseBackwardMatrix (lX lY : Int) : List (Dbl K) :=
  let bM : List (Dbl K) := getEmptyMatrix lX lY
  match getCell (lX - 1) (lY - 1) lX with
  | none => bM
  | some cell =>
    (List.range cellNo).foldl (fun bM i => bM.set (cell + i) (endStateProbs i)) bM

/-- The function `backwardCell`. -/
def backwardCell (bM : List (Dbl K)) (x y lX lY : Int) (sX sY : List Nat) :
    List (Dbl K) :=
  match getCell x y lX with
  | none => bM
  | some cell =>
    (List.range cellNo).foldl (fun bM toState =>
      match getCell (x - getTransitionOffSetX toState) (y - getTransitionOffSetY toState) lX with
      | none => bM
      | some pCell =>
        let eP : Dbl K := emissionProb x y lX lY sX sY toState
        (List.range cellNo).foldl (fun bM fromState =>
          bM.set (pCell + fromState)
            (logAddAndAssign (bM.getD (pCell + fromState) nan)
              (bM.getD (cell + toState) nan + transitionProb fromState toState + eP))) bM) bM

/-- The function `backwardMatrix`. -/
def backwardMatrix (lX lY : Int) (sX sY : List Nat) : List (Dbl K) :=
  (List.range lX.toNat).reverse.foldl (fun bM (x : Nat) =>
    (List.range lY.toNat).reverse.foldl (fun bM (y : Nat) =>
      backwardCell bM x y lX lY sX sY) bM) (initialiseBackwardMatrix lX lY)

/-- The function `totalBackwardProb`. -/
def totalBackwardProb (fM : List (Dbl K)) (lX : Int) : Dbl K :=
  match getCell 0 0 lX with
  | none => nan
  | some cell =>
    (List.range' 1 (cellNo - 1)).foldl (fun totalProb i =>
      logAddAndAssign totalProb (startStateProbs i + fM.getD (cell + i) nan))
      (startStateProbs 0 + fM.getD (cell + 0) nan)

/-! ## Posterior probabilities -/

/-- The `stIntTuple` of length three that stands for an aligned pair:
position 0 is the score, position 1 is `x`, position 2 is `y`. -/
structure AlignedPair where
  score : Int
  x : Int
  y : Int
  deriving DecidableEq, Repr

/-- The function `posteriorMatchProb`.  Its assertion `pCell != NULL` holds at
every call of `getPosteriorProbs`, where `x ≥ 1` and `y ≥ 1`. -/
def posteriorMatchProb (exp : K → K) (fM bM : List (Dbl K)) (x y lX lY : Int)
    (sX sY : List Nat) (totalProb : Dbl K) : Dbl K :=
  let toState : Nat := 0
  match getCell (x - 1) (y - 1) lX, getCell x y lX with
  | some pCell, some cell =>
    let eP : Dbl K := emissionProb x y lX lY sX sY toState
    let f : Dbl K := fM.getD (pCell + 0) nan + transitionProb 0 toState + eP
      + bM.getD (cell + toState) nan
    let f := (List.range' 1 (cellNo - 1)).foldl (fun f fromState =>
      logAddAndAssign f (fM.getD (pCell + fromState) nan + transitionProb fromState toState
        + eP + bM.getD (cell + toState) nan)) f
    Dbl.exp exp (f - totalProb)
  | _, _ => nan

/-- The function `getPosteriorProbs`; the result is the list `alignedPairs`
after the appends. -/
def getPosteriorProbs [FloorRing K] (exp : K → K) (PAIR_ALIGNMENT_PROB_1 : Nat)
    (fM bM : List (Dbl K)) (lX lY : Int) (sX sY : List Nat)
    (alignedPairs : List AlignedPair) (totalProb : Dbl K) : List AlignedPair :=
  (List.range' 1 (lX.toNat - 1)).foldl (fun alignedPairs (x : Nat) =>
    (List.range' 1 (lY.toNat - 1)).foldl (fun alignedPairs (y : Nat) =>
      let f : Dbl K := posteriorMatchProb exp fM bM x y lX lY sX sY totalProb
      if Dbl.ge f posteriorMatchThreshold then
        let f : Dbl K := if Dbl.gt f (fin 1.0) then fin 1.0 else f
        alignedPairs ++
          [⟨floorToInt32 (f * fin (PAIR_ALIGNMENT_PROB_1 : K)), (x : Int) - 1, (y : Int) - 1⟩]
      else alignedPairs) alignedPairs) alignedPairs

/-- The emission rule of the spec's section 4.D, written from the spec's words:
a cell of posterior `p` emits `(floor (min p 1 * PAIR_ALIGNMENT_PROB_1), x - 1,
y - 1)` when `p ≥ 0.01`, and nothing otherwise. -/
def specEmit [FloorRing K] (PAIR_ALIGNMENT_PROB_1 : Nat) (p : Dbl K) (x y : Int) :
    Option AlignedPair :=
  match p with
  | fin v =>
    if 0.01 ≤ v then some ⟨⌊min v 1 * (PAIR_ALIGNMENT_PROB_1 : K)⌋, x - 1, y - 1⟩ else none
  | posInf => some ⟨PAIR_ALIGNMENT_PROB_1, x - 1, y - 1⟩
  | _ => none

/-- What one cell adds to the list in the body of the inner loop of
`getPosteriorProbs` (lines 345-355), given the value `f` of
`posteriorMatchProb` there. -/
def emitCell [FloorRing K] (PAIR_ALIGNMENT_PROB_1 : Nat) (f : Dbl K) (x y : Nat) :
    List AlignedPair :=
  if Dbl.ge f posteriorMatchThreshold then
    [⟨floorToInt32 ((if Dbl.gt f (fin 1.0) then fin 1.0 else f)
        * fin (PAIR_ALIGNMENT_PROB_1 : K)), (x : Int) - 1, (y : Int) - 1⟩]
  else []

/-- The strict lexicographic order of aligned pairs by `x`, then `y`: the order
of a row-major scan. -/
def coordLt (a b : AlignedPair) : Prop := a.x < b.x ∨ (a.x = b.x ∧ a.y < b.y)

/-! ## Maximal expected accuracy alignment -/

/-- The list that `getAlignedPairs` returns in a run whose matrices have the
intended size (`getAlignedPairs_eq`): lines 366-391 of the function.  The two
calls of `convertSequence` are made with `sL = strlen(s)`, so their assertions
hold (`convertSequence_in_getAlignedPairs`). -/
def getAlignedPairs_allocated [FloorRing K] (exp : K → K) (PAIR_ALIGNMENT_PROB_1 : Nat)
    (sX sY : List Char) : List AlignedPair :=
  let lX : Int := (sX.length : Int) + 1
  let lY : Int := (sY.length : Int) + 1
  let cSX := (convertSequence sX (lX - 1)).getD []
  let cSY := (convertSequence sY (lY - 1)).getD []
  let fM : List (Dbl K) := forwardMatrix lX lY cSX cSY
  let bM : List (Dbl K) := backwardMatrix lX lY cSX cSY
  let totalFProb := totalForwardProb fM lX lY
  let totalBProb := totalBackwardProb bM lX
  let totalProb := (totalFProb + totalBProb) / fin 2
  getPosteriorProbs exp PAIR_ALIGNMENT_PROB_1 fM bM lX lY cSX cSY [] totalProb

/-- The function `getAlignedPairs`.  The result is `none` when the run does not
return: the cell count of `getEmptyMatrix`, called by `forwardMatrix` and by
`backwardMatrix`, has wrapped (`matricesOverflow`), so that `st_malloc`
aborts or the matrices are written outside their buffers.  The two calls of
`convertSequence` are made with `sL = strlen(s)`, so their assertions hold
(`convertSequence_in_getAlignedPairs`). -/
def getAlignedPairs [FloorRing K] (exp : K → K) (PAIR_ALIGNMENT_PROB_1 : Nat)
    (sX sY : List Char) : Option (List AlignedPair) :=
  let lX : Int := (sX.length : Int) + 1
  let lY : Int := (sY.length : Int) + 1
  let cSX := (convertSequence sX (lX - 1)).getD []
  let cSY := (convertSequence sY (lY - 1)).getD []
  if matricesOverflow lX lY then none
  else
    let fM : List (Dbl K) := forwardMatrix lX lY cSX cSY
    let bM : List (Dbl K) := backwardMatrix lX lY cSX cSY
    let totalFProb := totalForwardProb fM lX lY
    let totalBProb := totalBackwardProb bM lX
    let totalProb := (totalFProb + totalBProb) / fin 2
    some (getPosteriorProbs exp PAIR_ALIGNMENT_PROB_1 fM bM lX lY cSX cSY [] totalProb)

/-- The function `getSubString`.  With a negative `length` the call does not
return: `st_malloc` aborts on the size `length + 1` when it is negative, and
`memcpy` is not defined for the length `-1`.  A range that leaves the string
is outside the defined behaviour of `memcpy` too. -/
def getSubString (cA : List Char) (start length : Int) : Option (List Char) :=
  if 0 ≤ start ∧ 0 ≤ length ∧ start + length ≤ (cA.length : Int) then
    some ((cA.drop start.toNat).take length.toNat)
  else none

/-- The function `getAlignedPairsFast_cmpFn`. -/
def getAlignedPairsFast_cmpFn (i j : AlignedPair) : Int :=
  let k := i.x - j.x
  let l := i.y - j.y
  if k = 0 then l else k

/-- Modelled from the spec: sonLib's `stSortedSet` is not under `src/`; the
set "keyed by (x, y)" that is returned "as an ordered list" is a list kept in
ascending order of the comparison function.  This is `stSortedSet_search`. -/
def stSortedSet_search (cmp : AlignedPair → AlignedPair → Int)
    (sortedSet : List AlignedPair) (i : AlignedPair) : Option AlignedPair :=
  sortedSet.find? (fun j => decide (cmp i j = 0))

/-- Modelled from the spec: sonLib's `stSortedSet_remove`, not under `src/`:
the entry that compares equal to `i` leaves the set. -/
def stSortedSet_remove (cmp : AlignedPair → AlignedPair → Int)
    (sortedSet : List AlignedPair) (i : AlignedPair) : List AlignedPair :=
  sortedSet.filter (fun j => decide (cmp i j ≠ 0))

/-- Modelled from the spec: sonLib's `stSortedSet_insert`, not under `src/`:
`i` enters the set at its place in the order, unless an entry that compares
equal to it is already there. -/
def stSortedSet_insert (cmp : AlignedPair → AlignedPair → Int) :
    List AlignedPair → AlignedPair → List AlignedPair
  | [], i => [i]
  | j :: sortedSet, i =>
    if cmp i j < 0 then i :: j :: sortedSet
    else if cmp i j = 0 then j :: sortedSet
    else j :: stSortedSet_insert cmp sortedSet i

/-- Modelled from the spec: sonLib's `stSortedSet_getList`, not under `src/`:
the entries in ascending order. -/
def stSortedSet_getList (sortedSet : List AlignedPair) : List AlignedPair := sortedSet

/-- The variables of `getAlignedPairs_Fast` that live across the iterations of
its `while` loop. -/
structure BandState where
  offsetX : Int
  offsetY : Int
  alignedPairs : List AlignedPair
  done : Bool
  deriving DecidableEq, Repr

/-- Lines 472-503 of `getAlignedPairs_Fast`: the choice of the next offsets.
The result is `(offsetX, offsetY, done)` after the block, `none` when one of
its two assertions fails. -/
def chooseNextOffsets (alignedPairs2 : List AlignedPair)
    (offsetX offsetY lX lY lX2 lY2 startDiag endDiag minTraceBackDiag : Int) :
    Option (Int × Int × Bool) :=
  if offsetX + lX2 < lX ∨ offsetY + lY2 < lY then
    let traceBackDiag := endDiag - minTraceBackDiag
    let traceForwardDiag := startDiag + Int.tdiv (lX2 + lY2) 2
    let (newOffsetX, newOffsetY, maxScore) :=
      alignedPairs2.foldl (fun (acc : Int × Int × Int) i =>
        let j := i.x
        let k := i.y
        let diagC := j + k
        if diagC ≥ traceForwardDiag ∧ diagC ≤ traceBackDiag ∧ i.score > acc.2.2 then
          (j, k, i.score)
        else acc) (offsetX, offsetY, -1)
    if maxScore ≠ -1 then
      if newOffsetX > offsetX ∨ newOffsetY > offsetY then
        some (newOffsetX, newOffsetY, false)
      else none
    else
      if newOffsetX = offsetX ∧ newOffsetY = offsetY then
        some (offsetX, offsetY, true)
      else none
  else some (offsetX, offsetY, true)

/-- Lines 505-543 of `getAlignedPairs_Fast`: what becomes of the set when one
pair `i`, popped from the band's list, is offered to it.  The sum of the two
scores is an `int32_t` sum. -/
def mergePair (startDiag endDiag minTraceGapDiags : Int) (done : Bool)
    (alignedPairs : List AlignedPair) (i : AlignedPair) : List AlignedPair :=
  let l := i.x
  let m := i.y
  if (startDiag = 0 ∨ l + m ≥ startDiag + minTraceGapDiags)
      ∧ (done = true ∨ l + m ≤ endDiag - minTraceGapDiags) then
    match stSortedSet_search getAlignedPairsFast_cmpFn alignedPairs i with
    | some j =>
      let alignedPairs := stSortedSet_remove getAlignedPairsFast_cmpFn alignedPairs i
      let k : AlignedPair := ⟨Int.tdiv (wrapInt32 (i.score + j.score)) 2, l, m⟩
      stSortedSet_insert getAlignedPairsFast_cmpFn alignedPairs k
    | none => stSortedSet_insert getAlignedPairsFast_cmpFn alignedPairs i
  else alignedPairs

/-- One iteration of the `while` loop of `getAlignedPairs_Fast` (lines
443-545); `none` when the iteration does not come to its end: a call of
`getSubString` or of `getAlignedPairs` fails, or one of the two assertions
does. -/
def bandIteration [FloorRing K] (exp : K → K) (PAIR_ALIGNMENT_PROB_1 : Nat)
    (sX sY : List Char) (bandingSize : Int) (st : BandState) : Option BandState :=
  let lX : Int := sX.length
  let lY : Int := sY.length
  let minTraceBackDiag : Int := 50
  let minTraceGapDiags : Int := 5
  let offsetX := st.offsetX
  let offsetY := st.offsetY
  let lX2 := if lX < bandingSize + offsetX then lX - offsetX else bandingSize
  match getSubString sX offsetX lX2 with
  | none => none
  | some sX2 =>
    let lY2 := if lY < bandingSize + offsetY then lY - offsetY else bandingSize
    match getSubString sY offsetY lY2 with
    | none => none
    | some sY2 =>
      match getAlignedPairs exp PAIR_ALIGNMENT_PROB_1 sX2 sY2 with
      | none => none
      | some alignedPairs2 =>
        let alignedPairs2 : List AlignedPair :=
          alignedPairs2.map (fun i => ⟨i.score, i.x + offsetX, i.y + offsetY⟩)
        let startDiag := offsetX + offsetY
        let endDiag := startDiag + lX2 + lY2
        match chooseNextOffsets alignedPairs2 offsetX offsetY lX lY lX2 lY2 startDiag endDiag
            minTraceBackDiag with
        | none => none
        | some (offsetX, offsetY, done) =>
          some ⟨offsetX, offsetY,
            alignedPairs2.reverse.foldl (mergePair startDiag endDiag minTraceGapDiags done)
              st.alignedPairs,
            done⟩

/-- The `while (!done)` loop of `getAlignedPairs_Fast`, run for at most `fuel`
iterations; `none` also when the iterations are used up. -/
def bandLoop [FloorRing K] (exp : K → K) (PAIR_ALIGNMENT_PROB_1 : Nat)
    (sX sY : List Char) (bandingSize : Int) : Nat → BandState → Option BandState
  | 0, _ => none
  | fuel + 1, st =>
    match bandIteration exp PAIR_ALIGNMENT_PROB_1 sX sY bandingSize st with
    | none => none
    | some st' =>
      if st'.done then some st'
      else bandLoop exp PAIR_ALIGNMENT_PROB_1 sX sY bandingSize fuel st'

/-- The function `getAlignedPairs_Fast`.  The loop is given
`strlen(sX) + strlen(sY) + 1` iterations, which it never uses up
(`bandLoop_fuel`). -/
def getAlignedPairs_Fast [FloorRing K] (exp : K → K) (PAIR_ALIGNMENT_PROB_1 : Nat)
    (sX sY : List Char) (bandingSize : Int) : Option (List AlignedPair) :=
  (bandLoop exp PAIR_ALIGNMENT_PROB_1 sX sY bandingSize (sX.length + sY.length + 1)
    ⟨0, 0, [], false⟩).map (fun st => stSortedSet_getList st.alignedPairs)

/-! ## A certificate for the accuracy of `lookup`

Integer arithmetic that bounds `log (1 + exp t)` at the grid points
`t = k/16`, `k = 0 .. 120`, and compares the pieces of the decimal cubic
`specCubic` with the chords between them.  The cubic of `lookup` itself,
`lookupCubic`, is within `2.1e-7` of the decimal cubic
(`lookupCubic_sub_specCubic`). -/

/-- The numerator of the partial sum `1 + r + r^2/2! + .. + r^9/9!` of the
exponential series at `r = n / 10^6`, over the denominator `9! * 10^54`: a lower
bound of `exp r`. -/
def expSeriesLowNum (n : Nat) : Nat :=
  362880 * 10 ^ 54 + 362880 * 10 ^ 48 * n + 181440 * 10 ^ 42 * n ^ 2
    + 60480 * 10 ^ 36 * n ^ 3 + 15120 * 10 ^ 30 * n ^ 4 + 3024 * 10 ^ 24 * n ^ 5
    + 504 * 10 ^ 18 * n ^ 6 + 72 * 10 ^ 12 * n ^ 7 + 9 * 10 ^ 6 * n ^ 8 + n ^ 9

/-- The numerator of the partial sum with its remainder bound
`r^10 * 11 / (10! * 10)` at `r = n / 10^6`, over the denominator
`9! * 10^62`: an upper bound of `exp r` for `0 ≤ r ≤ 1`. -/
def expSeriesUppNum (n : Nat) : Nat := expSeriesLowNum n * 10 ^ 8 + 11 * n ^ 10

/-- Lower bounds of `10^6 * log (1 + exp (-k/16))` for `k = 0 .. 120`. -/
def gridLow : List Nat :=
  [693146, 662384, 632598, 603784, 575938, 549053, 523122, 498133, 474075, 450936, 428699,
   407350, 386870, 367241, 348443, 330457, 313260, 296832, 281149, 266188, 251928, 238343,
   225411, 213109, 201412, 190298, 179743, 169726, 160223, 151212, 142674, 134585, 126927,
   119678, 112821, 106336, 100205, 94411, 88938, 83769, 78888, 74282, 69935, 65834, 61966, 58319,
   54881, 51640, 48586, 45708, 42998, 40444, 38040, 35776, 33644, 31638, 29749, 27971, 26299,
   24725, 23244, 21851, 20540, 19308, 18148, 17058, 16033, 15069, 14162, 13310, 12508, 11755,
   11046, 10380, 9754, 9166, 8613, 8093, 7605, 7145, 6714, 6308, 5927, 5569, 5232, 4916, 4619,
   4339, 4077, 3830, 3599, 3381, 3176, 2984, 2803, 2634, 2474, 2324, 2184, 2051, 1927, 1810,
   1701, 1598, 1501, 1410, 1324, 1244, 1169, 1098, 1031, 969, 910, 855, 803, 754, 708, 665, 625,
   587, 551]

/-- Upper bounds of `10^6 * log (1 + exp (-k/16))` for `k = 0 .. 120`. -/
def gridUpp : List Nat :=
  [693149, 662387, 632601, 603787, 575941, 549056, 523125, 498136, 474078, 450939, 428702,
   407353, 386873, 367244, 348446, 330460, 313263, 296835, 281152, 266191, 251931, 238346,
   225414, 213112, 201415, 190301, 179746, 169729, 160226, 151215, 142677, 134588, 126930,
   119681, 112824, 106339, 100208, 94414, 88941, 83772, 78891, 74285, 69938, 65837, 61969, 58322,
   54884, 51643, 48589, 45711, 43001, 40447, 38043, 35779, 33647, 31641, 29752, 27974, 26302,
   24728, 23247, 21854, 20543, 19311, 18151, 17061, 16036, 15072, 14165, 13313, 12511, 11758,
   11049, 10383, 9757, 9169, 8616, 8096, 7608, 7148, 6717, 6311, 5930, 5572, 5235, 4919, 4622,
   4342, 4080, 3833, 3602, 3384, 3179, 2987, 2806, 2637, 2477, 2327, 2187, 2054, 1930, 1813,
   1704, 1601, 1504, 1413, 1327, 1247, 1172, 1101, 1034, 972, 913, 858, 806, 757, 711, 668, 628,
   590, 554]

/-- The check that the two bounds at grid point `k` are sound:
`exp (gridLow[k] / 10^6) ≤ 1 + exp (-1/16) ^ k ≤ exp (gridUpp[k] / 10^6)`, with
the bounds of `exp (1/16) = exp (62500 / 10^6)` by the series. -/
def gridOK (k : Nat) : Bool :=
  decide (gridLow.getD k 0 ≤ 1000000)
  && decide (expSeriesUppNum (gridLow.getD k 0) * expSeriesUppNum 62500 ^ k
      ≤ (362880 * 10 ^ 62) * (expSeriesUppNum 62500 ^ k + (362880 * 10 ^ 62) ^ k))
  && decide ((362880 * 10 ^ 54) * (expSeriesLowNum 62500 ^ k + (362880 * 10 ^ 54) ^ k)
      ≤ expSeriesLowNum (gridUpp.getD k 0) * expSeriesLowNum 62500 ^ k)

/-- The coefficients `(c3, c2, c1, c0)`, times `10^15`, of the piece of
`specCubic` that is used on `(k/16, (k+1)/16]`: the decimals of the literals of
`lookup`. -/
def pieceCoeffs (k : Nat) : Int × Int × Int × Int :=
  if k + 1 ≤ 16 then
    (-9350833524763, 130659527668286, 498799810682272, 693203116424741)
  else if k + 1 ≤ 40 then
    (-14532321752540, 139942324101744, 495635523139337, 692140569840976)
  else if k + 1 ≤ 72 then
    (-4605031767994, 63427417320019, 695956496475118, 514272634594009)
  else
    (-458661602210, 9695946122598, 930734667215156, 168037164329057)

/-- The value at `n/16` of the cubic of coefficients `c`, times `4096 * 10^15`. -/
def pieceValNum (c : Int × Int × Int × Int) (n : Int) : Int :=
  4096 * c.2.2.2 + 256 * c.2.2.1 * n + 16 * c.2.1 * n ^ 2 + c.1 * n ^ 3

/-- The derivative at `n/16` of the cubic of coefficients `c`, times
`256 * 10^15`. -/
def pieceDerNum (c : Int × Int × Int × Int) (n : Int) : Int :=
  256 * c.2.2.1 + 32 * c.2.1 * n + 3 * c.1 * n ^ 2

/-- The lower bound `k/16 + gridLow[k] / 10^6` of `log (1 + exp (k/16))`, times
`4096 * 10^15`. -/
def gridLowNum (k : Nat) : Int :=
  256 * 10 ^ 15 * (k : Int) + 4096 * 10 ^ 9 * (gridLow.getD k 0 : Int)

/-- The upper bound `k/16 + gridUpp[k] / 10^6` of `log (1 + exp (k/16))`, times
`4096 * 10^15`. -/
def gridUppNum (k : Nat) : Int :=
  256 * 10 ^ 15 * (k : Int) + 4096 * 10 ^ 9 * (gridUpp.getD k 0 : Int)

/-- The check for the interval `[k/16, (k+1)/16]`, for the tolerance
`eps / (4096 * 10^15)`: the piece of `specCubic` less the chord through the upper
grid bounds, and the chord through the lower grid bounds less
`(t - a) (b - t) / 8` less the piece, are cubics whose four coefficients in the
Bernstein basis of the interval are at least `-eps`. -/
def intervalOK (eps : Int) (k : Nat) : Bool :=
  let c := pieceCoeffs k
  let pa := pieceValNum c k
  let pb := pieceValNum c (k + 1)
  let da := pieceDerNum c k
  let db := pieceDerNum c (k + 1)
  let la := gridLowNum k
  let lb := gridLowNum (k + 1)
  let ua := gridUppNum k
  let ub := gridUppNum (k + 1)
  decide (0 ≤ eps + la - pa)
  && decide (0 ≤ 3 * (eps + la - pa) + (lb - la) - 2 * 10 ^ 15 - da)
  && decide (0 ≤ 3 * (eps + lb - pb) - (lb - la) - 2 * 10 ^ 15 + db)
  && decide (0 ≤ eps + lb - pb)
  && decide (0 ≤ eps - ua + pa)
  && decide (0 ≤ 3 * (eps - ua + pa) + da - (ub - ua))
  && decide (0 ≤ 3 * (eps - ub + pb) - db + (ub - ua))
  && decide (0 ≤ eps - ub + pb)

/-- The check for the whole of `[0, 7.5]`: the bounds at the 121 grid points
and the 120 intervals between them. -/
def lookupCertOK (eps : Int) : Bool :=
  (List.range 121).all gridOK && (List.range 120).all (intervalOK eps)

/-! ## Auxiliary definitions for the statements on the band loop and on `logAdd` -/

/-- A value of the log domain: a finite number or the sentinel `logZero`. -/
def Dbl.isLog : Dbl K → Bool
  | negInf => true
  | fin _ => true
  | _ => false

/-- Lines 445 and 449 of `getAlignedPairs_Fast`: the length `lX2` (`lY2`) of
the band's substring of a sequence of length `l` from `offset` on. -/
def bandLength (l bandingSize offset : Int) : Int :=
  if l < bandingSize + offset then l - offset else bandingSize

/-- Lines 516-539 of `getAlignedPairs_Fast`: the merge of a pair `i` that
passed the test of line 514 into the set. -/
def mergeIntoSet (alignedPairs : List AlignedPair) (i : AlignedPair) : List AlignedPair :=
  match stSortedSet_search getAlignedPairsFast_cmpFn alignedPairs i with
  | some j =>
    let alignedPairs := stSortedSet_remove getAlignedPairsFast_cmpFn alignedPairs i
    let k : AlignedPair := ⟨Int.tdiv (wrapInt32 (i.score + j.score)) 2, i.x, i.y⟩
    stSortedSet_insert getAlignedPairsFast_cmpFn alignedPairs k
  | none => stSortedSet_insert getAlignedPairsFast_cmpFn alignedPairs i

/-! ## The sparse forward-cell update of the design note -/

/-- The source states with a finite entry in the table of `transitionProb` for
the destination `toState`: the "per-`to` list of valid `from` states" of the
spec's design note. -/
def finiteSources (toState : Nat) : List Nat :=
  match toState with
  | 0 => [0, 1, 2, 3, 4]
  | 1 => [0, 1, 2]
  | 2 => [0, 1, 2]
  | 3 => [0, 3]
  | 4 => [0, 4]
  | _ => []

/-- The forward-cell update of the spec's design note, written from the spec's
words: as `forwardCell`, but for each destination state the inner loop runs
over the source states with a finite transition only. -/
def forwardCellSparse (fM : List (Dbl K)) (x y lX lY : Int) (sX sY : List Nat) :
    List (Dbl K) :=
  match getCell x y lX with
  | none => fM
  | some cell =>
    (List.range cellNo).foldl (fun fM toState =>
      match getCell (x - getTransitionOffSetX toState) (y - getTransitionOffSetY toState) lX with
      | none => fM
      | some pCell =>
        let eP : Dbl K := emissionProb x y lX lY sX sY toState
        (finiteSources toState).foldl (fun fM fromState =>
          fM.set (cell + toState)
            (logAddAndAssign (fM.getD (cell + toState) nan)
              (fM.getD (pCell + fromState) nan + transitionProb fromState toState + eP))) fM) fM

/-! ## The aligner with the checks of `BEN_DEBUG` -/

/-- The function `checkState` with `BEN_DEBUG` defined: whether its two
assertions hold (`state >= 0` holds of every state of the model). -/
def checkState (state : Nat) : Bool := decide (state < cellNo)

/-- The function `checkPosition` with `BEN_DEBUG` defined: whether its two
assertions hold. -/
def checkPosition (z zL : Int) : Bool := decide (z ≥ 1) && decide (z < zL)

/-- The function `emissionProb` with the assertions of `BEN_DEBUG` and the
bounds of its array reads made explicit: `none` when `checkState` or
`checkPosition` fails, when a read `sX[x - 1]`, `sY[y - 1]` is outside the
encoded sequence, or when an index is outside its table. -/
def emissionProbChecked (x y lX lY : Int) (sX sY : List Nat) (state : Nat) :
    Option (Dbl K) :=
  if checkState state then
    match state with
    | 0 =>
      if checkPosition x lX && checkPosition y lY then
        match sX[(x - 1).toNat]?, sY[(y - 1).toNat]? with
        | some a, some b => (matchM (K := K))[a * 5 + b]?
        | _, _ => none
      else none
    | 1 =>
      if checkPosition x lX then
        match sX[(x - 1).toNat]? with
        | some a => (gapM (K := K))[a]?
        | none => none
      else none
    | 3 =>
      if checkPosition x lX then
        match sX[(x - 1).toNat]? with
        | some a => (gapM (K := K))[a]?
        | none => none
      else none
    | 2 =>
      if checkPosition y lY then
        match sY[(y - 1).toNat]? with
        | some b => (gapM (K := K))[b]?
        | none => none
      else none
    | 4 =>
      if checkPosition y lY then
        match sY[(y - 1).toNat]? with
        | some b => (gapM (K := K))[b]?
        | none => none
      else none
    | _ => none
  else none

/-- The function `forwardCell` over `emissionProbChecked`: `none` when a call
of `emissionProb` fails a check. -/
def forwardCellChecked (fM : List (Dbl K)) (x y lX lY : Int) (sX sY : List Nat) :
    Option (List (Dbl K)) :=
  match getCell x y lX with
  | none => some fM
  | some cell =>
    (List.range cellNo).foldlM (fun fM toState =>
      match getCell (x - getTransitionOffSetX toState) (y - getTransitionOffSetY toState) lX with
      | none => some fM
      | some pCell =>
        match emissionProbChecked x y lX lY sX sY toState with
        | none => none
        | some eP =>
          some ((List.range cellNo).foldl (fun fM fromState =>
            fM.set (cell + toState)
              (logAddAndAssign (fM.getD (cell + toState) nan)
                (fM.getD (pCell + fromState) nan + transitionProb fromState toState + eP)))
            fM)) fM

/-- The function `forwardMatrix` over `forwardCellChecked`. -/
def forwardMatrixChecked (lX lY : Int) (sX sY : List Nat) : Option (List (Dbl K)) :=
  (List.range lX.toNat).foldlM (fun fM (x : Nat) =>
    (List.range lY.toNat).foldlM (fun fM (y : Nat) =>
      forwardCellChecked fM x y lX lY sX sY) fM) (initialiseForwardMatrix lX lY)

/-- The function `backwardCell` over `emissionProbChecked`: `none` when a call
of `emissionProb` fails a check. -/
def backwardCellChecked (bM : List (Dbl K)) (x y lX lY : Int) (sX sY : List Nat) :
    Option (List (Dbl K)) :=
  match getCell x y lX with
  | none => some bM
  | some cell =>
    (List.range cellNo).foldlM (fun bM toState =>
      match getCell (x - getTransitionOffSetX toState) (y - getTransitionOffSetY toState) lX with
      | none => some bM
      | some pCell =>
        match emissionProbChecked x y lX lY sX sY toState with
        | none => none
        | some eP =>
          some ((List.range cellNo).foldl (fun bM fromState =>
            bM.set (pCell + fromState)
              (logAddAndAssign (bM.getD (pCell + fromState) nan)
                (bM.getD (cell + toState) nan + transitionProb fromState toState + eP)))
            bM)) bM

/-- The function `backwardMatrix` over `backwardCellChecked`. -/
def backwardMatrixChecked (lX lY : Int) (sX sY : List Nat) : Option (List (Dbl K)) :=
  (List.range lX.toNat).reverse.foldlM (fun bM (x : Nat) =>
    (List.range lY.toNat).reverse.foldlM (fun bM (y : Nat) =>
      backwardCellChecked bM x y lX lY sX sY) bM) (initialiseBackwardMatrix lX lY)

/-- The function `posteriorMatchProb` over `emissionProbChecked`: `none` when
the call of `emissionProb` fails a check or the assertion `pCell != NULL`
fails. -/
def posteriorMatchProbChecked (exp : K → K) (fM bM : List (Dbl K)) (x y lX lY : Int)
    (sX sY : List Nat) (totalProb : Dbl K) : Option (Dbl K) :=
  let toState : Nat := 0
  match getCell (x - 1) (y - 1) lX, getCell x y lX with
  | some pCell, some cell =>
    match emissionProbChecked x y lX lY sX sY toState with
    | none => none
    | some eP =>
      let f : Dbl K := fM.getD (pCell + 0) nan + transitionProb 0 toState + eP
        + bM.getD (cell + toState) nan
      let f := (List.range' 1 (cellNo - 1)).foldl (fun f fromState =>
        logAddAndAssign f (fM.getD (pCell + fromState) nan + transitionProb fromState toState
          + eP + bM.getD (cell + toState) nan)) f
      some (Dbl.exp exp (f - totalProb))
  | _, _ => none

/-- The function `getPosteriorProbs` over `posteriorMatchProbChecked`. -/
def getPosteriorProbsChecked [FloorRing K] (exp : K → K) (PAIR_ALIGNMENT_PROB_1 : Nat)
    (fM bM : List (Dbl K)) (lX lY : Int) (sX sY : List Nat)
    (alignedPairs : List AlignedPair) (totalProb : Dbl K) : Option (List AlignedPair) :=
  (List.range' 1 (lX.toNat - 1)).foldlM (fun alignedPairs (x : Nat) =>
    (List.range' 1 (lY.toNat - 1)).foldlM (fun alignedPairs (y : Nat) =>
      match posteriorMatchProbChecked exp fM bM x y lX lY sX sY totalProb with
      | none => none
      | some f =>
        if Dbl.ge f posteriorMatchThreshold then
          let f : Dbl K := if Dbl.gt f (fin 1.0) then fin 1.0 else f
          some (alignedPairs ++
            [⟨floorToInt32 (f * fin (PAIR_ALIGNMENT_PROB_1 : K)), (x : Int) - 1, (y : Int) - 1⟩])
        else some alignedPairs) alignedPairs) alignedPairs

/-! ## Rational runs of the aligner -/

/-- The double over `K` with the rational value of `x`. -/
def Dbl.ofRat : Dbl ℚ → Dbl K
  | nan => nan
  | negInf => negInf
  | fin q => fin (q : K)
  | posInf => posInf

/-- Whether a double is a finite number of `[lo, hi]`. -/
def Dbl.inRange (lo hi : K) : Dbl K → Bool
  | fin q => decide (lo ≤ q) && decide (q ≤ hi)
  | _ => false

/-- Lines 325-335 of `posteriorMatchProb`, and the difference `f - totalProb`
of line 336: the argument of `exp`. -/
def posteriorMatchLog (fM bM : List (Dbl K)) (x y lX lY : Int)
    (sX sY : List Nat) (totalProb : Dbl K) : Dbl K :=
  let toState : Nat := 0
  match getCell (x - 1) (y - 1) lX, getCell x y lX with
  | some pCell, some cell =>
    let eP : Dbl K := emissionProb x y lX lY sX sY toState
    let f : Dbl K := fM.getD (pCell + 0) nan + transitionProb 0 toState + eP
      + bM.getD (cell + toState) nan
    let f := (List.range' 1 (cellNo - 1)).foldl (fun f fromState =>
      logAddAndAssign f (fM.getD (pCell + fromState) nan + transitionProb fromState toState
        + eP + bM.getD (cell + toState) nan)) f
    f - totalProb
  | _, _ => nan

/-- Lines 366-377 of `getAlignedPairs` and the call of `posteriorMatchProb`
for the cell `(x, y)` made by `getPosteriorProbs`, up to the argument of
`exp`. -/
def alignmentPosteriorLog (sX sY : List Char) (x y : Int) : Dbl K :=
  let lX : Int := (sX.length : Int) + 1
  let lY : Int := (sY.length : Int) + 1
  let cSX := (convertSequence sX (lX - 1)).getD []
  let cSY := (convertSequence sY (lY - 1)).getD []
  let fM : List (Dbl K) := forwardMatrix lX lY cSX cSY
  let bM : List (Dbl K) := backwardMatrix lX lY cSX cSY
  let totalFProb := totalForwardProb fM lX lY
  let totalBProb := totalBackwardProb bM lX
  let totalProb := (totalFProb + totalBProb) / fin 2
  posteriorMatchLog fM bM x y lX lY cSX cSY totalProb

/-! ## The exchange of the two sequences on the states -/

/-- The permutation of the five states that goes with the exchange of `X` and
`Y`, written from the spec's words: it swaps the short gaps `1 <-> 2` and the
long gaps `3 <-> 4`, and fixes the match state `0`. -/
def swapState (state : Nat) : Nat :=
  match state with
  | 1 => 2
  | 2 => 1
  | 3 => 4
  | 4 => 3
  | s => s

/-! ## Enclosures of the values of a run

A run of the aligner on given sequences is a long chain of exact operations on
decimal constants, and its exact values have numerators of millions of digits.
The definitions of this section follow a run with enclosures: integer bounds,
in units of `2 ^ (-48)`, that are rounded outwards after every product. -/

/-- An enclosure of a double: `negInf` stands for the value `logZero`,
`box lo hi` for a finite number between `lo / 2 ^ 48` and `hi / 2 ^ 48`, and
`top` for any double. -/
inductive Box where
  | negInf : Box
  | box (lo hi : Int) : Box
  | top : Box
  deriving DecidableEq, Repr

/-- The number of units in 1: `2 ^ 48`. -/
def boxUnit : Int := 281474976710656

/-- The doubles that an enclosure stands for. -/
def boxEncloses (b : Box) (v : Dbl K) : Prop :=
  match b with
  | Box.negInf => v = negInf
  | Box.box lo hi => ∃ r : K, v = fin r ∧ (lo : K) ≤ r * (boxUnit : K) ∧ r * (boxUnit : K) ≤ (hi : K)
  | Box.top => True

/-- Whether an enclosure is a box inside `[lo, hi]` (in units). -/
def boxWithin (lo hi : Int) : Box → Bool
  | Box.box a b => decide (lo ≤ a) && decide (b ≤ hi)
  | _ => false

/-- The enclosure of a rational double: the units are rounded down and up. -/
def boxOfRat : Dbl ℚ → Box
  | fin q => Box.box ⌊q * 281474976710656⌋ ⌈q * 281474976710656⌉
  | negInf => Box.negInf
  | _ => Box.top

/-- The quotient `n / 2 ^ 48`, rounded down. -/
def boxDivDown (n : Int) : Int := n / boxUnit

/-- The quotient `n / 2 ^ 48`, rounded up. -/
def boxDivUp (n : Int) : Int := -((-n) / boxUnit)

/-- An enclosure of the sum of two doubles. -/
def boxAdd : Box → Box → Box
  | Box.negInf, Box.negInf => Box.negInf
  | Box.negInf, Box.box _ _ => Box.negInf
  | Box.box _ _, Box.negInf => Box.negInf
  | Box.box a b, Box.box c d => Box.box (a + c) (b + d)
  | _, _ => Box.top

/-- An enclosure of the difference of two finite doubles. -/
def boxSub : Box → Box → Box
  | Box.box a b, Box.box c d => Box.box (a - d) (b - c)
  | _, _ => Box.top

/-- An enclosure of the half of a finite double. -/
def boxHalf : Box → Box
  | Box.box a b => Box.box (a / 2) (-((-b) / 2))
  | _ => Box.top

/-- The coefficients of piece `k` of `lookupCubic` (`k = 0, 1, 2, 3`), in
units: the cubic coefficient with its sign changed, then the quadratic, the
linear and the constant one.  The coefficients of `lookup` are single-precision
numbers, so these are integers. -/
def boxCubicCoeffs (k : Nat) : Int × Int × Int × Int :=
  match k with
  | 0 => (2632025636864, 36777385525248, 140399662333952, 195119324069888)
  | 1 => (4090485014528, 39390260756480, 139508993490944, 194820253417472)
  | 2 => (1296201154560, 17853231136768, 195894330785792, 144754876612608)
  | _ => (129101766656, 2729166241792, 261978526318592, 47298256044032)

/-- An enclosure of the cubic with the coefficients `c` (in units, the first
with its sign changed) on the arguments between `dl` and `dh` (in units, not
negative), by the scheme of Horner. -/
def boxCubic (c : Int × Int × Int × Int) (dl dh : Int) : Box :=
  let t1l := c.2.1 - boxDivUp (c.1 * dh)
  let t1h := c.2.1 - boxDivDown (c.1 * dl)
  if t1l < 0 then Box.top
  else
    let t2l := boxDivDown (t1l * dl) + c.2.2.1
    let t2h := boxDivUp (t1h * dh) + c.2.2.1
    if t2l < 0 then Box.top
    else Box.box (boxDivDown (t2l * dl) + c.2.2.2) (boxDivUp (t2h * dh) + c.2.2.2)

/-- An enclosure of `lookupCubic` on the arguments between `dl` and `dh` (in
units), when they all lie in one piece. -/
def boxLookupCubic (dl dh : Int) : Box :=
  if dl < 0 then Box.top
  else if dh ≤ boxUnit then boxCubic (boxCubicCoeffs 0) dl dh
  else if boxUnit < dl ∧ 2 * dh ≤ 5 * boxUnit then boxCubic (boxCubicCoeffs 1) dl dh
  else if 5 * boxUnit < 2 * dl ∧ 2 * dh ≤ 9 * boxUnit then
    boxCubic (boxCubicCoeffs 2) dl dh
  else if 9 * boxUnit < 2 * dl then boxCubic (boxCubicCoeffs 3) dl dh
  else Box.top

/-- An enclosure of `logAdd`: of `max x y` when `|x - y| ≥ 7.5` throughout, of
`min x y + lookupCubic |x - y|` when `|x - y| < 7.5` throughout. -/
def boxLogAdd : Box → Box → Box
  | Box.negInf, b => b
  | a, Box.negInf => a
  | Box.box al ah, Box.box bl bh =>
    let dl := max 0 (max (al - bh) (bl - ah))
    let dh := max (ah - bl) (bh - al)
    if 15 * boxUnit ≤ 2 * dl then Box.box (max al bl) (max ah bh)
    else if 2 * dh < 15 * boxUnit then
      boxAdd (Box.box (min al bl) (min ah bh)) (boxLookupCubic dl dh)
    else Box.top
  | _, _ => Box.top

/-- The enclosure of `transitionProb`. -/
def boxTransitionProb (fromState toState : Nat) : Box :=
  boxOfRat (transitionProb fromState toState)

/-- The enclosure of `emissionProb`. -/
def boxEmissionProb (x y lX lY : Int) (sX sY : List Nat) (state : Nat) : Box :=
  boxOfRat (emissionProb x y lX lY sX sY state)

/-- The enclosures of the matrix of `initialiseForwardMatrix`. -/
def boxInitialiseForwardMatrix (lX lY : Int) : List Box :=
  (initialiseForwardMatrix lX lY).map boxOfRat

/-- The function `forwardCell` on enclosures. -/
def boxForwardCell (fM : List Box) (x y lX lY : Int) (sX sY : List Nat) : List Box :=
  match getCell x y lX with
  | none => fM
  | some cell =>
    (List.range cellNo).foldl (fun fM toState =>
      match getCell (x - getTransitionOffSetX toState) (y - getTransitionOffSetY toState) lX with
      | none => fM
      | some pCell =>
        let eP : Box := boxEmissionProb x y lX lY sX sY toState
        (List.range cellNo).foldl (fun fM fromState =>
          fM.set (cell + toState)
            (boxLogAdd (fM.getD (cell + toState) Box.top)
              (boxAdd (boxAdd (fM.getD (pCell + fromState) Box.top)
                (boxTransitionProb fromState toState)) eP))) fM) fM

/-- The function `forwardMatrix` on enclosures. -/
def boxForwardMatrix (lX lY : Int) (sX sY : List Nat) : List Box :=
  (List.range lX.toNat).foldl (fun fM (x : Nat) =>
    (List.range lY.toNat).foldl (fun fM (y : Nat) =>
      boxForwardCell fM x y lX lY sX sY) fM) (boxInitialiseForwardMatrix lX lY)

/-- The function `totalForwardProb` on enclosures. -/
def boxTotalForwardProb (fM : List Box) (lX lY : Int) : Box :=
  match getCell (lX - 1) (lY - 1) lX with
  | none => Box.top
  | some cell =>
    (List.range' 1 (cellNo - 1)).foldl (fun totalProb i =>
      boxLogAdd totalProb (boxAdd (boxOfRat (endStateProbs i)) (fM.getD (cell + i) Box.top)))
      (boxAdd (boxOfRat (endStateProbs 0)) (fM.getD (cell + 0) Box.top))

/-- The enclosures of the matrix of `initialiseBackwardMatrix`. -/
def boxInitialiseBackwardMatrix (lX lY : Int) : List Box :=
  (initialiseBackwardMatrix lX lY).map boxOfRat

/-- The function `backwardCell` on enclosures. -/
def boxBackwardCell (bM : List Box) (x y lX lY : Int) (sX sY : List Nat) : List Box :=
  match getCell x y lX with
  | none => bM
  | some cell =>
    (List.range cellNo).foldl (fun bM toState =>
      match getCell (x - getTransitionOffSetX toState) (y - getTransitionOffSetY toState) lX with
      | none => bM
      | some pCell =>
        let eP : Box := boxEmissionProb x y lX lY sX sY toState
        (List.range cellNo).foldl (fun bM fromState =>
          bM.set (pCell + fromState)
            (boxLogAdd (bM.getD (pCell + fromState) Box.top)
              (boxAdd (boxAdd (bM.getD (cell + toState) Box.top)
                (boxTransitionProb fromState toState)) eP))) bM) bM

/-- The function `backwardMatrix` on enclosures. -/
def boxBackwardMatrix (lX lY : Int) (sX sY : List Nat) : List Box :=
  (List.range lX.toNat).reverse.foldl (fun bM (x : Nat) =>
    (List.range lY.toNat).reverse.foldl (fun bM (y : Nat) =>
      boxBackwardCell bM x y lX lY sX sY) bM) (boxInitialiseBackwardMatrix lX lY)

/-- The function `totalBackwardProb` on enclosures. -/
def boxTotalBackwardProb (fM : List Box) (lX : Int) : Box :=
  match getCell 0 0 lX with
  | none => Box.top
  | some cell =>
    (List.range' 1 (cellNo - 1)).foldl (fun totalProb i =>
      boxLogAdd totalProb (boxAdd (boxOfRat (startStateProbs i)) (fM.getD (cell + i) Box.top)))
      (boxAdd (boxOfRat (startStateProbs 0)) (fM.getD (cell + 0) Box.top))

/-- The value `posteriorMatchLog` on enclosures. -/
def boxPosteriorMatchLog (fM bM : List Box) (x y lX lY : Int)
    (sX sY : List Nat) (totalProb : Box) : Box :=
  let toState : Nat := 0
  match getCell (x - 1) (y - 1) lX, getCell x y lX with
  | some pCell, some cell =>
    let eP : Box := boxEmissionProb x y lX lY sX sY toState
    let f : Box := boxAdd (boxAdd (boxAdd (fM.getD (pCell + 0) Box.top)
      (boxTransitionProb 0 toState)) eP) (bM.getD (cell + toState) Box.top)
    let f := (List.range' 1 (cellNo - 1)).foldl (fun f fromState =>
      boxLogAdd f (boxAdd (boxAdd (boxAdd (fM.getD (pCell + fromState) Box.top)
        (boxTransitionProb fromState toState)) eP) (bM.getD (cell + toState) Box.top))) f
    boxSub f totalProb
  | _, _ => Box.top

/-- The value `alignmentPosteriorLog` on enclosures. -/
def boxAlignmentPosteriorLog (sX sY : List Char) (x y : Int) : Box :=
  let lX : Int := (sX.length : Int) + 1
  let lY : Int := (sY.length : Int) + 1
  let cSX := (convertSequence sX (lX - 1)).getD []
  let cSY := (convertSequence sY (lY - 1)).getD []
  let fM : List Box := boxForwardMatrix lX lY cSX cSY
  let bM : List Box := boxBackwardMatrix lX lY cSX cSY
  let totalFProb := boxTotalForwardProb fM lX lY
  let totalBProb := boxTotalBackwardProb bM lX
  let totalProb := boxHalf (boxAdd totalFProb totalBProb)
  boxPosteriorMatchLog fM bM x y lX lY cSX cSY totalProb

/-! ## The run of the aligner with the two sequences in exchanged roles

`getAlignedPairs Y X` treats the gaps in `Y` as it treats the gaps in `X` in
`getAlignedPairs X Y`.  Written in the coordinates of `X` and `Y`, it is the
computation of `getAlignedPairs X Y` in which the two states of each kind of gap
have exchanged their places in the loops over the states, and `x` and `y` theirs
in the loops over the cells.  The definitions of this section are that
computation: they are the definitions of `forwardCell` ... `getAlignedPairs`
with the loops in this other order, and with nothing else changed. -/

/-- The order in which the mirrored run takes the states: `swapState` of
`0, 1, 2, 3, 4`. -/
def mirrorStates : List Nat := [0, 2, 1, 4, 3]

/-- The function `initialiseForwardMatrix` with the states in the order
`mirrorStates`. -/
def initialiseForwardMatrixMirror (lX lY : Int) : List (Dbl K) :=
  let fM : List (Dbl K) := getEmptyMatrix lX lY
  match getCell 0 0 lX with
  | none => fM
  | some cell =>
    mirrorStates.foldl (fun fM i => fM.set (cell + i) (startStateProbs i)) fM

/-- The function `initialiseBackwardMatrix` with the states in the order
`mirrorStates`. -/
def initialiseBackwardMatrixMirror (lX lY : Int) : List (Dbl K) :=
  let bM : List (Dbl K) := getEmptyMatrix lX lY
  match getCell (lX - 1) (lY - 1) lX with
  | none => bM
  | some cell =>
    mirrorStates.foldl (fun bM i => bM.set (cell + i) (endStateProbs i)) bM

/-- The function `forwardCell` with the states in the order `mirrorStates`. -/
def forwardCellMirror (fM : List (Dbl K)) (x y lX lY : Int) (sX sY : List Nat) :
    List (Dbl K) :=
  match getCell x y lX with
  | none => fM
  | some cell =>
    mirrorStates.foldl (fun fM toState =>
      match getCell (x - getTransitionOffSetX toState) (y - getTransitionOffSetY toState) lX with
      | none => fM
      | some pCell =>
        let eP : Dbl K := emissionProb x y lX lY sX sY toState
        mirrorStates.foldl (fun fM fromState =>
          fM.set (cell + toState)
            (logAddAndAssign (fM.getD (cell + toState) nan)
              (fM.getD (pCell + fromState) nan + transitionProb fromState toState + eP))) fM) fM

/-- The function `forwardMatrix` with the loop over `y` outside the loop over
`x`, on `forwardCellMirror`. -/
def forwardMatrixMirror (lX lY : Int) (sX sY : List Nat) : List (Dbl K) :=
  (List.range lY.toNat).foldl (fun fM (y : Nat) =>
    (List.range lX.toNat).foldl (fun fM (x : Nat) =>
      forwardCellMirror fM x y lX lY sX sY) fM) (initialiseForwardMatrixMirror lX lY)

/-- The function `totalForwardProb` with the states in the order
`mirrorStates`. -/
def totalForwardProbMirror (fM : List (Dbl K)) (lX lY : Int) : Dbl K :=
  match getCell (lX - 1) (lY - 1) lX with
  | none => nan
  | some cell =>
    mirrorStates.tail.foldl (fun totalProb i =>
      logAddAndAssign totalProb (endStateProbs i + fM.getD (cell + i) nan))
      (endStateProbs 0 + fM.getD (cell + 0) nan)

/-- The function `backwardCell` with the states in the order `mirrorStates`. -/
def backwardCellMirror (bM : List (Dbl K)) (x y lX lY : Int) (sX sY : List Nat) :
    List (Dbl K) :=
  match getCell x y lX with
  | none => bM
  | some cell =>
    mirrorStates.foldl (fun bM toState =>
      match getCell (x - getTransitionOffSetX toState) (y - getTransitionOffSetY toState) lX with
      | none => bM
      | some pCell =>
        let eP : Dbl K := emissionProb x y lX lY sX sY toState
        mirrorStates.foldl (fun bM fromState =>
          bM.set (pCell + fromState)
            (logAddAndAssign (bM.getD (pCell + fromState) nan)
              (bM.getD (cell + toState) nan + transitionProb fromState toState + eP))) bM) bM

/-- The function `backwardMatrix` with the loop over `y` outside the loop over
`x`, on `backwardCellMirror`. -/
def backwardMatrixMirror (lX lY : Int) (sX sY : List Nat) : List (Dbl K) :=
  (List.range lY.toNat).reverse.foldl (fun bM (y : Nat) =>
    (List.range lX.toNat).reverse.foldl (fun bM (x : Nat) =>
      backwardCellMirror bM x y lX lY sX sY) bM) (initialiseBackwardMatrixMirror lX lY)

/-- The function `totalBackwardProb` with the states in the order
`mirrorStates`. -/
def totalBackwardProbMirror (fM : List (Dbl K)) (lX : Int) : Dbl K :=
  match getCell 0 0 lX with
  | none => nan
  | some cell =>
    mirrorStates.tail.foldl (fun totalProb i =>
      logAddAndAssign totalProb (startStateProbs i + fM.getD (cell + i) nan))
      (startStateProbs 0 + fM.getD (cell + 0) nan)

/-- The function `posteriorMatchProb` with the states in the order
`mirrorStates`. -/
def posteriorMatchProbMirror (exp : K → K) (fM bM : List (Dbl K)) (x y lX lY : Int)
    (sX sY : List Nat) (totalProb : Dbl K) : Dbl K :=
  let toState : Nat := 0
  match getCell (x - 1) (y - 1) lX, getCell x y lX with
  | some pCell, some cell =>
    let eP : Dbl K := emissionProb x y lX lY sX sY toState
    let f : Dbl K := fM.getD (pCell + 0) nan + transitionProb 0 toState + eP
      + bM.getD (cell + toState) nan
    let f := mirrorStates.tail.foldl (fun f fromState =>
      logAddAndAssign f (fM.getD (pCell + fromState) nan + transitionProb fromState toState
        + eP + bM.getD (cell + toState) nan)) f
    Dbl.exp exp (f - totalProb)
  | _, _ => nan

/-- The function `getPosteriorProbs` with the loop over `y` outside the loop
over `x`, on `posteriorMatchProbMirror`. -/
def getPosteriorProbsMirror [FloorRing K] (exp : K → K) (PAIR_ALIGNMENT_PROB_1 : Nat)
    (fM bM : List (Dbl K)) (lX lY : Int) (sX sY : List Nat)
    (alignedPairs : List AlignedPair) (totalProb : Dbl K) : List AlignedPair :=
  (List.range' 1 (lY.toNat - 1)).foldl (fun alignedPairs (y : Nat) =>
    (List.range' 1 (lX.toNat - 1)).foldl (fun alignedPairs (x : Nat) =>
      let f : Dbl K := posteriorMatchProbMirror exp fM bM x y lX lY sX sY totalProb
      if Dbl.ge f posteriorMatchThreshold then
        let f : Dbl K := if Dbl.gt f (fin 1.0) then fin 1.0 else f
        alignedPairs ++
          [⟨floorToInt32 (f * fin (PAIR_ALIGNMENT_PROB_1 : K)), (x : Int) - 1, (y : Int) - 1⟩]
      else alignedPairs) alignedPairs) alignedPairs

/-- The function `getAlignedPairs` on the mirrored functions: the run of
`getAlignedPairs X Y` with the states in the order `mirrorStates` and the cells
column by column. -/
def getAlignedPairsMirror [FloorRing K] (exp : K → K) (PAIR_ALIGNMENT_PROB_1 : Nat)
    (sX sY : List Char) : Option (List AlignedPair) :=
  let lX : Int := (sX.length : Int) + 1
  let lY : Int := (sY.length : Int) + 1
  let cSX := (convertSequence sX (lX - 1)).getD []
  let cSY := (convertSequence sY (lY - 1)).getD []
  if matricesOverflow lX lY then none
  else
    let fM : List (Dbl K) := forwardMatrixMirror lX lY cSX cSY
    let bM : List (Dbl K) := backwardMatrixMirror lX lY cSX cSY
    let totalFProb := totalForwardProbMirror fM lX lY
    let totalBProb := totalBackwardProbMirror bM lX
    let totalProb := (totalFProb + totalBProb) / fin 2
    some (getPosteriorProbsMirror exp PAIR_ALIGNMENT_PROB_1 fM bM lX lY cSX cSY [] totalProb)

/-- The aligned pair with its two coordinates exchanged. -/
def swapPair (t : AlignedPair) : AlignedPair := ⟨t.score, t.y, t.x⟩

/-- The matrix `m` of a run on `(Y, X)` and the matrix `m'` of a run on
`(X, Y)` hold the same values, cell `(y, x)` of the one at cell `(x, y)` of the
other with the states exchanged by `swapState`; `nX = |X| + 1`,
`nY = |Y| + 1`. -/
def Transposed (nX nY : Nat) (m m' : List (Dbl K)) : Prop :=
  m.length = nX * nY * 5 ∧ m'.length = nX * nY * 5 ∧
  ∀ x y s : Nat, x < nX → y < nY → s < 5 →
    m'.getD ((y * nX + x) * 5 + s) nan = m.getD ((x * nY + y) * 5 + swapState s) nan

/-! # Theorems -/

/-! ## Arithmetic of doubles on finite operands -/

namespace Dbl

@[simp] theorem fin_add_fin (a b : K) : (fin a + fin b : Dbl K) = fin (a + b) := rfl

@[simp] theorem fin_sub_fin (a b : K) : (fin a - fin b : Dbl K) = fin (a - b) := by
  show add (fin a) (neg (fin b)) = _
  simp [add, neg, sub_eq_add_neg]

@[simp] theorem fin_mul_fin (a b : K) : (fin a * fin b : Dbl K) = fin (a * b) := rfl

@[simp] theorem lt_fin_fin (a b : K) : lt (fin a) (fin b) = decide (a < b) := rfl

@[simp] theorem eq_fin_fin (a b : K) : eq (fin a) (fin b) = decide (a = b) := rfl

@[simp] theorem le_fin_fin (a b : K) : le (fin a) (fin b) = decide (a ≤ b) := by
  simp [le, le_iff_lt_or_eq]

@[simp] theorem ge_fin_fin (a b : K) : ge (fin a) (fin b) = decide (b ≤ a) := by
  simp [ge]

@[simp] theorem gt_fin_fin (a b : K) : gt (fin a) (fin b) = decide (b < a) := rfl

end Dbl

/-! ## The log-arithmetic kernel -/

theorem cubic_nonneg_of_bernstein (k0 k1 k2 k3 a b t : K) (hat : a ≤ t) (htb : t ≤ b)
    (h0 : 0 ≤ k0 + k1 * a + k2 * a ^ 2 + k3 * a ^ 3)
    (h1 : 0 ≤ k0 + k1 * a + k2 * a ^ 2 + k3 * a ^ 3
      + (k1 + 2 * k2 * a + 3 * k3 * a ^ 2) * (b - a) / 3)
    (h2 : 0 ≤ k0 + k1 * b + k2 * b ^ 2 + k3 * b ^ 3
      - (k1 + 2 * k2 * b + 3 * k3 * b ^ 2) * (b - a) / 3)
    (h3 : 0 ≤ k0 + k1 * b + k2 * b ^ 2 + k3 * b ^ 3) :
    0 ≤ k0 + k1 * t + k2 * t ^ 2 + k3 * t ^ 3 := by
  rcases eq_or_lt_of_le (le_trans hat htb) with hab | hab
  · have : t = a := le_antisymm (hab ▸ htb) hat
    rw [this]; exact h0
  · have hba : 0 < b - a := sub_pos.mpr hab
    have hu : 0 ≤ t - a := sub_nonneg.mpr hat
    have hv : 0 ≤ b - t := sub_nonneg.mpr htb
    have key : (b - a) ^ 3 * (k0 + k1 * t + k2 * t ^ 2 + k3 * t ^ 3)
        = (k0 + k1 * a + k2 * a ^ 2 + k3 * a ^ 3) * (b - t) ^ 3
          + 3 * (k0 + k1 * a + k2 * a ^ 2 + k3 * a ^ 3
              + (k1 + 2 * k2 * a + 3 * k3 * a ^ 2) * (b - a) / 3) * ((t - a) * (b - t) ^ 2)
          + 3 * (k0 + k1 * b + k2 * b ^ 2 + k3 * b ^ 3
              - (k1 + 2 * k2 * b + 3 * k3 * b ^ 2) * (b - a) / 3) * ((t - a) ^ 2 * (b - t))
          + (k0 + k1 * b + k2 * b ^ 2 + k3 * b ^ 3) * (t - a) ^ 3 := by
      ring
    have hrhs : 0 ≤ (b - a) ^ 3 * (k0 + k1 * t + k2 * t ^ 2 + k3 * t ^ 3) := by
      rw [key]
      positivity
    exact nonneg_of_mul_nonneg_right hrhs (by positivity)

theorem lookup_fin (t : K) : lookup (fin t) = fin (lookupCubic t) := by
  unfold lookup lookupCubic
  simp only [le_fin_fin, decide_eq_true_eq, fin_mul_fin, fin_add_fin]
  norm_num
  split_ifs <;> rfl

theorem lookup_coefficients :
    ((-0.009350833483040332794189453125 : ℚ) = -10040381 / 2 ^ 30
      ∧ |(-0.009350833483040332794189453125 : ℚ) - (-0.009350833524763)| < 1 / 2 ^ 31)
    ∧ ((0.130659520626068115234375 : ℚ) = 8768412 / 2 ^ 26
      ∧ |(0.130659520626068115234375 : ℚ) - 0.130659527668286| < 1 / 2 ^ 27)
    ∧ ((0.498799800872802734375 : ℚ) = 16736944 / 2 ^ 25
      ∧ |(0.498799800872802734375 : ℚ) - 0.498799810682272| < 1 / 2 ^ 26)
    ∧ ((0.69320309162139892578125 : ℚ) = 11630018 / 2 ^ 24
      ∧ |(0.69320309162139892578125 : ℚ) - 0.693203116424741| < 1 / 2 ^ 25)
    ∧ ((-0.01453232206404209136962890625 : ℚ) = -15603962 / 2 ^ 30
      ∧ |(-0.01453232206404209136962890625 : ℚ) - (-0.014532321752540)| < 1 / 2 ^ 31)
    ∧ ((0.1399423182010650634765625 : ℚ) = 9391370 / 2 ^ 26
      ∧ |(0.1399423182010650634765625 : ℚ) - 0.139942324101744| < 1 / 2 ^ 27)
    ∧ ((0.495635509490966796875 : ℚ) = 16630768 / 2 ^ 25
      ∧ |(0.495635509490966796875 : ℚ) - 0.495635523139337| < 1 / 2 ^ 26)
    ∧ ((0.6921405792236328125 : ℚ) = 11612192 / 2 ^ 24
      ∧ |(0.6921405792236328125 : ℚ) - 0.692140569840976| < 1 / 2 ^ 25)
    ∧ ((-0.004605031572282314300537109375 : ℚ) = -9889230 / 2 ^ 31
      ∧ |(-0.004605031572282314300537109375 : ℚ) - (-0.004605031767994)| < 1 / 2 ^ 32)
    ∧ ((0.0634274184703826904296875 : ℚ) = 8513084 / 2 ^ 27
      ∧ |(0.0634274184703826904296875 : ℚ) - 0.063427417320019| < 1 / 2 ^ 28)
    ∧ ((0.6959564685821533203125 : ℚ) = 11676212 / 2 ^ 24
      ∧ |(0.6959564685821533203125 : ℚ) - 0.695956496475118| < 1 / 2 ^ 25)
    ∧ ((0.514272630214691162109375 : ℚ) = 8628063 / 2 ^ 24
      ∧ |(0.514272630214691162109375 : ℚ) - 0.514272634594009| < 1 / 2 ^ 25)
    ∧ ((-0.00045866161235608160495758056640625 : ℚ) = -15759493 / 2 ^ 35
      ∧ |(-0.00045866161235608160495758056640625 : ℚ) - (-0.000458661602210)| < 1 / 2 ^ 36)
    ∧ ((0.009695946238934993743896484375 : ℚ) = 10410943 / 2 ^ 30
      ∧ |(0.009695946238934993743896484375 : ℚ) - 0.009695946122598| < 1 / 2 ^ 31)
    ∧ ((0.930734694004058837890625 : ℚ) = 15615137 / 2 ^ 24
      ∧ |(0.930734694004058837890625 : ℚ) - 0.930734667215156| < 1 / 2 ^ 25)
    ∧ ((0.16803716123104095458984375 : ℚ) = 11276783 / 2 ^ 26
      ∧ |(0.16803716123104095458984375 : ℚ) - 0.168037164329057| < 1 / 2 ^ 27) := by
  refine ⟨?_, ?_, ?_, ?_, ?_, ?_, ?_, ?_, ?_, ?_, ?_, ?_, ?_, ?_, ?_, ?_⟩ <;>
    exact ⟨by norm_num, by rw [abs_lt]; constructor <;> norm_num⟩

theorem lookupCubic_sub_specCubic_piece1 (t : K) (ha : 0 ≤ t) (hb : t ≤ 1.0) :
    |(((-0.009350833483040332794189453125 * t + 0.130659520626068115234375) * t + 0.498799800872802734375) * t
          + 0.69320309162139892578125)
        - (((-0.009350833524763 * t + 0.130659527668286) * t + 0.498799810682272) * t
          + 0.693203116424741)| ≤ 21 / 100000000 := by
  have ha' : (0 : K) ≤ t := by linarith
  have hb' : t ≤ (1 : K) := by linarith
  have hu := cubic_nonneg_of_bernstein (21 / 100000000 + (0.69320309162139892578125 - 0.693203116424741))
    (0.498799800872802734375 - 0.498799810682272)
    (0.130659520626068115234375 - 0.130659527668286)
    ((-0.009350833483040332794189453125) - (-0.009350833524763)) 0 1 t ha' hb'
    (by norm_num) (by norm_num) (by norm_num) (by norm_num)
  have hl := cubic_nonneg_of_bernstein (21 / 100000000 - (0.69320309162139892578125 - 0.693203116424741))
    (-(0.498799800872802734375 - 0.498799810682272))
    (-(0.130659520626068115234375 - 0.130659527668286))
    (-((-0.009350833483040332794189453125) - (-0.009350833524763))) 0 1 t ha' hb'
    (by norm_num) (by norm_num) (by norm_num) (by norm_num)
  rw [abs_le]
  constructor
  · refine le_of_sub_nonneg (le_of_le_of_eq hu ?_)
    ring
  · refine le_of_sub_nonneg (le_of_le_of_eq hl ?_)
    ring

theorem lookupCubic_sub_specCubic_piece2 (t : K) (ha : 1.0 ≤ t) (hb : t ≤ 2.5) :
    |(((-0.01453232206404209136962890625 * t + 0.1399423182010650634765625) * t + 0.495635509490966796875) * t
          + 0.6921405792236328125)
        - (((-0.014532321752540 * t + 0.139942324101744) * t + 0.495635523139337) * t
          + 0.692140569840976)| ≤ 21 / 100000000 := by
  have ha' : (1 : K) ≤ t := by linarith
  have hb' : t ≤ ((5 / 2) : K) := by linarith
  have hu := cubic_nonneg_of_bernstein (21 / 100000000 + (0.6921405792236328125 - 0.692140569840976))
    (0.495635509490966796875 - 0.495635523139337)
    (0.1399423182010650634765625 - 0.139942324101744)
    ((-0.01453232206404209136962890625) - (-0.014532321752540)) 1 (5 / 2) t ha' hb'
    (by norm_num) (by norm_num) (by norm_num) (by norm_num)
  have hl := cubic_nonneg_of_bernstein (21 / 100000000 - (0.6921405792236328125 - 0.692140569840976))
    (-(0.495635509490966796875 - 0.495635523139337))
    (-(0.1399423182010650634765625 - 0.139942324101744))
    (-((-0.01453232206404209136962890625) - (-0.014532321752540))) 1 (5 / 2) t ha' hb'
    (by norm_num) (by norm_num) (by norm_num) (by norm_num)
  rw [abs_le]
  constructor
  · refine le_of_sub_nonneg (le_of_le_of_eq hu ?_)
    ring
  · refine le_of_sub_nonneg (le_of_le_of_eq hl ?_)
    ring

theorem lookupCubic_sub_specCubic_piece3 (t : K) (ha : 2.5 ≤ t) (hb : t ≤ 4.5) :
    |(((-0.004605031572282314300537109375 * t + 0.0634274184703826904296875) * t + 0.6959564685821533203125) * t
          + 0.514272630214691162109375)
        - (((-0.004605031767994 * t + 0.063427417320019) * t + 0.695956496475118) * t
          + 0.514272634594009)| ≤ 21 / 100000000 := by
  have ha' : ((5 / 2) : K) ≤ t := by linarith
  have hb' : t ≤ ((9 / 2) : K) := by linarith
  have hu := cubic_nonneg_of_bernstein (21 / 100000000 + (0.514272630214691162109375 - 0.514272634594009))
    (0.6959564685821533203125 - 0.695956496475118)
    (0.0634274184703826904296875 - 0.063427417320019)
    ((-0.004605031572282314300537109375) - (-0.004605031767994)) (5 / 2) (9 / 2) t ha' hb'
    (by norm_num) (by norm_num) (by norm_num) (by norm_num)
  have hl := cubic_nonneg_of_bernstein (21 / 100000000 - (0.514272630214691162109375 - 0.514272634594009))
    (-(0.6959564685821533203125 - 0.695956496475118))
    (-(0.0634274184703826904296875 - 0.063427417320019))
    (-((-0.004605031572282314300537109375) - (-0.004605031767994))) (5 / 2) (9 / 2) t ha' hb'
    (by norm_num) (by norm_num) (by norm_num) (by norm_num)
  rw [abs_le]
  constructor
  · refine le_of_sub_nonneg (le_of_le_of_eq hu ?_)
    ring
  · refine le_of_sub_nonneg (le_of_le_of_eq hl ?_)
    ring

theorem lookupCubic_sub_specCubic_piece4 (t : K) (ha : 4.5 ≤ t) (hb : t ≤ 7.5) :
    |(((-0.00045866161235608160495758056640625 * t + 0.009695946238934993743896484375) * t + 0.930734694004058837890625) * t
          + 0.16803716123104095458984375)
        - (((-0.000458661602210 * t + 0.009695946122598) * t + 0.930734667215156) * t
          + 0.168037164329057)| ≤ 21 / 100000000 := by
  have ha' : ((9 / 2) : K) ≤ t := by linarith
  have hb' : t ≤ ((15 / 2) : K) := by linarith
  have hu := cubic_nonneg_of_bernstein (21 / 100000000 + (0.16803716123104095458984375 - 0.168037164329057))
    (0.930734694004058837890625 - 0.930734667215156)
    (0.009695946238934993743896484375 - 0.009695946122598)
    ((-0.00045866161235608160495758056640625) - (-0.000458661602210)) (9 / 2) (15 / 2) t ha' hb'
    (by norm_num) (by norm_num) (by norm_num) (by norm_num)
  have hl := cubic_nonneg_of_bernstein (21 / 100000000 - (0.16803716123104095458984375 - 0.168037164329057))
    (-(0.930734694004058837890625 - 0.930734667215156))
    (-(0.009695946238934993743896484375 - 0.009695946122598))
    (-((-0.00045866161235608160495758056640625) - (-0.000458661602210))) (9 / 2) (15 / 2) t ha' hb'
    (by norm_num) (by norm_num) (by norm_num) (by norm_num)
  rw [abs_le]
  constructor
  · refine le_of_sub_nonneg (le_of_le_of_eq hu ?_)
    ring
  · refine le_of_sub_nonneg (le_of_le_of_eq hl ?_)
    ring

theorem lookupCubic_sub_specCubic (t : K) (h0 : 0 ≤ t) (h1 : t ≤ 7.5) :
    |lookupCubic t - specCubic t| ≤ 21 / 100000000 := by
  unfold lookupCubic specCubic
  split_ifs with p1 p2 p3
  · exact lookupCubic_sub_specCubic_piece1 t h0 p1
  · exact lookupCubic_sub_specCubic_piece2 t (not_le.mp p1).le p2
  · exact lookupCubic_sub_specCubic_piece3 t (not_le.mp p2).le p3
  · exact lookupCubic_sub_specCubic_piece4 t (not_le.mp p3).le h1

theorem logAdd_fin_of_far (x y : K) (h : 7.5 ≤ |x - y|) :
    logAdd (fin x) (fin y) = fin (max x y) := by
  unfold logAdd logZero logUnderflowThreshold
  simp only [lt_fin_fin, fin_sub_fin, ge_fin_fin, Dbl.eq, Bool.false_or, decide_eq_true_eq]
  by_cases hxy : x < y
  · have h1 : |x - y| = y - x := by rw [abs_sub_comm]; exact abs_of_pos (by linarith)
    rw [h1] at h
    simp [hxy, h, max_eq_right hxy.le]
  · have hyx : y ≤ x := not_lt.mp hxy
    have h1 : |x - y| = x - y := abs_of_nonneg (by linarith)
    rw [h1] at h
    simp [hxy, h, max_eq_left hyx]

theorem logAdd_fin_of_near (x y : K) (h : |x - y| < 7.5) :
    logAdd (fin x) (fin y) = fin (min x y + lookupCubic |x - y|) := by
  unfold logAdd logZero logUnderflowThreshold
  simp only [lt_fin_fin, fin_sub_fin, ge_fin_fin, Dbl.eq, Bool.false_or, decide_eq_true_eq]
  by_cases hxy : x < y
  · have h1 : |x - y| = y - x := by rw [abs_sub_comm]; exact abs_of_pos (by linarith)
    rw [h1] at h ⊢
    simp [hxy, not_le.mpr h, min_eq_left hxy.le, lookup_fin, add_comm]
  · have hyx : y ≤ x := not_lt.mp hxy
    have h1 : |x - y| = x - y := abs_of_nonneg (by linarith)
    rw [h1] at h ⊢
    simp [hxy, not_le.mpr h, min_eq_right hyx, lookup_fin, add_comm]

/-- C8: adding the log-zero sentinel, on either side, returns the other
operand unchanged: `logAdd x (-inf) = x` and `logAdd (-inf) x = x` for every
double `x` (a finite number or the sentinel in particular), and
`logAdd (-inf) (-inf) = -inf`. -/
theorem logAdd_logZero (x : Dbl K) :
    logAdd x logZero = x ∧ logAdd logZero x = x
      ∧ logAdd (logZero : Dbl K) logZero = logZero := by
  refine ⟨?_, ?_, ?_⟩
  · cases x <;> simp [logAdd, logZero, Dbl.lt, Dbl.eq]
  · cases x <;>
      simp [logAdd, logZero, Dbl.lt, Dbl.eq, Dbl.ge, Dbl.le, HSub.hSub, Sub.sub, Dbl.sub,
        Dbl.add, Dbl.neg, logUnderflowThreshold, lookup, HMul.hMul, Mul.mul, Dbl.mul,
        HAdd.hAdd, Add.add]
  · simp [logAdd, logZero, Dbl.lt, Dbl.eq]

/-- C10: for finite `x`, `y` with `|x - y| ≥ 7.5`, `logAdd x y` is exactly
`max x y`. -/
theorem logAdd_far_max (x y : K) (h : 7.5 ≤ |x - y|) :
    logAdd (fin x) (fin y) = fin (max x y) :=
  logAdd_fin_of_far x y h

/-- A witness of C10: `x = 0`, `y = 8` over the rationals. -/
theorem logAdd_far_max_witness :
    (7.5 : ℚ) ≤ |(0 : ℚ) - 8| ∧ logAdd (K := ℚ) (fin 0) (fin 8) = fin (max 0 8) :=
  ⟨by norm_num, logAdd_far_max 0 8 (by norm_num)⟩

/-! ## The alphabet encoder -/

theorem convertSequence_eq_map (s : List Char) :
    convertSequence s s.length = some (s.map convertChar) := by
  unfold convertSequence
  simp only [ge_iff_le, Int.ofNat_zero_le, and_self, if_true, Int.toNat_ofNat, Option.some.injEq]
  apply List.ext_getElem
  · simp
  · intro i h1 h2
    simp at h1
    simp [List.getD_eq_getElem?_getD, List.getElem?_eq_getElem h1]

theorem convertSequence_in_getAlignedPairs (s : List Char) :
    convertSequence s ((s.length : Int) + 1 - 1) = some (s.map convertChar) := by
  rw [show (s.length : Int) + 1 - 1 = s.length by omega]
  exact convertSequence_eq_map s

theorem convertChar_le (c : Char) : convertChar c ≤ 4 := by
  unfold convertChar; split_ifs <;> omega

/-- C7: for every string `s`, `convertSequence s |s|` succeeds and returns
exactly `|s|` codes, each at most 4; code `i` is 0 for `A`/`a`, 1 for `C`/`c`,
2 for `G`/`g`, 3 for `T`/`t` and 4 for every other character `s[i]`. -/
theorem convertSequence_codes (s : List Char) :
    ∃ cS, convertSequence s s.length = some cS ∧ cS.length = s.length ∧
      ∀ i (hi : i < s.length), ∃ c, cS[i]? = some c ∧ c ≤ 4 ∧
        (s[i] = 'A' ∨ s[i] = 'a' → c = 0) ∧
        (s[i] = 'C' ∨ s[i] = 'c' → c = 1) ∧
        (s[i] = 'G' ∨ s[i] = 'g' → c = 2) ∧
        (s[i] = 'T' ∨ s[i] = 't' → c = 3) ∧
        (¬ (s[i] = 'A' ∨ s[i] = 'a' ∨ s[i] = 'C' ∨ s[i] = 'c' ∨
            s[i] = 'G' ∨ s[i] = 'g' ∨ s[i] = 'T' ∨ s[i] = 't') → c = 4) := by
  refine ⟨s.map convertChar, convertSequence_eq_map s, by simp, ?_⟩
  intro i hi
  refine ⟨convertChar s[i], by simp [List.getElem?_eq_getElem hi], convertChar_le _,
    ?_, ?_, ?_, ?_, ?_⟩
  · intro h; rcases h with h | h <;> rw [h] <;> decide
  · intro h; rcases h with h | h <;> rw [h] <;> decide
  · intro h; rcases h with h | h <;> rw [h] <;> decide
  · intro h; rcases h with h | h <;> rw [h] <;> decide
  · intro h; simp only [not_or] at h
    simp [convertChar, h]

/-! ## Posterior extraction -/

@[simp] theorem Dbl.negInf_add_fin (a : K) : (negInf + fin a : Dbl K) = negInf := rfl

@[simp] theorem Dbl.fin_add_negInf (a : K) : (fin a + negInf : Dbl K) = negInf := rfl

@[simp] theorem logAdd_negInf_right (x : Dbl K) : logAdd x negInf = x := by
  cases x <;> simp [logAdd, logZero, Dbl.lt, Dbl.eq]

theorem foldl_append_eq {α β : Type} (step : List α → β → List α) (h : β → List α)
    (hstep : ∀ acc b, step acc b = acc ++ h b) (l : List β) (acc : List α) :
    l.foldl step acc = acc ++ l.flatMap h := by
  induction l generalizing acc with
  | nil => simp
  | cons b l ih => simp [List.foldl_cons, ih, hstep, List.flatMap_cons, List.append_assoc]

theorem getPosteriorProbs_eq_flatMap [FloorRing K] (e : K → K) (P : Nat)
    (fM bM : List (Dbl K)) (lX lY : Int) (sX sY : List Nat)
    (acc : List AlignedPair) (tp : Dbl K) :
    getPosteriorProbs e P fM bM lX lY sX sY acc tp =
      acc ++ (List.range' 1 (lX.toNat - 1)).flatMap (fun x =>
        (List.range' 1 (lY.toNat - 1)).flatMap (fun y =>
          emitCell P (posteriorMatchProb e fM bM x y lX lY sX sY tp) x y)) := by
  unfold getPosteriorProbs
  apply foldl_append_eq
  intro acc x
  apply foldl_append_eq
  intro acc y
  unfold emitCell
  by_cases h : Dbl.ge (posteriorMatchProb e fM bM x y lX lY sX sY tp) posteriorMatchThreshold = true
  · simp only [h, if_true]
  · simp only [h, if_false, List.append_nil]; simp

theorem floorToInt32_of_bounds [FloorRing K] (P : Nat) (hP : P ≤ 2147483647) (v : K)
    (h0 : 0 ≤ v) (h1 : v ≤ 1) :
    floorToInt32 (fin (v * (P : K))) = ⌊v * (P : K)⌋ ∧ 0 ≤ ⌊v * (P : K)⌋ ∧ ⌊v * (P : K)⌋ ≤ P := by
  have hPK : (0 : K) ≤ (P : K) := Nat.cast_nonneg P
  have hlo : 0 ≤ ⌊v * (P : K)⌋ := Int.floor_nonneg.mpr (mul_nonneg h0 hPK)
  have hhi : ⌊v * (P : K)⌋ ≤ (P : Int) := by
    have : v * (P : K) ≤ ((P : Int) : K) := by
      have := mul_le_mul_of_nonneg_right h1 hPK
      simpa using this
    have h2 := Int.floor_le_floor this
    simpa using h2
  refine ⟨?_, hlo, hhi⟩
  show (if _ then _ else _) = _
  rw [if_pos]
  constructor <;> omega

theorem emitCell_eq_specEmit [FloorRing K] (P : Nat) (hP : P ≤ 2147483647) (f : Dbl K) (x y : Nat) :
    emitCell P f x y = (specEmit P f x y).toList := by
  have hone := (floorToInt32_of_bounds (K := K) P hP 1 (by norm_num) (by norm_num))
  simp only [one_mul, Int.floor_natCast] at hone
  have h10 : (1.0 : K) = 1 := by norm_num
  unfold emitCell specEmit posteriorMatchThreshold
  cases f with
  | nan => simp [Dbl.ge, Dbl.le, Dbl.lt, Dbl.eq]
  | negInf => simp [Dbl.ge, Dbl.le, Dbl.lt, Dbl.eq]
  | posInf =>
    simp [Dbl.ge, Dbl.le, Dbl.lt, Dbl.eq, Dbl.gt, hone.1, h10]
  | fin v =>
    simp only [ge_fin_fin, gt_fin_fin, decide_eq_true_eq]
    by_cases hv : (0.01 : K) ≤ v
    · have hv0 : (0 : K) ≤ v := le_trans (by norm_num) hv
      simp only [hv, if_true]
      by_cases h1 : (1.0 : K) < v
      · rw [h10] at h1
        simp [h1, min_eq_right h1.le, hone.1, h10]
      · have h1' : v ≤ 1 := by norm_num at h1; exact h1
        have := (floorToInt32_of_bounds (K := K) P hP v hv0 h1')
        simp [h1, min_eq_left h1', this.1]
    · simp [hv]

theorem flatMap_toList_eq_filterMap {α β : Type} (f : α → Option β) (l : List α) :
    l.flatMap (fun a => (f a).toList) = l.filterMap f := by
  induction l with
  | nil => rfl
  | cons a l ih =>
    rw [List.flatMap_cons, ih, List.filterMap_cons]
    cases f a <;> simp

theorem mem_emitCell [FloorRing K] {P : Nat} {f : Dbl K} {x y : Nat} {t : AlignedPair}
    (h : t ∈ emitCell P f x y) : t.x = (x : Int) - 1 ∧ t.y = (y : Int) - 1 := by
  unfold emitCell at h
  by_cases hge : Dbl.ge f posteriorMatchThreshold = true
  · simp only [hge, if_true, List.mem_singleton] at h
    subst h
    exact ⟨rfl, rfl⟩
  · simp [hge] at h

theorem getPosteriorProbs_pairwise [FloorRing K] (e : K → K) (P : Nat)
    (fM bM : List (Dbl K)) (lX lY : Int) (sX sY : List Nat) (tp : Dbl K) :
    (getPosteriorProbs e P fM bM lX lY sX sY [] tp).Pairwise coordLt := by
  rw [getPosteriorProbs_eq_flatMap, List.nil_append, List.pairwise_flatMap]
  constructor
  · intro x _
    rw [List.pairwise_flatMap]
    constructor
    · intro y _
      unfold emitCell
      split_ifs <;> simp
    · refine (List.pairwise_lt_range' 1 _).imp ?_
      intro y1 y2 hy a ha b hb
      have h1 := mem_emitCell ha
      have h2 := mem_emitCell hb
      right
      constructor
      · rw [h1.1, h2.1]
      · rw [h1.2, h2.2]; omega
  · refine (List.pairwise_lt_range' 1 _).imp ?_
    intro x1 x2 hx a ha b hb
    rw [List.mem_flatMap] at ha hb
    obtain ⟨y1, _, ha⟩ := ha
    obtain ⟨y2, _, hb⟩ := hb
    have h1 := mem_emitCell ha
    have h2 := mem_emitCell hb
    left
    rw [h1.1, h2.1]; omega

theorem mem_getPosteriorProbs_coords [FloorRing K] (e : K → K) (P : Nat)
    (fM bM : List (Dbl K)) (lX lY : Int) (sX sY : List Nat) (tp : Dbl K) (t : AlignedPair)
    (h : t ∈ getPosteriorProbs e P fM bM lX lY sX sY [] tp) :
    0 ≤ t.x ∧ t.x < lX - 1 ∧ 0 ≤ t.y ∧ t.y < lY - 1 := by
  rw [getPosteriorProbs_eq_flatMap, List.nil_append, List.mem_flatMap] at h
  obtain ⟨x, hx, h⟩ := h
  rw [List.mem_flatMap] at h
  obtain ⟨y, hy, h⟩ := h
  have h1 := mem_emitCell h
  rw [List.mem_range'_1] at hx hy
  rw [h1.1, h1.2]
  omega

theorem mem_emitCell_score [FloorRing K] {P : Nat} (hP : P ≤ 2147483647) {f : Dbl K} {x y : Nat}
    {t : AlignedPair} (h : t ∈ emitCell P f x y) : 0 ≤ t.score ∧ t.score ≤ P := by
  rw [emitCell_eq_specEmit P hP] at h
  unfold specEmit at h
  cases f with
  | nan => simp at h
  | negInf => simp at h
  | posInf => simp at h; subst h; simp
  | fin v =>
    simp only at h
    split_ifs at h with hv
    · simp at h
      subst h
      have hv0 : (0 : K) ≤ v := le_trans (by norm_num) hv
      have := floorToInt32_of_bounds (K := K) P hP (min v 1) (le_min hv0 zero_le_one) (min_le_right _ _)
      exact this.2
    · simp at h

theorem mem_getPosteriorProbs_score [FloorRing K] (e : K → K) (P : Nat) (hP : P ≤ 2147483647)
    (fM bM : List (Dbl K)) (lX lY : Int) (sX sY : List Nat) (tp : Dbl K) (t : AlignedPair)
    (h : t ∈ getPosteriorProbs e P fM bM lX lY sX sY [] tp) :
    0 ≤ t.score ∧ t.score ≤ P := by
  rw [getPosteriorProbs_eq_flatMap, List.nil_append, List.mem_flatMap] at h
  obtain ⟨x, hx, h⟩ := h
  rw [List.mem_flatMap] at h
  obtain ⟨y, hy, h⟩ := h
  exact mem_emitCell_score hP h

theorem getPosteriorProbs_eq_spec [FloorRing K] (e : K → K) (P : Nat) (hP : P ≤ 2147483647)
    (fM bM : List (Dbl K)) (lX lY : Int) (sX sY : List Nat) (tp : Dbl K) :
    getPosteriorProbs e P fM bM lX lY sX sY [] tp =
      (List.range' 1 (lX.toNat - 1)).flatMap (fun (x : Nat) =>
        (List.range' 1 (lY.toNat - 1)).filterMap (fun (y : Nat) =>
          specEmit P (posteriorMatchProb e fM bM x y lX lY sX sY tp) x y)) := by
  rw [getPosteriorProbs_eq_flatMap, List.nil_append]
  congr 1
  funext x
  rw [← flatMap_toList_eq_filterMap]
  congr 1
  funext y
  exact emitCell_eq_specEmit P hP _ x y

theorem getPosteriorProbs_spec_aux [FloorRing K] (e : K → K) (P : Nat) (hP : P ≤ 2147483647)
    (fM bM : List (Dbl K)) (lX lY : Int) (sX sY : List Nat) (tp : Dbl K) :
    getPosteriorProbs e P fM bM lX lY sX sY [] tp =
      (List.range' 1 (lX.toNat - 1)).flatMap (fun (x : Nat) =>
        (List.range' 1 (lY.toNat - 1)).filterMap (fun (y : Nat) =>
          specEmit P (posteriorMatchProb e fM bM x y lX lY sX sY tp) x y))
    ∧ ∀ t, t ∈ getPosteriorProbs e P fM bM lX lY sX sY [] tp ↔
        ∃ x y : Int, 1 ≤ x ∧ x < lX ∧ 1 ≤ y ∧ y < lY ∧
          specEmit P (posteriorMatchProb e fM bM x y lX lY sX sY tp) x y = some t := by
  refine ⟨getPosteriorProbs_eq_spec e P hP fM bM lX lY sX sY tp, ?_⟩
  intro t
  rw [getPosteriorProbs_eq_spec e P hP]
  simp only [List.mem_flatMap, List.mem_filterMap, List.mem_range'_1]
  constructor
  · rintro ⟨x, hx, y, hy, h⟩
    exact ⟨x, y, by omega, by omega, by omega, by omega, h⟩
  · rintro ⟨x, y, hx1, hx2, hy1, hy2, h⟩
    refine ⟨x.toNat, by omega, y.toNat, by omega, ?_⟩
    rw [Int.toNat_of_nonneg (by omega), Int.toNat_of_nonneg (by omega)]
    exact h

/-! ## The sorted set of the banded driver -/

theorem cmpFn_neg_iff (a b : AlignedPair) :
    getAlignedPairsFast_cmpFn a b < 0 ↔ coordLt a b := by
  unfold getAlignedPairsFast_cmpFn coordLt
  simp only
  split_ifs with h <;> constructor <;> intro h' <;> omega

theorem cmpFn_eq_zero_iff (a b : AlignedPair) :
    getAlignedPairsFast_cmpFn a b = 0 ↔ a.x = b.x ∧ a.y = b.y := by
  unfold getAlignedPairsFast_cmpFn
  simp only
  split_ifs with h <;> constructor <;> intro h' <;> omega

theorem cmpFn_pos_iff (a b : AlignedPair) :
    0 < getAlignedPairsFast_cmpFn a b ↔ coordLt b a := by
  unfold getAlignedPairsFast_cmpFn coordLt
  simp only
  split_ifs with h <;> constructor <;> intro h' <;> omega

theorem coordLt_trans {a b c : AlignedPair} (h1 : coordLt a b) (h2 : coordLt b c) :
    coordLt a c := by
  unfold coordLt at *; omega

theorem mem_stSortedSet_insert (s : List AlignedPair) (i t : AlignedPair)
    (h : t ∈ stSortedSet_insert getAlignedPairsFast_cmpFn s i) : t = i ∨ t ∈ s := by
  induction s with
  | nil => simp [stSortedSet_insert] at h; exact Or.inl h
  | cons j s ih =>
    unfold stSortedSet_insert at h
    split_ifs at h
    · simp at h; rcases h with h | h | h <;> simp [h]
    · exact Or.inr h
    · simp at h
      rcases h with h | h
      · simp [h]
      · rcases ih h with h | h <;> simp [h]

theorem stSortedSet_insert_pairwise (s : List AlignedPair) (i : AlignedPair)
    (hs : s.Pairwise coordLt) :
    (stSortedSet_insert getAlignedPairsFast_cmpFn s i).Pairwise coordLt := by
  induction s with
  | nil => simp [stSortedSet_insert]
  | cons j s ih =>
    unfold stSortedSet_insert
    rw [List.pairwise_cons] at hs
    split_ifs with h1 h2
    · rw [cmpFn_neg_iff] at h1
      rw [List.pairwise_cons]
      refine ⟨?_, List.pairwise_cons.mpr hs⟩
      intro b hb
      rcases List.mem_cons.mp hb with hb | hb
      · rw [hb]; exact h1
      · exact coordLt_trans h1 (hs.1 b hb)
    · exact List.pairwise_cons.mpr hs
    · rw [List.pairwise_cons]
      refine ⟨?_, ih hs.2⟩
      intro b hb
      rcases mem_stSortedSet_insert s i b hb with hb | hb
      · rw [hb]
        rw [← cmpFn_pos_iff]
        omega
      · exact hs.1 b hb

theorem mergePair_pairwise (sd ed g : Int) (d : Bool) (s : List AlignedPair) (i : AlignedPair)
    (hs : s.Pairwise coordLt) : (mergePair sd ed g d s i).Pairwise coordLt := by
  unfold mergePair
  simp only
  split_ifs with hc
  · cases hsearch : stSortedSet_search getAlignedPairsFast_cmpFn s i with
    | none => exact stSortedSet_insert_pairwise s i hs
    | some j =>
      exact stSortedSet_insert_pairwise _ _ (hs.filter _)
  · exact hs

theorem foldr_mergePair_sorted (ed g : Int) (l : List AlignedPair) (hl : l.Pairwise coordLt) :
    l.reverse.foldl (mergePair 0 ed g true) [] = l := by
  rw [List.foldl_reverse]
  induction l with
  | nil => rfl
  | cons a l ih =>
    rw [List.pairwise_cons] at hl
    rw [List.foldr_cons, ih hl.2]
    unfold mergePair
    simp only [true_or, and_self, if_true]
    have hnone : stSortedSet_search getAlignedPairsFast_cmpFn l a = none := by
      unfold stSortedSet_search
      rw [List.find?_eq_none]
      intro b hb
      have := (cmpFn_neg_iff a b).mpr (hl.1 b hb)
      simp; omega
    rw [hnone]
    cases l with
    | nil => rfl
    | cons b r =>
      unfold stSortedSet_insert
      rw [if_pos ((cmpFn_neg_iff a b).mpr (hl.1 b (List.mem_cons_self _ _)))]

/-! ## The banded driver -/

theorem getAlignedPairs_pairwise [FloorRing K] (e : K → K) (P : Nat) (sX sY : List Char) :
    (getAlignedPairs_allocated e P sX sY).Pairwise coordLt := by
  unfold getAlignedPairs_allocated
  exact getPosteriorProbs_pairwise e P _ _ _ _ _ _ _

theorem mem_getAlignedPairs_coords [FloorRing K] (e : K → K) (P : Nat) (sX sY : List Char)
    (t : AlignedPair) (h : t ∈ getAlignedPairs_allocated e P sX sY) :
    0 ≤ t.x ∧ t.x < sX.length ∧ 0 ≤ t.y ∧ t.y < sY.length := by
  unfold getAlignedPairs_allocated at h
  have := mem_getPosteriorProbs_coords e P _ _ _ _ _ _ _ t h
  omega

theorem mem_getAlignedPairs_score [FloorRing K] (e : K → K) (P : Nat) (hP : P ≤ 2147483647)
    (sX sY : List Char) (t : AlignedPair) (h : t ∈ getAlignedPairs_allocated e P sX sY) :
    0 ≤ t.score ∧ t.score ≤ P := by
  unfold getAlignedPairs_allocated at h
  exact mem_getPosteriorProbs_score e P hP _ _ _ _ _ _ _ t h

theorem wrapInt32_of_range (z : Int) (h0 : -2147483648 ≤ z) (h1 : z ≤ 2147483647) :
    wrapInt32 z = z := by
  unfold wrapInt32
  omega

theorem matricesOverflow_iff (lX lY : Int) :
    matricesOverflow lX lY = true ↔ ¬ lX * lY * 5 ≤ 2147483647 := by
  unfold matricesOverflow cellNo
  simp only [Nat.cast_ofNat, decide_eq_true_eq, gt_iff_lt, not_le]

theorem matricesOverflow_iff_wrap (lX lY : Int) (h0 : 0 ≤ lX) (h1 : 0 ≤ lY) :
    matricesOverflow lX lY = true
      ↔ wrapInt32 (wrapInt32 (lX * lY) * cellNo) ≠ lX * lY * cellNo := by
  have hp : 0 ≤ lX * lY := mul_nonneg h0 h1
  rw [matricesOverflow_iff]
  unfold wrapInt32 cellNo
  simp only [Nat.cast_ofNat, ne_eq]
  generalize lX * lY = p at hp ⊢
  omega

theorem getAlignedPairs_eq [FloorRing K] (e : K → K) (P : Nat) (sX sY : List Char) :
    getAlignedPairs e P sX sY
      = if matricesOverflow ((sX.length : Int) + 1) ((sY.length : Int) + 1) = true then none
        else some (getAlignedPairs_allocated e P sX sY) := by
  unfold getAlignedPairs getAlignedPairs_allocated
  rfl

theorem getAlignedPairs_eq_some [FloorRing K] (e : K → K) (P : Nat) (sX sY : List Char)
    (h : ((sX.length : Int) + 1) * ((sY.length : Int) + 1) * 5 ≤ 2147483647) :
    getAlignedPairs e P sX sY = some (getAlignedPairs_allocated e P sX sY) := by
  rw [getAlignedPairs_eq, if_neg (fun ho => (matricesOverflow_iff _ _).mp ho h)]

theorem getAlignedPairs_some_iff [FloorRing K] (e : K → K) (P : Nat) (sX sY : List Char)
    (l : List AlignedPair) :
    getAlignedPairs e P sX sY = some l ↔
      ((sX.length : Int) + 1) * ((sY.length : Int) + 1) * 5 ≤ 2147483647
        ∧ l = getAlignedPairs_allocated e P sX sY := by
  rw [getAlignedPairs_eq]
  split_ifs with h
  · have := (matricesOverflow_iff _ _).mp h
    simp [this]
  · have : ((sX.length : Int) + 1) * ((sY.length : Int) + 1) * 5 ≤ 2147483647 := by
      by_contra hc
      exact h ((matricesOverflow_iff _ _).mpr hc)
    simp [this, eq_comm]

theorem getAlignedPairs_none_iff [FloorRing K] (e : K → K) (P : Nat) (sX sY : List Char) :
    getAlignedPairs e P sX sY = none ↔
      ¬ ((sX.length : Int) + 1) * ((sY.length : Int) + 1) * 5 ≤ 2147483647 := by
  rw [getAlignedPairs_eq, ← matricesOverflow_iff]
  split_ifs with h
  · simp [h]
  · simp [h]

theorem getSubString_whole (cA : List Char) :
    getSubString cA 0 cA.length = some cA := by
  unfold getSubString
  rw [if_pos (by omega)]
  simp

theorem bandIteration_whole [FloorRing K] (e : K → K) (P : Nat) (sX sY : List Char) (B : Int)
    (hX : (sX.length : Int) ≤ B) (hY : (sY.length : Int) ≤ B) :
    bandIteration e P sX sY B ⟨0, 0, [], false⟩
      = (getAlignedPairs e P sX sY).map (fun l => ⟨0, 0, l, true⟩) := by
  have hlX : (if (sX.length : Int) < B + 0 then (sX.length : Int) - 0 else B) = sX.length := by
    split_ifs <;> omega
  have hlY : (if (sY.length : Int) < B + 0 then (sY.length : Int) - 0 else B) = sY.length := by
    split_ifs <;> omega
  have hmap : ∀ l : List AlignedPair, l.map
      (fun i => (⟨i.score, i.x + 0, i.y + 0⟩ : AlignedPair)) = l := by
    intro l
    conv => rhs; rw [← List.map_id l]
    apply List.map_congr_left
    intro i _
    simp
  have hch : ∀ pairs : List AlignedPair, chooseNextOffsets pairs 0 0 sX.length sY.length
      sX.length sY.length (0 + 0) (0 + 0 + sX.length + sY.length) 50 = some (0, 0, true) := by
    intro pairs
    unfold chooseNextOffsets
    rw [if_neg (by omega)]
  unfold bandIteration
  simp only
  rw [hlX, hlY, getSubString_whole, getSubString_whole]
  simp only
  cases hga : getAlignedPairs e P sX sY with
  | none => rfl
  | some band =>
    obtain ⟨_, rfl⟩ := (getAlignedPairs_some_iff e P sX sY band).mp hga
    simp only
    rw [hmap, hch]
    simp only
    rw [show (0 : Int) + 0 = 0 from rfl,
      foldr_mergePair_sorted _ _ _ (getAlignedPairs_pairwise e P sX sY)]
    rfl

theorem getAlignedPairs_Fast_whole [FloorRing K] (e : K → K) (P : Nat) (sX sY : List Char)
    (B : Int) (hX : (sX.length : Int) ≤ B) (hY : (sY.length : Int) ≤ B) :
    getAlignedPairs_Fast e P sX sY B = getAlignedPairs e P sX sY := by
  unfold getAlignedPairs_Fast bandLoop
  rw [bandIteration_whole e P sX sY B hX hY]
  cases getAlignedPairs e P sX sY with
  | none => rfl
  | some l => rfl

/-- C1: for every pair of sequences and every band size
`B ≥ max (|X|, |Y|)`, the calls `getAlignedPairs_Fast X Y B` and
`getAlignedPairs X Y` have the same outcome: `getAlignedPairs_Fast` returns
exactly the list that `getAlignedPairs` returns, in the same order, and it
does not return when `getAlignedPairs` does not (the cell count of the
matrices has wrapped).  Both return when the cell count
`(|X| + 1) * (|Y| + 1) * 5` is an `int32_t`. -/
theorem getAlignedPairs_Fast_eq_getAlignedPairs [FloorRing K] (e : K → K) (P : Nat)
    (sX sY : List Char) (B : Int) (hB : max (sX.length : Int) (sY.length : Int) ≤ B) :
    getAlignedPairs_Fast e P sX sY B = getAlignedPairs e P sX sY
    ∧ (((sX.length : Int) + 1) * ((sY.length : Int) + 1) * 5 ≤ 2147483647 →
      ∃ l, getAlignedPairs e P sX sY = some l ∧ getAlignedPairs_Fast e P sX sY B = some l) := by
  have h := getAlignedPairs_Fast_whole e P sX sY B (le_trans (le_max_left _ _) hB)
    (le_trans (le_max_right _ _) hB)
  refine ⟨h, fun ha => ⟨_, getAlignedPairs_eq_some e P sX sY ha, ?_⟩⟩
  rw [h, getAlignedPairs_eq_some e P sX sY ha]

theorem pairwise_coordLt_nodup (l : List AlignedPair) (h : l.Pairwise coordLt) :
    (l.map (fun t => (t.x, t.y))).Nodup := by
  unfold List.Nodup
  rw [List.pairwise_map]
  refine h.imp ?_
  intro a b hab heq
  simp only [Prod.mk.injEq] at heq
  unfold coordLt at hab
  omega

theorem bandLoop_mono [FloorRing K] (e : K → K) (P : Nat) (sX sY : List Char) (B : Int)
    (n : Nat) (st r : BandState) (h : bandLoop e P sX sY B n st = some r) (m : Nat)
    (hm : n ≤ m) : bandLoop e P sX sY B m st = some r := by
  induction n generalizing st m with
  | zero => simp [bandLoop] at h
  | succ n ih =>
    cases m with
    | zero => omega
    | succ m =>
      unfold bandLoop at h ⊢
      cases hit : bandIteration e P sX sY B st with
      | none => rw [hit] at h; simp at h
      | some st1 =>
        rw [hit] at h
        simp only at h ⊢
        by_cases hd : st1.done = true
        · rw [if_pos hd] at h ⊢; exact h
        · rw [if_neg hd] at h ⊢; exact ih st1 h m (by omega)

theorem posteriorMatchProb_example :
    posteriorMatchProb (K := ℝ) Real.exp (fin 0 :: List.replicate 19 negInf)
      (List.replicate 20 (fin 0)) (1 : Nat) (1 : Nat) (((['A'].length : Nat) : Int) + 1)
      (((['A'].length : Nat) : Int) + 1) [0] [0]
      (fin (-0.030064059121770816 + -2.1149196655034745)) = fin 1 := by
  simp [posteriorMatchProb, getCell, cellNo, emissionProb, readSeq, matchM, matchEmission,
      transitionProb, transitions, matchContinueTransition, matchFromShortGapTransition,
      matchFromLongGapTransition, logAddAndAssign, List.range', List.replicate,
      Dbl.exp]

theorem getPosteriorProbs_example_mem :
    (⟨1000000, 0, 0⟩ : AlignedPair) ∈ getPosteriorProbs (K := ℝ) Real.exp 1000000
      (fin 0 :: List.replicate 19 negInf) (List.replicate 20 (fin 0))
      (((['A'].length : Nat) : Int) + 1) (((['A'].length : Nat) : Int) + 1) [0] [0] []
      (fin (-0.030064059121770816 + -2.1149196655034745)) := by
  rw [getPosteriorProbs_eq_spec Real.exp 1000000 (by norm_num)]
  simp only [List.mem_flatMap, List.mem_filterMap, List.mem_range'_1]
  refine ⟨1, by simp, 1, by simp, ?_⟩
  rw [posteriorMatchProb_example]
  norm_num [specEmit]

/-- C2: whatever the forward and backward matrices (and the encoded sequences
and the total probability) hold, every triple `(s, x, y)` that
`getPosteriorProbs` emits for `lX = |X| + 1`, `lY = |Y| + 1` has
`0 ≤ s ≤ PAIR_ALIGNMENT_PROB_1`, `0 ≤ x < |X|` and `0 ≤ y < |Y|`; so has every
triple of the list returned by `getAlignedPairs X Y` (`PAIR_ALIGNMENT_PROB_1`
being an `int32_t` constant). -/
theorem getAlignedPairs_bounds [FloorRing K] (e : K → K) (P : Nat) (hP : P ≤ 2147483647)
    (sX sY : List Char) :
    (∀ (fM bM : List (Dbl K)) (cSX cSY : List Nat) (totalProb : Dbl K),
      ∀ t ∈ getPosteriorProbs e P fM bM ((sX.length : Int) + 1) ((sY.length : Int) + 1)
          cSX cSY [] totalProb,
        0 ≤ t.score ∧ t.score ≤ P ∧ 0 ≤ t.x ∧ t.x < sX.length ∧ 0 ≤ t.y ∧ t.y < sY.length)
    ∧ ∀ l, getAlignedPairs e P sX sY = some l → ∀ t ∈ l,
        0 ≤ t.score ∧ t.score ≤ P ∧ 0 ≤ t.x ∧ t.x < sX.length ∧ 0 ≤ t.y ∧ t.y < sY.length := by
  constructor
  · intro fM bM cSX cSY totalProb t ht
    have hc := mem_getPosteriorProbs_coords e P fM bM _ _ cSX cSY totalProb t ht
    have hs := mem_getPosteriorProbs_score e P hP fM bM _ _ cSX cSY totalProb t ht
    omega
  · intro l hl t ht
    obtain ⟨_, rfl⟩ := (getAlignedPairs_some_iff e P sX sY l).mp hl
    have hc := mem_getAlignedPairs_coords e P sX sY t ht
    have hs := mem_getAlignedPairs_score e P hP sX sY t ht
    omega

/-- A witness of C2: over the reals, with `PAIR_ALIGNMENT_PROB_1 = 1000000`
and matrices for `X = Y = "A"` whose cell `(1, 1)` has posterior `exp 0 = 1`,
the triple `(1000000, 0, 0)` is emitted and is within the bounds. -/
theorem getAlignedPairs_bounds_witness :
    (1000000 : Nat) ≤ 2147483647
    ∧ (⟨1000000, 0, 0⟩ : AlignedPair) ∈ getPosteriorProbs (K := ℝ) Real.exp 1000000
        (fin 0 :: List.replicate 19 negInf) (List.replicate 20 (fin 0))
        (((['A'].length : Nat) : Int) + 1) (((['A'].length : Nat) : Int) + 1) [0] [0] []
        (fin (-0.030064059121770816 + -2.1149196655034745))
    ∧ (0 ≤ (⟨1000000, 0, 0⟩ : AlignedPair).score
        ∧ (⟨1000000, 0, 0⟩ : AlignedPair).score ≤ (1000000 : Nat)
        ∧ 0 ≤ (⟨1000000, 0, 0⟩ : AlignedPair).x
        ∧ (⟨1000000, 0, 0⟩ : AlignedPair).x < (['A'].length : Nat)
        ∧ 0 ≤ (⟨1000000, 0, 0⟩ : AlignedPair).y
        ∧ (⟨1000000, 0, 0⟩ : AlignedPair).y < (['A'].length : Nat)) :=
  ⟨by norm_num, getPosteriorProbs_example_mem,
    (getAlignedPairs_bounds (K := ℝ) Real.exp 1000000 (by norm_num) ['A'] ['A']).1 _ _ _ _ _ _
      getPosteriorProbs_example_mem⟩

/-- C5: for every `X`, `Y`, the list returned by `getAlignedPairs` is in
row-major scan order, strictly increasing lexicographically in `(x, y)`; hence
no coordinate pair `(x, y)` occurs twice in it. -/
theorem getAlignedPairs_rowMajor [FloorRing K] (e : K → K) (P : Nat) (sX sY : List Char)
    (l : List AlignedPair) (h : getAlignedPairs e P sX sY = some l) :
    l.Pairwise coordLt ∧ (l.map (fun t => (t.x, t.y))).Nodup := by
  obtain ⟨_, rfl⟩ := (getAlignedPairs_some_iff e P sX sY l).mp h
  exact ⟨getAlignedPairs_pairwise e P sX sY,
    pairwise_coordLt_nodup _ (getAlignedPairs_pairwise e P sX sY)⟩

/-- A witness of C5: over the reals, `X = "AC"`, `Y = "AG"`. -/
theorem getAlignedPairs_rowMajor_witness :
    getAlignedPairs (K := ℝ) Real.exp 1000000 ['A', 'C'] ['A', 'G']
      = some (getAlignedPairs_allocated (K := ℝ) Real.exp 1000000 ['A', 'C'] ['A', 'G'])
    ∧ (getAlignedPairs_allocated (K := ℝ) Real.exp 1000000 ['A', 'C'] ['A', 'G']).Pairwise
        coordLt
    ∧ ((getAlignedPairs_allocated (K := ℝ) Real.exp 1000000 ['A', 'C'] ['A', 'G']).map
        (fun t => (t.x, t.y))).Nodup :=
  ⟨getAlignedPairs_eq_some Real.exp 1000000 ['A', 'C'] ['A', 'G'] (by decide),
    getAlignedPairs_rowMajor (K := ℝ) Real.exp 1000000 ['A', 'C'] ['A', 'G'] _
      (getAlignedPairs_eq_some Real.exp 1000000 ['A', 'C'] ['A', 'G'] (by decide))⟩

/-- C6: `getPosteriorProbs` returns the list obtained by scanning the cells
`1 ≤ x < lX`, `1 ≤ y < lY` in row-major order and letting the cell of
posterior `p` contribute `(floor (min p 1 * PAIR_ALIGNMENT_PROB_1), x - 1,
y - 1)` exactly when `p ≥ 0.01`; so a triple is emitted if and only if it is
that of such a cell (`PAIR_ALIGNMENT_PROB_1` being an `int32_t` constant). -/
theorem getPosteriorProbs_emits [FloorRing K] (e : K → K) (P : Nat) (hP : P ≤ 2147483647)
    (fM bM : List (Dbl K)) (lX lY : Int) (sX sY : List Nat) (tp : Dbl K) :
    getPosteriorProbs e P fM bM lX lY sX sY [] tp =
      (List.range' 1 (lX.toNat - 1)).flatMap (fun (x : Nat) =>
        (List.range' 1 (lY.toNat - 1)).filterMap (fun (y : Nat) =>
          specEmit P (posteriorMatchProb e fM bM x y lX lY sX sY tp) x y))
    ∧ ∀ t, t ∈ getPosteriorProbs e P fM bM lX lY sX sY [] tp ↔
        ∃ x y : Int, 1 ≤ x ∧ x < lX ∧ 1 ≤ y ∧ y < lY ∧
          specEmit P (posteriorMatchProb e fM bM x y lX lY sX sY tp) x y = some t :=
  getPosteriorProbs_spec_aux e P hP fM bM lX lY sX sY tp

/-- A witness of C6: over the reals, with `PAIR_ALIGNMENT_PROB_1 = 1000000`,
on matrices for two sequences of length one. -/
theorem getPosteriorProbs_emits_witness :
    (1000000 : Nat) ≤ 2147483647
    ∧ (getPosteriorProbs (K := ℝ) Real.exp 1000000
        (fin 0 :: List.replicate 19 negInf) (List.replicate 20 (fin 0)) 2 2 [0] [0] []
        (fin (-2)) =
      (List.range' 1 ((2 : Int).toNat - 1)).flatMap (fun (x : Nat) =>
        (List.range' 1 ((2 : Int).toNat - 1)).filterMap (fun (y : Nat) =>
          specEmit 1000000 (posteriorMatchProb (K := ℝ) Real.exp
            (fin 0 :: List.replicate 19 negInf) (List.replicate 20 (fin 0)) x y 2 2 [0] [0]
            (fin (-2))) x y))
    ∧ ∀ t, t ∈ getPosteriorProbs (K := ℝ) Real.exp 1000000
        (fin 0 :: List.replicate 19 negInf) (List.replicate 20 (fin 0)) 2 2 [0] [0] []
        (fin (-2)) ↔
        ∃ x y : Int, 1 ≤ x ∧ x < 2 ∧ 1 ≤ y ∧ y < 2 ∧
          specEmit 1000000 (posteriorMatchProb (K := ℝ) Real.exp
            (fin 0 :: List.replicate 19 negInf) (List.replicate 20 (fin 0)) x y 2 2 [0] [0]
            (fin (-2))) x y = some t) :=
  ⟨by norm_num, getPosteriorProbs_emits (K := ℝ) Real.exp 1000000 (by norm_num)
    (fin 0 :: List.replicate 19 negInf) (List.replicate 20 (fin 0)) 2 2 [0] [0] (fin (-2))⟩

/-! ## Instances for `getAlignedPairs_Fast` -/

/-- A witness of C1: over the reals, `X = "AC"`, `Y = "AG"`, band size 2; both
calls return. -/
theorem getAlignedPairs_Fast_eq_getAlignedPairs_witness :
    max ((['A', 'C'].length : Nat) : Int) ((['A', 'G'].length : Nat) : Int) ≤ 2
    ∧ getAlignedPairs_Fast (K := ℝ) Real.exp 1000000 ['A', 'C'] ['A', 'G'] 2
        = getAlignedPairs (K := ℝ) Real.exp 1000000 ['A', 'C'] ['A', 'G']
    ∧ ∃ l, getAlignedPairs (K := ℝ) Real.exp 1000000 ['A', 'C'] ['A', 'G'] = some l
        ∧ getAlignedPairs_Fast (K := ℝ) Real.exp 1000000 ['A', 'C'] ['A', 'G'] 2 = some l :=
  ⟨by decide,
    (getAlignedPairs_Fast_eq_getAlignedPairs (K := ℝ) Real.exp 1000000
      ['A', 'C'] ['A', 'G'] 2 (by decide)).1,
    (getAlignedPairs_Fast_eq_getAlignedPairs (K := ℝ) Real.exp 1000000
      ['A', 'C'] ['A', 'G'] 2 (by decide)).2 (by decide)⟩

theorem logAdd_comm_fin (a b : K) : logAdd (fin a) (fin b) = logAdd (fin b) (fin a) := by
  rcases lt_trichotomy a b with h | h | h
  · have h' : ¬ b < a := not_lt.mpr h.le
    simp [logAdd, logZero, logUnderflowThreshold, h, h', Dbl.eq]
  · subst h; rfl
  · have h' : ¬ a < b := not_lt.mpr h.le
    simp [logAdd, logZero, logUnderflowThreshold, h, h', Dbl.eq]

/-- C11: `logAdd` is commutative: `logAdd x y = logAdd y x` for all doubles
`x`, `y` of the model, in particular when each is a finite number or the
log-zero sentinel. -/
theorem logAdd_comm (x y : Dbl K) : logAdd x y = logAdd y x := by
  cases x <;> cases y <;>
    first
    | exact logAdd_comm_fin _ _
    | simp [logAdd, logZero, Dbl.lt, Dbl.eq, Dbl.ge, Dbl.le, HSub.hSub, Sub.sub, Dbl.sub,
        Dbl.add, Dbl.neg, logUnderflowThreshold, lookup, HMul.hMul, Mul.mul, Dbl.mul,
        HAdd.hAdd, Add.add]

theorem logAdd_zero_zero :
    logAdd (K := ℝ) (fin 0) (fin 0) = fin 0.69320309162139892578125 := by
  rw [logAdd_fin_of_near 0 0 (by norm_num)]
  norm_num [lookupCubic]

/-- C13: `logAdd 0 0` is a finite number within `1e-4` of the natural logarithm
of 2. -/
theorem logAdd_zero_zero_log_two : ∃ v : ℝ, logAdd (K := ℝ) (fin 0) (fin 0) = fin v ∧ |v - Real.log 2| ≤ 1e-4 := by
  refine ⟨_, logAdd_zero_zero, ?_⟩
  have h1 := Real.log_two_gt_d9
  have h2 := Real.log_two_lt_d9
  rw [abs_le]
  constructor <;> norm_num at h1 h2 ⊢ <;> linarith

/-! ## The tables of the pair-HMM and the empty alignment -/

theorem getAlignedPairs_allocated_of_nil [FloorRing K] (e : K → K) (P : Nat)
    (sX sY : List Char) (h : sX = [] ∨ sY = []) : getAlignedPairs_allocated e P sX sY = [] := by
  unfold getAlignedPairs_allocated
  rw [getPosteriorProbs_eq_flatMap]
  rcases h with h | h <;> subst h <;> simp

/-- C17: with states `M = 0`, `Sx = 1`, `Sy = 2`, `Lx = 3`, `Ly = 4`,
`transitionProb from to` is finite for exactly the 15 listed transitions, with
the listed values, and is log-zero for the other 10. -/
theorem transitionProb_table :
    (transitionProb (K := K) 0 0 = fin (-0.030064059121770816)
      ∧ transitionProb (K := K) 1 0 = fin (-1.272871422049609)
      ∧ transitionProb (K := K) 2 0 = fin (-1.272871422049609)
      ∧ transitionProb (K := K) 3 0 = fin (-5.673280173170473)
      ∧ transitionProb (K := K) 4 0 = fin (-5.673280173170473)
      ∧ transitionProb (K := K) 0 1 = fin (-4.34381910900448)
      ∧ transitionProb (K := K) 0 2 = fin (-4.34381910900448)
      ∧ transitionProb (K := K) 1 1 = fin (-0.3388262689231553)
      ∧ transitionProb (K := K) 2 2 = fin (-0.3388262689231553)
      ∧ transitionProb (K := K) 2 1 = fin (-4.910694825551255)
      ∧ transitionProb (K := K) 1 2 = fin (-4.910694825551255)
      ∧ transitionProb (K := K) 0 3 = fin (-6.30810595366929)
      ∧ transitionProb (K := K) 0 4 = fin (-6.30810595366929)
      ∧ transitionProb (K := K) 3 3 = fin (-0.003442492794189331)
      ∧ transitionProb (K := K) 4 4 = fin (-0.003442492794189331))
    ∧ (transitionProb (K := K) 3 1 = logZero ∧ transitionProb (K := K) 4 1 = logZero
      ∧ transitionProb (K := K) 3 2 = logZero ∧ transitionProb (K := K) 4 2 = logZero
      ∧ transitionProb (K := K) 1 3 = logZero ∧ transitionProb (K := K) 2 3 = logZero
      ∧ transitionProb (K := K) 4 3 = logZero ∧ transitionProb (K := K) 1 4 = logZero
      ∧ transitionProb (K := K) 2 4 = logZero ∧ transitionProb (K := K) 3 4 = logZero) := by
  refine ⟨⟨rfl, rfl, rfl, rfl, rfl, rfl, rfl, rfl, rfl, rfl, rfl, rfl, rfl, rfl, rfl⟩,
    ⟨rfl, rfl, rfl, rfl, rfl, rfl, rfl, rfl, rfl, rfl⟩⟩

/-- C18: for encoded bases `a = sX[x - 1]` and `b = sY[y - 1]` in `0 .. 4`, the
match state emits the N-match value if `a = 4` or `b = 4`, otherwise the match
value if `a = b`, the transition value if `{a, b}` is `{A, G}` or `{C, T}`, and
the transversion value in every other case; every gap state emits the value
`-1.6094379124341003` (the source's `log 0.2`) for every base. -/
theorem emissionProb_table (x y lX lY : Int) (sX sY : List Nat)
    (ha : readSeq sX (x - 1) ≤ 4) (hb : readSeq sY (y - 1) ≤ 4) :
    emissionProb (K := K) x y lX lY sX sY 0 =
        (if readSeq sX (x - 1) = 4 ∨ readSeq sY (y - 1) = 4 then fin (-3.2188758248682006)
         else if readSeq sX (x - 1) = readSeq sY (y - 1) then fin (-2.1149196655034745)
         else if (readSeq sX (x - 1) = 0 ∧ readSeq sY (y - 1) = 2)
              ∨ (readSeq sX (x - 1) = 2 ∧ readSeq sY (y - 1) = 0)
              ∨ (readSeq sX (x - 1) = 1 ∧ readSeq sY (y - 1) = 3)
              ∨ (readSeq sX (x - 1) = 3 ∧ readSeq sY (y - 1) = 1)
           then fin (-3.9833860032220842)
         else fin (-4.5691014376830479))
    ∧ emissionProb (K := K) x y lX lY sX sY 1 = fin (-1.6094379124341003)
    ∧ emissionProb (K := K) x y lX lY sX sY 3 = fin (-1.6094379124341003)
    ∧ emissionProb (K := K) x y lX lY sX sY 2 = fin (-1.6094379124341003)
    ∧ emissionProb (K := K) x y lX lY sX sY 4 = fin (-1.6094379124341003) := by
  unfold emissionProb
  generalize readSeq sX (x - 1) = a at ha ⊢
  generalize readSeq sY (y - 1) = b at hb ⊢
  interval_cases a <;> interval_cases b <;>
    simp [matchM, gapM, matchEmission, transversionEmission, transitionEmission,
      matchNEmission, gapEmission]

/-- A witness of C18: `X = "A"`, `Y = "G"`, cell `(1, 1)`, over the rationals. -/
theorem emissionProb_table_witness :
    readSeq [0] ((1 : Int) - 1) ≤ 4 ∧ readSeq [2] ((1 : Int) - 1) ≤ 4
    ∧ (emissionProb (K := ℚ) 1 1 2 2 [0] [2] 0 =
        (if readSeq [0] ((1 : Int) - 1) = 4 ∨ readSeq [2] ((1 : Int) - 1) = 4
          then fin (-3.2188758248682006)
         else if readSeq [0] ((1 : Int) - 1) = readSeq [2] ((1 : Int) - 1)
          then fin (-2.1149196655034745)
         else if (readSeq [0] ((1 : Int) - 1) = 0 ∧ readSeq [2] ((1 : Int) - 1) = 2)
              ∨ (readSeq [0] ((1 : Int) - 1) = 2 ∧ readSeq [2] ((1 : Int) - 1) = 0)
              ∨ (readSeq [0] ((1 : Int) - 1) = 1 ∧ readSeq [2] ((1 : Int) - 1) = 3)
              ∨ (readSeq [0] ((1 : Int) - 1) = 3 ∧ readSeq [2] ((1 : Int) - 1) = 1)
           then fin (-3.9833860032220842)
         else fin (-4.5691014376830479))
      ∧ emissionProb (K := ℚ) 1 1 2 2 [0] [2] 1 = fin (-1.6094379124341003)
      ∧ emissionProb (K := ℚ) 1 1 2 2 [0] [2] 3 = fin (-1.6094379124341003)
      ∧ emissionProb (K := ℚ) 1 1 2 2 [0] [2] 2 = fin (-1.6094379124341003)
      ∧ emissionProb (K := ℚ) 1 1 2 2 [0] [2] 4 = fin (-1.6094379124341003)) :=
  ⟨by decide, by decide, emissionProb_table (K := ℚ) 1 1 2 2 [0] [2] (by decide) (by decide)⟩

/-- C14, as the spec states it, fails: for `X = ""` and `Y` of `429496729`
bases the cell count `1 * 429496730 * 5` of the matrices is no `int32_t` (it
wraps to a negative number, with which `st_malloc` aborts), and
`getAlignedPairs X Y` does not return the empty list. -/
theorem getAlignedPairs_empty_counterexample :
    ¬ (getAlignedPairs (K := ℝ) Real.exp 1000000 [] (List.replicate 429496729 'A')
      = some []) := by
  have h : getAlignedPairs (K := ℝ) Real.exp 1000000 [] (List.replicate 429496729 'A')
      = none := by
    rw [getAlignedPairs_none_iff, List.length_replicate, List.length_nil]
    decide
  rw [h]
  simp

/-- C14, amended: when `X` or `Y` is the empty string (in particular for
`X = ""` and `Y = ""`) and the cell count `(|X| + 1) * (|Y| + 1) * 5` of the
matrices is an `int32_t`, `getAlignedPairs X Y` returns the empty list. -/
theorem getAlignedPairs_empty [FloorRing K] (e : K → K) (P : Nat) (sX sY : List Char)
    (h : sX = [] ∨ sY = [])
    (ha : ((sX.length : Int) + 1) * ((sY.length : Int) + 1) * 5 ≤ 2147483647) :
    getAlignedPairs e P sX sY = some [] := by
  rw [getAlignedPairs_eq_some e P sX sY ha, getAlignedPairs_allocated_of_nil e P sX sY h]

/-- A witness of C14, amended: `X = ""`, `Y = "A"`. -/
theorem getAlignedPairs_empty_witness :
    (([] : List Char) = [] ∨ ['A'] = ([] : List Char))
    ∧ ((([] : List Char).length : Int) + 1) * (((['A'] : List Char).length : Int) + 1) * 5
        ≤ 2147483647
    ∧ getAlignedPairs (K := ℝ) Real.exp 1000000 [] ['A'] = some [] :=
  ⟨Or.inl rfl, by decide,
    getAlignedPairs_empty (K := ℝ) Real.exp 1000000 [] ['A'] (Or.inl rfl) (by decide)⟩

/-! ## The merge step, the band size and the termination of the band loop -/

theorem mem_stSortedSet_insert_of_mem (s : List AlignedPair) (i t : AlignedPair)
    (h : t ∈ s) : t ∈ stSortedSet_insert getAlignedPairsFast_cmpFn s i := by
  induction s with
  | nil => simp at h
  | cons j s ih =>
    unfold stSortedSet_insert
    split_ifs
    · exact List.mem_cons_of_mem _ h
    · exact h
    · rcases List.mem_cons.mp h with h | h
      · rw [h]; exact List.mem_cons_self _ _
      · exact List.mem_cons_of_mem _ (ih h)

theorem self_mem_stSortedSet_insert (s : List AlignedPair) (i : AlignedPair)
    (h : ∀ j ∈ s, getAlignedPairsFast_cmpFn i j ≠ 0) :
    i ∈ stSortedSet_insert getAlignedPairsFast_cmpFn s i := by
  induction s with
  | nil => simp [stSortedSet_insert]
  | cons j s ih =>
    unfold stSortedSet_insert
    split_ifs with h1 h2
    · exact List.mem_cons_self _ _
    · exact absurd h2 (h j (List.mem_cons_self _ _))
    · exact List.mem_cons_of_mem _ (ih (fun k hk => h k (List.mem_cons_of_mem _ hk)))

theorem mem_stSortedSet_insert_iff (s : List AlignedPair) (i t : AlignedPair)
    (h : ∀ j ∈ s, getAlignedPairsFast_cmpFn i j ≠ 0) :
    t ∈ stSortedSet_insert getAlignedPairsFast_cmpFn s i ↔ t = i ∨ t ∈ s := by
  constructor
  · exact mem_stSortedSet_insert s i t
  · rintro (h1 | h1)
    · rw [h1]; exact self_mem_stSortedSet_insert s i h
    · exact mem_stSortedSet_insert_of_mem s i t h1

theorem eq_of_coords_of_pairwise (s : List AlignedPair) (hs : s.Pairwise coordLt)
    (a b : AlignedPair) (ha : a ∈ s) (hb : b ∈ s) (hx : a.x = b.x) (hy : a.y = b.y) :
    a = b := by
  induction s with
  | nil => simp at ha
  | cons c s ih =>
    rw [List.pairwise_cons] at hs
    rcases List.mem_cons.mp ha with ha' | ha' <;> rcases List.mem_cons.mp hb with hb' | hb'
    · rw [ha', hb']
    · subst ha'
      have := hs.1 b hb'
      unfold coordLt at this
      omega
    · subst hb'
      have := hs.1 a ha'
      unfold coordLt at this
      omega
    · exact ih hs.2 ha' hb'

theorem mergePair_spec_aux (sd ed g : Int) (d : Bool) (s : List AlignedPair)
    (i : AlignedPair) (hs : s.Pairwise coordLt)
    (hret : (sd = 0 ∨ i.x + i.y ≥ sd + g) ∧ (d = true ∨ i.x + i.y ≤ ed - g)) :
    (∀ j ∈ s, j.x = i.x → j.y = i.y →
        -2147483648 ≤ i.score + j.score → i.score + j.score ≤ 2147483647 →
        ∀ t, t ∈ mergePair sd ed g d s i ↔
          (t ∈ s ∧ ¬ (t.x = i.x ∧ t.y = i.y))
            ∨ t = ⟨Int.tdiv (i.score + j.score) 2, i.x, i.y⟩)
    ∧ ((∀ j ∈ s, ¬ (j.x = i.x ∧ j.y = i.y)) →
        ∀ t, t ∈ mergePair sd ed g d s i ↔ t ∈ s ∨ t = i)
    ∧ (mergePair sd ed g d s i).Pairwise coordLt := by
  refine ⟨?_, ?_, mergePair_pairwise sd ed g d s i hs⟩
  · intro j hj hjx hjy hlo hhi t
    have hsearch : stSortedSet_search getAlignedPairsFast_cmpFn s i = some j := by
      cases hf : stSortedSet_search getAlignedPairsFast_cmpFn s i with
      | none =>
        unfold stSortedSet_search at hf
        rw [List.find?_eq_none] at hf
        have := hf j hj
        simp only [decide_eq_true_eq] at this
        exact absurd ((cmpFn_eq_zero_iff i j).mpr ⟨hjx.symm, hjy.symm⟩) this
      | some j' =>
        unfold stSortedSet_search at hf
        have hj' : j' ∈ s := List.mem_of_find?_eq_some hf
        have hc := List.find?_some hf
        simp only [decide_eq_true_eq] at hc
        rw [cmpFn_eq_zero_iff] at hc
        rw [eq_of_coords_of_pairwise s hs j' j hj' hj (by omega) (by omega)]
    have hwrap : wrapInt32 (i.score + j.score) = i.score + j.score := by
      unfold wrapInt32; omega
    unfold mergePair
    simp only
    rw [if_pos hret, hsearch]
    simp only
    rw [hwrap, mem_stSortedSet_insert_iff]
    · unfold stSortedSet_remove
      simp only [List.mem_filter, decide_eq_true_eq, ne_eq, cmpFn_eq_zero_iff]
      constructor
      · rintro (h | ⟨h1, h2⟩)
        · exact Or.inr h
        · exact Or.inl ⟨h1, fun hh => h2 ⟨hh.1.symm, hh.2.symm⟩⟩
      · rintro (⟨h1, h2⟩ | h)
        · exact Or.inr ⟨h1, fun hh => h2 ⟨hh.1.symm, hh.2.symm⟩⟩
        · exact Or.inl h
    · intro k hk
      unfold stSortedSet_remove at hk
      simp only [List.mem_filter, decide_eq_true_eq, ne_eq, cmpFn_eq_zero_iff] at hk
      rw [ne_eq, cmpFn_eq_zero_iff]
      exact hk.2
  · intro hno t
    have hsearch : stSortedSet_search getAlignedPairsFast_cmpFn s i = none := by
      unfold stSortedSet_search
      rw [List.find?_eq_none]
      intro j hj
      simp only [decide_eq_true_eq, cmpFn_eq_zero_iff]
      exact fun hh => hno j hj ⟨hh.1.symm, hh.2.symm⟩
    unfold mergePair
    simp only
    rw [if_pos hret, hsearch]
    simp only
    rw [mem_stSortedSet_insert_iff, or_comm]
    intro j hj
    rw [ne_eq, cmpFn_eq_zero_iff]
    exact fun hh => hno j hj ⟨hh.1.symm, hh.2.symm⟩

/-- C19: when a retained band pair `i = (s, x, y)` is merged into the set (in
strictly ascending order, as the loop keeps it): if the set holds an entry
`j = (s0, x, y)`, the set afterwards holds the entries it held at the other
coordinates and the entry `((s + s0) / 2, x, y)`, the division truncating
(the sum being an `int32_t`); if the set holds no entry at `(x, y)`, it
afterwards holds the entries it held and `i`; in both cases the set is still
in strictly ascending order, so it holds exactly one entry at `(x, y)`. -/
theorem mergePair_average (sd ed g : Int) (d : Bool) (s : List AlignedPair)
    (i : AlignedPair) (hs : s.Pairwise coordLt)
    (hret : (sd = 0 ∨ i.x + i.y ≥ sd + g) ∧ (d = true ∨ i.x + i.y ≤ ed - g)) :
    (∀ j ∈ s, j.x = i.x → j.y = i.y →
        -2147483648 ≤ i.score + j.score → i.score + j.score ≤ 2147483647 →
        ∀ t, t ∈ mergePair sd ed g d s i ↔
          (t ∈ s ∧ ¬ (t.x = i.x ∧ t.y = i.y))
            ∨ t = ⟨Int.tdiv (i.score + j.score) 2, i.x, i.y⟩)
    ∧ ((∀ j ∈ s, ¬ (j.x = i.x ∧ j.y = i.y)) →
        ∀ t, t ∈ mergePair sd ed g d s i ↔ t ∈ s ∨ t = i)
    ∧ (mergePair sd ed g d s i).Pairwise coordLt :=
  mergePair_spec_aux sd ed g d s i hs hret

/-- A witness of C19: the set `[(10, 1, 1), (7, 2, 5)]`, the pair `(21, 1, 1)`,
`startDiag = 0` and `done` set. -/
theorem mergePair_average_witness :
    ([⟨10, 1, 1⟩, ⟨7, 2, 5⟩] : List AlignedPair).Pairwise coordLt
    ∧ (((0 : Int) = 0 ∨ (⟨21, 1, 1⟩ : AlignedPair).x + (⟨21, 1, 1⟩ : AlignedPair).y ≥ 0 + 5)
        ∧ (true = true
          ∨ (⟨21, 1, 1⟩ : AlignedPair).x + (⟨21, 1, 1⟩ : AlignedPair).y ≤ 100 - 5))
    ∧ ((∀ j ∈ ([⟨10, 1, 1⟩, ⟨7, 2, 5⟩] : List AlignedPair),
          j.x = (⟨21, 1, 1⟩ : AlignedPair).x → j.y = (⟨21, 1, 1⟩ : AlignedPair).y →
          -2147483648 ≤ (⟨21, 1, 1⟩ : AlignedPair).score + j.score →
          (⟨21, 1, 1⟩ : AlignedPair).score + j.score ≤ 2147483647 →
          ∀ t, t ∈ mergePair 0 100 5 true [⟨10, 1, 1⟩, ⟨7, 2, 5⟩] ⟨21, 1, 1⟩ ↔
            (t ∈ ([⟨10, 1, 1⟩, ⟨7, 2, 5⟩] : List AlignedPair)
                ∧ ¬ (t.x = (⟨21, 1, 1⟩ : AlignedPair).x ∧ t.y = (⟨21, 1, 1⟩ : AlignedPair).y))
              ∨ t = ⟨Int.tdiv ((⟨21, 1, 1⟩ : AlignedPair).score + j.score) 2,
                    (⟨21, 1, 1⟩ : AlignedPair).x, (⟨21, 1, 1⟩ : AlignedPair).y⟩)
      ∧ ((∀ j ∈ ([⟨10, 1, 1⟩, ⟨7, 2, 5⟩] : List AlignedPair),
            ¬ (j.x = (⟨21, 1, 1⟩ : AlignedPair).x ∧ j.y = (⟨21, 1, 1⟩ : AlignedPair).y)) →
          ∀ t, t ∈ mergePair 0 100 5 true [⟨10, 1, 1⟩, ⟨7, 2, 5⟩] ⟨21, 1, 1⟩ ↔
            t ∈ ([⟨10, 1, 1⟩, ⟨7, 2, 5⟩] : List AlignedPair) ∨ t = ⟨21, 1, 1⟩)
      ∧ (mergePair 0 100 5 true [⟨10, 1, 1⟩, ⟨7, 2, 5⟩] ⟨21, 1, 1⟩).Pairwise coordLt) :=
  ⟨by simp [coordLt], ⟨Or.inl rfl, Or.inl rfl⟩,
    mergePair_average 0 100 5 true [⟨10, 1, 1⟩, ⟨7, 2, 5⟩] ⟨21, 1, 1⟩ (by simp [coordLt])
      ⟨Or.inl rfl, Or.inl rfl⟩⟩

/-! ## The accuracy of `lookup` and of `logAdd` -/

theorem hasDerivAt_logExpOne (t : ℝ) :
    HasDerivAt (fun t => Real.log (1 + Real.exp t)) (Real.exp t / (1 + Real.exp t)) t := by
  have h1 : HasDerivAt (fun t => 1 + Real.exp t) (Real.exp t) t :=
    (Real.hasDerivAt_exp t).const_add 1
  exact h1.log (by positivity)

theorem deriv_logExpOne : deriv (fun t => Real.log (1 + Real.exp t)) = fun t => Real.exp t / (1 + Real.exp t) :=
  funext fun t => (hasDerivAt_logExpOne t).deriv

theorem hasDerivAt_deriv_logExpOne (t : ℝ) :
    HasDerivAt (fun t => Real.exp t / (1 + Real.exp t))
      (Real.exp t / (1 + Real.exp t) ^ 2) t := by
  have h1 : HasDerivAt (fun t => 1 + Real.exp t) (Real.exp t) t :=
    (Real.hasDerivAt_exp t).const_add 1
  have h2 := (Real.hasDerivAt_exp t).div h1 (by positivity)
  convert h2 using 1
  ring

theorem convexOn_logExpOne : ConvexOn ℝ Set.univ (fun t => Real.log (1 + Real.exp t)) := by
  apply convexOn_univ_of_deriv2_nonneg
  · exact fun t => (hasDerivAt_logExpOne t).differentiableAt
  · rw [deriv_logExpOne]
    exact fun t => (hasDerivAt_deriv_logExpOne t).differentiableAt
  · intro t
    simp only [Function.iterate_succ, Function.iterate_zero, Function.comp_apply, id_eq]
    rw [deriv_logExpOne, (hasDerivAt_deriv_logExpOne t).deriv]
    positivity

theorem convexOn_sq_sub_logExpOne :
    ConvexOn ℝ Set.univ (fun t => t ^ 2 / 8 - Real.log (1 + Real.exp t)) := by
  have hd : ∀ t, HasDerivAt (fun t => t ^ 2 / 8 - Real.log (1 + Real.exp t))
      (t / 4 - Real.exp t / (1 + Real.exp t)) t := by
    intro t
    have h1 : HasDerivAt (fun t : ℝ => t ^ 2 / 8) (t / 4) t := by
      have := ((hasDerivAt_id t).pow 2).div_const 8
      convert this using 1
      simp; ring
    exact h1.sub (hasDerivAt_logExpOne t)
  have hd' : deriv (fun t => t ^ 2 / 8 - Real.log (1 + Real.exp t))
      = fun t => t / 4 - Real.exp t / (1 + Real.exp t) := funext fun t => (hd t).deriv
  have hd2 : ∀ t, HasDerivAt (fun t => t / 4 - Real.exp t / (1 + Real.exp t))
      (1 / 4 - Real.exp t / (1 + Real.exp t) ^ 2) t := by
    intro t
    have h1 : HasDerivAt (fun t : ℝ => t / 4) (1 / 4) t := (hasDerivAt_id t).div_const 4
    exact h1.sub (hasDerivAt_deriv_logExpOne t)
  apply convexOn_univ_of_deriv2_nonneg
  · exact fun t => (hd t).differentiableAt
  · rw [hd']
    exact fun t => (hd2 t).differentiableAt
  · intro t
    simp only [Function.iterate_succ, Function.iterate_zero, Function.comp_apply, id_eq]
    rw [hd', (hd2 t).deriv]
    have he : 0 < Real.exp t := Real.exp_pos t
    rw [sub_nonneg, div_le_iff₀ (by positivity)]
    nlinarith [sq_nonneg (1 - Real.exp t)]

theorem logExpOne_le_chord (a b t : ℝ) (hab : a < b) (hat : a ≤ t) (htb : t ≤ b) :
    Real.log (1 + Real.exp t) ≤ (Real.log (1 + Real.exp a) * (b - t) + Real.log (1 + Real.exp b) * (t - a)) / (b - a) := by
  have hba : 0 < b - a := sub_pos.mpr hab
  have h := convexOn_logExpOne.2 (Set.mem_univ a) (Set.mem_univ b)
    (div_nonneg (sub_nonneg.mpr htb) hba.le) (div_nonneg (sub_nonneg.mpr hat) hba.le)
    (by field_simp)
  simp only [smul_eq_mul] at h
  have ht : (b - t) / (b - a) * a + (t - a) / (b - a) * b = t := by
    field_simp; ring
  rw [ht] at h
  calc Real.log (1 + Real.exp t) ≤ _ := h
    _ = _ := by field_simp; ring

theorem chord_le_logExpOne (a b t : ℝ) (hab : a < b) (hat : a ≤ t) (htb : t ≤ b) :
    (Real.log (1 + Real.exp a) * (b - t) + Real.log (1 + Real.exp b) * (t - a)) / (b - a) - (t - a) * (b - t) / 8
      ≤ Real.log (1 + Real.exp t) := by
  have hba : 0 < b - a := sub_pos.mpr hab
  have h := convexOn_sq_sub_logExpOne.2 (Set.mem_univ a) (Set.mem_univ b)
    (div_nonneg (sub_nonneg.mpr htb) hba.le) (div_nonneg (sub_nonneg.mpr hat) hba.le)
    (by field_simp)
  simp only [smul_eq_mul] at h
  have ht : (b - t) / (b - a) * a + (t - a) / (b - a) * b = t := by
    field_simp; ring
  rw [ht] at h
  have e1 : (Real.log (1 + Real.exp a) * (b - t) + Real.log (1 + Real.exp b) * (t - a)) / (b - a)
      = (b - t) / (b - a) * Real.log (1 + Real.exp a) + (t - a) / (b - a) * Real.log (1 + Real.exp b) := by
    field_simp; ring
  have e2 : (b - t) / (b - a) * a ^ 2 + (t - a) / (b - a) * b ^ 2 - t ^ 2
      = (t - a) * (b - t) := by
    field_simp; ring
  rw [e1]
  nlinarith [h, e2]



theorem expSeriesLowNum_le_exp (n : Nat) :
    (expSeriesLowNum n : ℝ) / (362880 * 10 ^ 54) ≤ Real.exp ((n : ℝ) / 10 ^ 6) := by
  have h0 : (0 : ℝ) ≤ (n : ℝ) / 10 ^ 6 := by positivity
  have := Real.sum_le_exp_of_nonneg h0 10
  simp only [Finset.sum_range_succ, Finset.sum_range_zero, Nat.factorial] at this
  refine le_trans (le_of_eq ?_) this
  unfold expSeriesLowNum
  push_cast
  field_simp
  ring

theorem exp_le_expSeriesUppNum (n : Nat) (h : n ≤ 1000000) :
    Real.exp ((n : ℝ) / 10 ^ 6) ≤ (expSeriesUppNum n : ℝ) / (362880 * 10 ^ 62) := by
  have h0 : (0 : ℝ) ≤ (n : ℝ) / 10 ^ 6 := by positivity
  have h1 : (n : ℝ) / 10 ^ 6 ≤ 1 := by
    rw [div_le_one (by positivity)]
    have : (n : ℝ) ≤ (1000000 : ℕ) := by exact_mod_cast h
    norm_num at this ⊢
    exact this
  have := Real.exp_bound' h0 h1 (show 0 < 10 by norm_num)
  simp only [Finset.sum_range_succ, Finset.sum_range_zero, Nat.factorial] at this
  refine le_trans this (le_of_eq ?_)
  unfold expSeriesUppNum expSeriesLowNum
  push_cast
  field_simp
  ring

theorem exp_neg_grid (k : Nat) : Real.exp (-((k : ℝ) / 16)) = Real.exp (-(1 / 16)) ^ k := by
  rw [← Real.exp_nat_mul]
  congr 1
  ring

theorem log_one_add_exp (a : ℝ) :
    Real.log (1 + Real.exp a) = a + Real.log (1 + Real.exp (-a)) := by
  have h : 1 + Real.exp a = Real.exp a * (1 + Real.exp (-a)) := by
    rw [mul_add, mul_one, ← Real.exp_add, add_neg_cancel, Real.exp_zero, add_comm]
  rw [h, Real.log_mul (Real.exp_pos a).ne' (by positivity), Real.log_exp]

theorem expSeriesLowNum_pos (n : Nat) : 0 < expSeriesLowNum n := by
  unfold expSeriesLowNum
  positivity

theorem expSeriesUppNum_pos (n : Nat) : 0 < expSeriesUppNum n := by
  unfold expSeriesUppNum
  have := expSeriesLowNum_pos n
  positivity

theorem exp_neg_step_bounds :
    (362880 * 10 ^ 62 : ℝ) / (expSeriesUppNum 62500 : ℝ) ≤ Real.exp (-(1 / 16))
      ∧ Real.exp (-(1 / 16)) ≤ (362880 * 10 ^ 54 : ℝ) / (expSeriesLowNum 62500 : ℝ) := by
  have hl := expSeriesLowNum_le_exp 62500
  have hu := exp_le_expSeriesUppNum 62500 (by norm_num)
  have hc : ((62500 : ℕ) : ℝ) / 10 ^ 6 = 1 / 16 := by norm_num
  rw [hc] at hl hu
  have hlp : (0 : ℝ) < (expSeriesLowNum 62500 : ℝ) := by exact_mod_cast expSeriesLowNum_pos _
  have hup : (0 : ℝ) < (expSeriesUppNum 62500 : ℝ) := by exact_mod_cast expSeriesUppNum_pos _
  have hexp : (0 : ℝ) < Real.exp (1 / 16) := Real.exp_pos _
  rw [Real.exp_neg]
  constructor
  · have := inv_anti₀ hexp hu
    rwa [inv_div] at this
  · have := inv_anti₀ (div_pos hlp (by positivity)) hl
    rwa [inv_div] at this

theorem gridOK_sound (k : Nat) (h : gridOK k = true) :
    (k : ℝ) / 16 + (gridLow.getD k 0 : ℝ) / 10 ^ 6 ≤ Real.log (1 + Real.exp ((k : ℝ) / 16))
      ∧ Real.log (1 + Real.exp ((k : ℝ) / 16))
        ≤ (k : ℝ) / 16 + (gridUpp.getD k 0 : ℝ) / 10 ^ 6 := by
  unfold gridOK at h
  simp only [Bool.and_eq_true, decide_eq_true_eq] at h
  obtain ⟨⟨h1, h2⟩, h3⟩ := h
  obtain ⟨hb1, hb2⟩ := exp_neg_step_bounds
  have hlp : (0 : ℝ) < (expSeriesLowNum 62500 : ℝ) := by exact_mod_cast expSeriesLowNum_pos _
  have hup : (0 : ℝ) < (expSeriesUppNum 62500 : ℝ) := by exact_mod_cast expSeriesUppNum_pos _
  have hpl : ((362880 * 10 ^ 62 : ℝ) / (expSeriesUppNum 62500 : ℝ)) ^ k
      ≤ Real.exp (-((k : ℝ) / 16)) := by
    rw [exp_neg_grid]
    exact pow_le_pow_left₀ (by positivity) hb1 k
  have hpu : Real.exp (-((k : ℝ) / 16))
      ≤ ((362880 * 10 ^ 54 : ℝ) / (expSeriesLowNum 62500 : ℝ)) ^ k := by
    rw [exp_neg_grid]
    exact pow_le_pow_left₀ (Real.exp_pos _).le hb2 k
  have h2' : (expSeriesUppNum (gridLow.getD k 0) : ℝ) * (expSeriesUppNum 62500 : ℝ) ^ k
      ≤ (362880 * 10 ^ 62) * ((expSeriesUppNum 62500 : ℝ) ^ k + (362880 * 10 ^ 62) ^ k) := by
    exact_mod_cast h2
  have h3' : (362880 * 10 ^ 54) * ((expSeriesLowNum 62500 : ℝ) ^ k + (362880 * 10 ^ 54) ^ k)
      ≤ (expSeriesLowNum (gridUpp.getD k 0) : ℝ) * (expSeriesLowNum 62500 : ℝ) ^ k := by
    exact_mod_cast h3
  have e1 := exp_le_expSeriesUppNum _ h1
  have e2 := expSeriesLowNum_le_exp (gridUpp.getD k 0)
  have hpos : (0 : ℝ) < 1 + Real.exp (-((k : ℝ) / 16)) := by positivity
  have hlo : (expSeriesUppNum (gridLow.getD k 0) : ℝ) / (362880 * 10 ^ 62)
      ≤ 1 + ((362880 * 10 ^ 62 : ℝ) / (expSeriesUppNum 62500 : ℝ)) ^ k := by
    rw [div_pow, div_le_iff₀ (by positivity)]
    have hk : (0 : ℝ) < (expSeriesUppNum 62500 : ℝ) ^ k := by positivity
    rw [show (1 + (362880 * 10 ^ 62 : ℝ) ^ k / (expSeriesUppNum 62500 : ℝ) ^ k)
        * (362880 * 10 ^ 62)
      = ((362880 * 10 ^ 62) * ((expSeriesUppNum 62500 : ℝ) ^ k + (362880 * 10 ^ 62) ^ k))
        / (expSeriesUppNum 62500 : ℝ) ^ k by field_simp; ring]
    rw [le_div_iff₀ hk]
    exact h2'
  have hhi : 1 + ((362880 * 10 ^ 54 : ℝ) / (expSeriesLowNum 62500 : ℝ)) ^ k
      ≤ (expSeriesLowNum (gridUpp.getD k 0) : ℝ) / (362880 * 10 ^ 54) := by
    rw [div_pow, le_div_iff₀ (by positivity)]
    have hk : (0 : ℝ) < (expSeriesLowNum 62500 : ℝ) ^ k := by positivity
    rw [show (1 + (362880 * 10 ^ 54 : ℝ) ^ k / (expSeriesLowNum 62500 : ℝ) ^ k)
        * (362880 * 10 ^ 54)
      = ((362880 * 10 ^ 54) * ((expSeriesLowNum 62500 : ℝ) ^ k + (362880 * 10 ^ 54) ^ k))
        / (expSeriesLowNum 62500 : ℝ) ^ k by field_simp; ring]
    rw [div_le_iff₀ hk]
    exact h3'
  rw [log_one_add_exp]
  constructor
  · have : (gridLow.getD k 0 : ℝ) / 10 ^ 6 ≤ Real.log (1 + Real.exp (-((k : ℝ) / 16))) := by
      rw [Real.le_log_iff_exp_le hpos]
      linarith
    linarith
  · have : Real.log (1 + Real.exp (-((k : ℝ) / 16))) ≤ (gridUpp.getD k 0 : ℝ) / 10 ^ 6 := by
      rw [Real.log_le_iff_le_exp hpos]
      linarith
    linarith

theorem nonneg_of_scaled (s x : ℝ) (z : Int) (hs : 0 < s) (h : 0 ≤ z) (e : s * x = (z : ℝ)) :
    0 ≤ x := by
  have hz : (0 : ℝ) ≤ (z : ℝ) := by exact_mod_cast h
  rw [← e] at hz
  exact nonneg_of_mul_nonneg_right hz hs

theorem intervalOK_sound (eps : Int) (k : Nat) (hga : gridOK k = true)
    (hgb : gridOK (k + 1) = true) (h : intervalOK eps k = true) (t : ℝ)
    (hat : (k : ℝ) / 16 ≤ t) (htb : t ≤ ((k : ℝ) + 1) / 16) :
    |((((pieceCoeffs k).1 : ℝ) / 10 ^ 15 * t + ((pieceCoeffs k).2.1 : ℝ) / 10 ^ 15) * t
        + ((pieceCoeffs k).2.2.1 : ℝ) / 10 ^ 15) * t + ((pieceCoeffs k).2.2.2 : ℝ) / 10 ^ 15
      - Real.log (1 + Real.exp t)| ≤ (eps : ℝ) / (4096 * 10 ^ 15) := by
  unfold intervalOK at h
  simp only [Bool.and_eq_true, decide_eq_true_eq] at h
  obtain ⟨⟨⟨⟨⟨⟨⟨u0, u1⟩, u2⟩, u3⟩, l0⟩, l1⟩, l2⟩, l3⟩ := h
  obtain ⟨hla, hua⟩ := gridOK_sound k hga
  obtain ⟨hlb, hub⟩ := gridOK_sound (k + 1) hgb
  push_cast at hlb hub
  simp only [pieceValNum, pieceDerNum, gridLowNum, gridUppNum] at u0 u1 u2 u3 l0 l1 l2 l3
  generalize (pieceCoeffs k).1 = c3 at *
  generalize (pieceCoeffs k).2.1 = c2 at *
  generalize (pieceCoeffs k).2.2.1 = c1 at *
  generalize (pieceCoeffs k).2.2.2 = c0 at *
  generalize gridLow.getD k 0 = m0 at *
  generalize gridLow.getD (k + 1) 0 = m1 at *
  generalize gridUpp.getD k 0 = n0 at *
  generalize gridUpp.getD (k + 1) 0 = n1 at *
  have hS : (0 : ℝ) < 4096 * 10 ^ 15 := by positivity
  have hS3 : (0 : ℝ) < 3 * (4096 * 10 ^ 15) := by positivity
  have hab : (k : ℝ) / 16 < ((k : ℝ) + 1) / 16 := by linarith
  have hc1 := logExpOne_le_chord ((k : ℝ) / 16) (((k : ℝ) + 1) / 16) t hab hat htb
  have hc2 := chord_le_logExpOne ((k : ℝ) / 16) (((k : ℝ) + 1) / 16) t hab hat htb
  have hw : ((k : ℝ) + 1) / 16 - (k : ℝ) / 16 = 1 / 16 := by ring
  rw [hw] at hc1 hc2
  have hu : 0 ≤ t - (k : ℝ) / 16 := sub_nonneg.mpr hat
  have hv : 0 ≤ ((k : ℝ) + 1) / 16 - t := sub_nonneg.mpr htb
  have m1' := mul_le_mul_of_nonneg_right hua hv
  have m2' := mul_le_mul_of_nonneg_right hub hu
  have m3' := mul_le_mul_of_nonneg_right hla hv
  have m4' := mul_le_mul_of_nonneg_right hlb hu
  have e : (Real.log (1 + Real.exp ((k : ℝ) / 16)) * (((k : ℝ) + 1) / 16 - t)
      + Real.log (1 + Real.exp (((k : ℝ) + 1) / 16)) * (t - (k : ℝ) / 16)) / (1 / 16)
      = Real.log (1 + Real.exp ((k : ℝ) / 16)) * (((k : ℝ) + 1) / 16 - t) * 16
      + Real.log (1 + Real.exp (((k : ℝ) + 1) / 16)) * (t - (k : ℝ) / 16) * 16 := by
    ring
  rw [e] at hc1 hc2
  -- the cubic `eps + lower chord - (t - a) (b - t) / 8 - piece`
  have qU := cubic_nonneg_of_bernstein
    ((eps : ℝ) / (4096 * 10 ^ 15) - (c0 : ℝ) / 10 ^ 15
      + (((k : ℝ) / 16 + (m0 : ℝ) / 10 ^ 6) * (((k : ℝ) + 1) / 16)
          - (((k : ℝ) + 1) / 16 + (m1 : ℝ) / 10 ^ 6) * ((k : ℝ) / 16)) * 16
      + (k : ℝ) / 16 * (((k : ℝ) + 1) / 16) / 8)
    (-((c1 : ℝ) / 10 ^ 15)
      + ((((k : ℝ) + 1) / 16 + (m1 : ℝ) / 10 ^ 6) - ((k : ℝ) / 16 + (m0 : ℝ) / 10 ^ 6)) * 16
      - ((k : ℝ) / 16 + ((k : ℝ) + 1) / 16) / 8)
    (-((c2 : ℝ) / 10 ^ 15) + 1 / 8) (-((c3 : ℝ) / 10 ^ 15))
    ((k : ℝ) / 16) (((k : ℝ) + 1) / 16) t hat htb
    (nonneg_of_scaled _ _ _ hS u0 (by push_cast; ring))
    (nonneg_of_scaled _ _ _ hS3 u1 (by push_cast; ring))
    (nonneg_of_scaled _ _ _ hS3 u2 (by push_cast; ring))
    (nonneg_of_scaled _ _ _ hS u3 (by push_cast; ring))
  -- the cubic `eps - upper chord + piece`
  have qL := cubic_nonneg_of_bernstein
    ((eps : ℝ) / (4096 * 10 ^ 15) + (c0 : ℝ) / 10 ^ 15
      - (((k : ℝ) / 16 + (n0 : ℝ) / 10 ^ 6) * (((k : ℝ) + 1) / 16)
          - (((k : ℝ) + 1) / 16 + (n1 : ℝ) / 10 ^ 6) * ((k : ℝ) / 16)) * 16)
    ((c1 : ℝ) / 10 ^ 15
      - ((((k : ℝ) + 1) / 16 + (n1 : ℝ) / 10 ^ 6) - ((k : ℝ) / 16 + (n0 : ℝ) / 10 ^ 6)) * 16)
    ((c2 : ℝ) / 10 ^ 15) ((c3 : ℝ) / 10 ^ 15)
    ((k : ℝ) / 16) (((k : ℝ) + 1) / 16) t hat htb
    (nonneg_of_scaled _ _ _ hS l0 (by push_cast; ring))
    (nonneg_of_scaled _ _ _ hS3 l1 (by push_cast; ring))
    (nonneg_of_scaled _ _ _ hS3 l2 (by push_cast; ring))
    (nonneg_of_scaled _ _ _ hS l3 (by push_cast; ring))
  rw [abs_le]
  constructor
  · linarith [hc1, qL, m1', m2']
  · linarith [hc2, qU, m3', m4']

theorem specCubic_eq_piece (k : Nat) (t : ℝ) (hk : k < 120)
    (hat' : k ≠ 0 → (k : ℝ) / 16 < t)
    (htb : t ≤ ((k : ℝ) + 1) / 16) :
    specCubic t = ((((pieceCoeffs k).1 : ℝ) / 10 ^ 15 * t + ((pieceCoeffs k).2.1 : ℝ) / 10 ^ 15) * t
        + ((pieceCoeffs k).2.2.1 : ℝ) / 10 ^ 15) * t + ((pieceCoeffs k).2.2.2 : ℝ) / 10 ^ 15 := by
  have hkR : (k : ℝ) + 1 ≤ 120 := by exact_mod_cast hk
  unfold pieceCoeffs specCubic
  by_cases h1 : k + 1 ≤ 16
  · have h1R : (k : ℝ) + 1 ≤ 16 := by exact_mod_cast h1
    have ht : t ≤ 1.0 := by norm_num; linarith
    rw [if_pos h1, if_pos ht]
    push_cast
    norm_num
  · have hk0 : k ≠ 0 := by omega
    have hlt := hat' hk0
    have h1R : (16 : ℝ) ≤ (k : ℝ) := by
      have : 16 ≤ k := by omega
      exact_mod_cast this
    have ht1 : ¬ t ≤ 1.0 := by norm_num; linarith
    rw [if_neg h1, if_neg ht1]
    by_cases h2 : k + 1 ≤ 40
    · have h2R : (k : ℝ) + 1 ≤ 40 := by exact_mod_cast h2
      have ht : t ≤ 2.5 := by norm_num; linarith
      rw [if_pos h2, if_pos ht]
      push_cast
      norm_num
    · have h2R : (40 : ℝ) ≤ (k : ℝ) := by
        have : 40 ≤ k := by omega
        exact_mod_cast this
      have ht2 : ¬ t ≤ 2.5 := by norm_num; linarith
      rw [if_neg h2, if_neg ht2]
      by_cases h3 : k + 1 ≤ 72
      · have h3R : (k : ℝ) + 1 ≤ 72 := by exact_mod_cast h3
        have ht : t ≤ 4.5 := by norm_num; linarith
        rw [if_pos h3, if_pos ht]
        push_cast
        norm_num
      · have h3R : (72 : ℝ) ≤ (k : ℝ) := by
          have : 72 ≤ k := by omega
          exact_mod_cast this
        have ht3 : ¬ t ≤ 4.5 := by norm_num; linarith
        rw [if_neg h3, if_neg ht3]
        push_cast
        norm_num

theorem specCubic_approx_of_cert (eps : Int) (h : lookupCertOK eps = true) (t : ℝ)
    (h0 : 0 ≤ t) (h1 : t ≤ 7.5) :
    |specCubic t - Real.log (1 + Real.exp t)| ≤ (eps : ℝ) / (4096 * 10 ^ 15) := by
  unfold lookupCertOK at h
  simp only [Bool.and_eq_true, List.all_eq_true, List.mem_range] at h
  obtain ⟨hg, hi⟩ := h
  have hn : ⌈16 * t⌉₊ ≤ 120 := by
    rw [Nat.ceil_le]
    norm_num at h1 ⊢
    linarith
  obtain ⟨k, hk⟩ : ∃ k, k = ⌈16 * t⌉₊ - 1 := ⟨_, rfl⟩
  have hk120 : k < 120 := by
    rcases Nat.eq_zero_or_pos ⌈16 * t⌉₊ with h | h <;> omega
  have hle : 16 * t ≤ ((k : ℝ) + 1) := by
    have := Nat.le_ceil (16 * t)
    have h2 : (⌈16 * t⌉₊ : ℝ) ≤ (k : ℝ) + 1 := by
      have : ⌈16 * t⌉₊ ≤ k + 1 := by omega
      exact_mod_cast this
    linarith
  have hlt : k ≠ 0 → (k : ℝ) < 16 * t := by
    intro hk0
    have hpos : 0 < ⌈16 * t⌉₊ := by omega
    have h2 : k < ⌈16 * t⌉₊ := by omega
    exact Nat.lt_ceil.mp h2
  have hat : (k : ℝ) / 16 ≤ t := by
    by_cases hk0 : k = 0
    · rw [hk0]; simpa using h0
    · have := hlt hk0; linarith
  have hat' : k ≠ 0 → (k : ℝ) / 16 < t := by
    intro hk0
    have := hlt hk0; linarith
  have htb : t ≤ ((k : ℝ) + 1) / 16 := by linarith
  rw [specCubic_eq_piece k t hk120 hat' htb]
  exact intervalOK_sound eps k (hg k (by omega)) (hg (k + 1) (by omega)) (hi k hk120) t hat htb

theorem lookupCert : lookupCertOK (59 * 4096 * 10 ^ 10) = true := by decide!

theorem specCubic_approx (t : ℝ) (h0 : 0 ≤ t) (h1 : t ≤ 7.5) :
    |specCubic t - Real.log (1 + Real.exp t)| ≤ 59 / 100000 := by
  have := specCubic_approx_of_cert (59 * 4096 * 10 ^ 10) lookupCert t h0 h1
  refine le_trans this (le_of_eq ?_)
  push_cast
  norm_num

theorem lookupCubic_approx (t : ℝ) (h0 : 0 ≤ t) (h1 : t ≤ 7.5) :
    |lookupCubic t - Real.log (1 + Real.exp t)| ≤ 6 / 10000 := by
  have hs := specCubic_approx t h0 h1
  have hd := lookupCubic_sub_specCubic t h0 h1
  rw [abs_le] at hs hd ⊢
  constructor <;> linarith [hs.1, hs.2, hd.1, hd.2]


theorem log_exp_add_exp_min (x y : ℝ) :
    Real.log (Real.exp x + Real.exp y) = min x y + Real.log (1 + Real.exp |x - y|) := by
  rcases le_total x y with h | h
  · have h1 : |x - y| = y - x := by rw [abs_sub_comm]; exact abs_of_nonneg (by linarith)
    have h2 : Real.exp x + Real.exp y = Real.exp x * (1 + Real.exp (y - x)) := by
      rw [mul_add, mul_one, ← Real.exp_add]; congr 2; ring
    rw [h1, min_eq_left h, h2, Real.log_mul (Real.exp_pos x).ne' (by positivity), Real.log_exp]
  · have h1 : |x - y| = x - y := abs_of_nonneg (by linarith)
    have h2 : Real.exp x + Real.exp y = Real.exp y * (1 + Real.exp (x - y)) := by
      rw [mul_add, mul_one, ← Real.exp_add, add_comm]; congr 2; ring
    rw [h1, min_eq_right h, h2, Real.log_mul (Real.exp_pos y).ne' (by positivity), Real.log_exp]

theorem log_exp_add_exp_max (x y : ℝ) :
    Real.log (Real.exp x + Real.exp y) = max x y + Real.log (1 + Real.exp (-|x - y|)) := by
  have h := log_one_add_exp |x - y|
  rw [log_exp_add_exp_min, h]
  rcases le_total x y with h' | h'
  · have h1 : |x - y| = y - x := by rw [abs_sub_comm]; exact abs_of_nonneg (by linarith)
    rw [h1, min_eq_left h', max_eq_right h']; ring
  · have h1 : |x - y| = x - y := abs_of_nonneg (by linarith)
    rw [h1, min_eq_right h', max_eq_left h']; ring

theorem exp_neg_far (t : ℝ) (ht : 7.5 ≤ t) : Real.exp (-t) ≤ 6 / 10000 := by
  have h1 : Real.exp (-t) ≤ Real.exp (-7.5) := Real.exp_le_exp.mpr (by linarith)
  have h2 : (1.64 : ℝ) ≤ Real.exp (1 / 2) := by
    have := expSeriesLowNum_le_exp 500000
    rw [show ((500000 : ℕ) : ℝ) / 10 ^ 6 = 1 / 2 by norm_num] at this
    refine le_trans ?_ this
    rw [le_div_iff₀ (by positivity)]
    have h : 164 * (362880 * 10 ^ 54) ≤ 100 * expSeriesLowNum 500000 := by decide
    have hR : (164 : ℝ) * (362880 * 10 ^ 54) ≤ 100 * (expSeriesLowNum 500000 : ℝ) := by
      exact_mod_cast h
    norm_num at hR ⊢
    linarith
  have h3 : Real.exp 7.5 = Real.exp (1 / 2) ^ 15 := by
    rw [← Real.exp_nat_mul]; congr 1; norm_num
  have h4 : (1.64 : ℝ) ^ 15 ≤ Real.exp (1 / 2) ^ 15 := pow_le_pow_left₀ (by norm_num) h2 15
  have h5 : (10000 / 6 : ℝ) ≤ Real.exp 7.5 := by
    rw [h3]; refine le_trans ?_ h4; norm_num
  have h6 : Real.exp (-7.5) ≤ 6 / 10000 := by
    rw [Real.exp_neg, inv_le_comm₀ (Real.exp_pos _) (by norm_num)]
    refine le_trans ?_ h5; norm_num
  linarith

theorem logAdd_accuracy_aux (x y : ℝ) :
    ∃ v, logAdd (fin x) (fin y) = fin v
      ∧ |v - Real.log (Real.exp x + Real.exp y)| ≤ 6 / 10000 := by
  by_cases h : |x - y| < 7.5
  · refine ⟨_, logAdd_fin_of_near x y h, ?_⟩
    rw [log_exp_add_exp_min]
    have := lookupCubic_approx |x - y| (abs_nonneg _) h.le
    rw [show min x y + lookupCubic |x - y| - (min x y + Real.log (1 + Real.exp |x - y|))
      = lookupCubic |x - y| - Real.log (1 + Real.exp |x - y|) by ring]
    exact this
  · have h' : (7.5 : ℝ) ≤ |x - y| := not_lt.mp h
    refine ⟨_, logAdd_fin_of_far x y h', ?_⟩
    rw [log_exp_add_exp_max]
    have hpos : 0 < Real.exp (-|x - y|) := Real.exp_pos _
    have h1 : 0 ≤ Real.log (1 + Real.exp (-|x - y|)) := Real.log_nonneg (by linarith)
    have h2 : Real.log (1 + Real.exp (-|x - y|)) ≤ Real.exp (-|x - y|) := by
      have := Real.log_le_sub_one_of_pos (show 0 < 1 + Real.exp (-|x - y|) by linarith)
      linarith
    have h3 := exp_neg_far |x - y| h'
    rw [abs_le]
    constructor <;> linarith

/-- C12, as the spec states it, fails: at `x = y = 0` the value of `logAdd`,
`0.69320309162139892578125`, is more than `1e-5` away from
`log (exp 0 + exp 0)`. -/
theorem logAdd_accuracy_counterexample :
    ¬ ∃ v : ℝ, logAdd (K := ℝ) (fin 0) (fin 0) = fin v
      ∧ |v - Real.log (Real.exp 0 + Real.exp 0)| ≤ 1e-5 := by
  rintro ⟨v, hv, hd⟩
  rw [logAdd_zero_zero] at hv
  injection hv with hv
  subst hv
  have h2 := Real.log_two_lt_d9
  rw [Real.exp_zero, show (1 : ℝ) + 1 = 2 by norm_num, abs_le] at hd
  norm_num at hd h2
  linarith [hd.2]

/-- C12, amended: for all finite `x`, `y`, the value of `logAdd x y` (the cubic
in exact real arithmetic) differs from the exact `log (exp x + exp y)` by at
most `6e-4`. -/
theorem logAdd_accuracy (x y : ℝ) :
    ∃ v, logAdd (fin x) (fin y) = fin v
      ∧ |v - Real.log (Real.exp x + Real.exp y)| ≤ 6 / 10000 :=
  logAdd_accuracy_aux x y

/-! ## The choice of the next offsets -/

theorem traceBack_fold_filter (tF tB : Int) (pairs : List AlignedPair)
    (acc0 : Int × Int × Int) :
    pairs.foldl (fun (acc : Int × Int × Int) i =>
        let j := i.x
        let k := i.y
        let diagC := j + k
        if diagC ≥ tF ∧ diagC ≤ tB ∧ i.score > acc.2.2 then
          (j, k, i.score)
        else acc) acc0
    = (pairs.filter (fun i => decide (i.x + i.y ≥ tF ∧ i.x + i.y ≤ tB))).foldl
        (fun (acc : Int × Int × Int) i =>
          if i.score > acc.2.2 then (i.x, i.y, i.score) else acc) acc0 := by
  induction pairs generalizing acc0 with
  | nil => rfl
  | cons i pairs ih =>
    rw [List.foldl_cons, ih]
    by_cases hw : i.x + i.y ≥ tF ∧ i.x + i.y ≤ tB
    · rw [List.filter_cons_of_pos (by simpa using hw), List.foldl_cons]
      congr 1
      by_cases hs : i.score > acc0.2.2
      · simp only
        rw [if_pos ⟨hw.1, hw.2, hs⟩, if_pos hs]
      · simp only
        rw [if_neg (fun h => hs h.2.2), if_neg hs]
    · rw [List.filter_cons_of_neg (by simpa using hw)]
      congr 1
      simp only
      rw [if_neg (fun h => hw ⟨h.1, h.2.1⟩)]

theorem firstMax_fold (l : List AlignedPair) (acc0 : Int × Int × Int) :
    ((∀ u ∈ l, u.score ≤ acc0.2.2) →
      l.foldl (fun (acc : Int × Int × Int) i =>
        if i.score > acc.2.2 then (i.x, i.y, i.score) else acc) acc0 = acc0)
    ∧ ((∃ u ∈ l, acc0.2.2 < u.score) →
      ∃ l1 t l2, l = l1 ++ t :: l2
        ∧ l.foldl (fun (acc : Int × Int × Int) i =>
            if i.score > acc.2.2 then (i.x, i.y, i.score) else acc) acc0 = (t.x, t.y, t.score)
        ∧ (∀ u ∈ l1, u.score < t.score) ∧ (∀ u ∈ l2, u.score ≤ t.score)
        ∧ acc0.2.2 < t.score) := by
  induction l generalizing acc0 with
  | nil => exact ⟨fun _ => rfl, fun ⟨u, hu, _⟩ => absurd hu (List.not_mem_nil _)⟩
  | cons i l ih =>
    constructor
    · intro h
      rw [List.foldl_cons, if_neg (not_lt.mpr (h i (List.mem_cons_self _ _)))]
      exact (ih acc0).1 (fun u hu => h u (List.mem_cons_of_mem _ hu))
    · rintro ⟨u, hu, hlt⟩
      rw [List.foldl_cons]
      by_cases hs : i.score > acc0.2.2
      · rw [if_pos hs]
        by_cases hall : ∀ v ∈ l, v.score ≤ i.score
        · exact ⟨[], i, l, rfl, (ih (i.x, i.y, i.score)).1 hall,
            fun v hv => absurd hv (List.not_mem_nil _), hall, hs⟩
        · push_neg at hall
          obtain ⟨v, hv, hvi⟩ := hall
          obtain ⟨l1, t, l2, hl, hf, h1, h2, h3⟩ := (ih (i.x, i.y, i.score)).2 ⟨v, hv, hvi⟩
          refine ⟨i :: l1, t, l2, by rw [hl]; rfl, hf, ?_, h2, ?_⟩
          · intro w hw
            rcases List.mem_cons.mp hw with rfl | hw
            · exact h3
            · exact h1 w hw
          · simp only at h3
            omega
      · rw [if_neg hs]
        have hul : u ∈ l := by
          rcases List.mem_cons.mp hu with rfl | h
          · exact absurd hlt hs
          · exact h
        obtain ⟨l1, t, l2, hl, hf, h1, h2, h3⟩ := (ih acc0).2 ⟨u, hul, hlt⟩
        refine ⟨i :: l1, t, l2, by rw [hl]; rfl, hf, ?_, h2, h3⟩
        intro w hw
        rcases List.mem_cons.mp hw with rfl | hw
        · omega
        · exact h1 w hw

theorem chooseNextOffsets_first (pairs : List AlignedPair) (offX offY lX lY lX2 lY2 : Int)
    (hl : 0 ≤ lX2 + lY2) (hrem : offX + lX2 < lX ∨ offY + lY2 < lY)
    (hscore : ∀ t ∈ pairs, 0 ≤ t.score)
    (hcand : ∃ t ∈ pairs, offX + offY + Int.tdiv (lX2 + lY2) 2 ≤ t.x + t.y
      ∧ t.x + t.y ≤ offX + offY + lX2 + lY2 - 50) :
    ∃ l1 t l2,
      pairs.filter (fun i => decide (i.x + i.y ≥ offX + offY + Int.tdiv (lX2 + lY2) 2
        ∧ i.x + i.y ≤ offX + offY + lX2 + lY2 - 50)) = l1 ++ t :: l2
      ∧ (∀ u ∈ l1, u.score < t.score) ∧ (∀ u ∈ l2, u.score ≤ t.score)
      ∧ chooseNextOffsets pairs offX offY lX lY lX2 lY2 (offX + offY)
          (offX + offY + lX2 + lY2) 50 = some (t.x, t.y, false) := by
  obtain ⟨c, hc, hc1, hc2⟩ := hcand
  have hcf : c ∈ pairs.filter (fun i => decide (i.x + i.y ≥ offX + offY
      + Int.tdiv (lX2 + lY2) 2 ∧ i.x + i.y ≤ offX + offY + lX2 + lY2 - 50)) := by
    rw [List.mem_filter]
    exact ⟨hc, by simpa using ⟨hc1, hc2⟩⟩
  obtain ⟨l1, t, l2, hl12, hf, h1, h2, h3⟩ :=
    (firstMax_fold _ (offX, offY, -1)).2 ⟨c, hcf, by have := hscore c hc; simp only; omega⟩
  refine ⟨l1, t, l2, hl12, h1, h2, ?_⟩
  have htf : t ∈ pairs.filter (fun i => decide (i.x + i.y ≥ offX + offY
      + Int.tdiv (lX2 + lY2) 2 ∧ i.x + i.y ≤ offX + offY + lX2 + lY2 - 50)) := by
    rw [hl12]; simp
  rw [List.mem_filter] at htf
  obtain ⟨htp, htw⟩ := htf
  simp only [ge_iff_le, decide_eq_true_eq] at htw
  have hdiv : Int.tdiv (lX2 + lY2) 2 = (lX2 + lY2) / 2 := Int.tdiv_eq_ediv hl (by omega)
  unfold chooseNextOffsets
  rw [if_pos hrem]
  simp only
  rw [traceBack_fold_filter, hf]
  simp only at h3
  have hne : t.score ≠ -1 := by omega
  have hgt : t.x > offX ∨ t.y > offY := by
    rw [hdiv] at htw
    omega
  simp only [ne_eq, hne, not_false_eq_true, if_true, hgt]

/-- C22, as the spec states it, fails: in a band at offsets `(0, 0)` of size
`100 x 100` inside sequences of length `200`, the band pairs `(7, 50, 50)` and
`(7, 60, 60)`, scanned in this order, both lie in the window
`100 <= x + y <= 150` and tie for the highest score; the next offsets are those
of the pair scanned first, `(50, 50)`, not of the pair scanned last. -/
theorem chooseNextOffsets_last_max_counterexample :
    ¬ (chooseNextOffsets [⟨7, 50, 50⟩, ⟨7, 60, 60⟩] 0 0 200 200 100 100 0 200 50
        = some (60, 60, false)) := by
  decide

/-- C22, amended: when the band does not reach the end of both sequences and
at least one band pair has `startDiag + (lX' + lY') / 2 <= x + y <= endDiag - 50`,
the next offsets are the `(x, y)` of the candidate `t` with the highest score,
and among the candidates tied for the highest score the one scanned first:
every candidate scanned before `t` has a strictly smaller score, every
candidate scanned after `t` a score at most that of `t`.  (The scores of band
pairs are never negative.) -/
theorem chooseNextOffsets_first_max (pairs : List AlignedPair)
    (offX offY lX lY lX2 lY2 : Int)
    (hl : 0 ≤ lX2 + lY2) (hrem : offX + lX2 < lX ∨ offY + lY2 < lY)
    (hscore : ∀ t ∈ pairs, 0 ≤ t.score)
    (hcand : ∃ t ∈ pairs, offX + offY + Int.tdiv (lX2 + lY2) 2 ≤ t.x + t.y
      ∧ t.x + t.y ≤ offX + offY + lX2 + lY2 - 50) :
    ∃ l1 t l2,
      pairs.filter (fun i => decide (i.x + i.y ≥ offX + offY + Int.tdiv (lX2 + lY2) 2
        ∧ i.x + i.y ≤ offX + offY + lX2 + lY2 - 50)) = l1 ++ t :: l2
      ∧ (∀ u ∈ l1, u.score < t.score) ∧ (∀ u ∈ l2, u.score ≤ t.score)
      ∧ chooseNextOffsets pairs offX offY lX lY lX2 lY2 (offX + offY)
          (offX + offY + lX2 + lY2) 50 = some (t.x, t.y, false) :=
  chooseNextOffsets_first pairs offX offY lX lY lX2 lY2 hl hrem hscore hcand

/-- A witness of C22, amended: the band of the counterexample. -/
theorem chooseNextOffsets_first_max_witness :
    (0 : Int) ≤ 100 + 100 ∧ ((0 : Int) + 100 < 200 ∨ (0 : Int) + 100 < 200)
    ∧ (∀ t ∈ ([⟨7, 50, 50⟩, ⟨7, 60, 60⟩] : List AlignedPair), 0 ≤ t.score)
    ∧ (∃ t ∈ ([⟨7, 50, 50⟩, ⟨7, 60, 60⟩] : List AlignedPair),
        0 + 0 + Int.tdiv (100 + 100) 2 ≤ t.x + t.y ∧ t.x + t.y ≤ 0 + 0 + 100 + 100 - 50)
    ∧ ∃ l1 t l2,
      ([⟨7, 50, 50⟩, ⟨7, 60, 60⟩] : List AlignedPair).filter
        (fun i => decide (i.x + i.y ≥ 0 + 0 + Int.tdiv (100 + 100) 2
          ∧ i.x + i.y ≤ 0 + 0 + 100 + 100 - 50)) = l1 ++ t :: l2
      ∧ (∀ u ∈ l1, u.score < t.score) ∧ (∀ u ∈ l2, u.score ≤ t.score)
      ∧ chooseNextOffsets [⟨7, 50, 50⟩, ⟨7, 60, 60⟩] 0 0 200 200 100 100 (0 + 0)
          (0 + 0 + 100 + 100) 50 = some (t.x, t.y, false) :=
  ⟨by decide, by decide, by decide, by decide,
    chooseNextOffsets_first_max [⟨7, 50, 50⟩, ⟨7, 60, 60⟩] 0 0 200 200 100 100
      (by decide) (by decide) (by decide) (by decide)⟩

/-! ## The pairs offered to the merge -/

theorem mergePair_eq_ite (sd ed g : Int) (d : Bool) (s : List AlignedPair) (i : AlignedPair) :
    mergePair sd ed g d s i
      = if (sd = 0 ∨ i.x + i.y ≥ sd + g) ∧ (d = true ∨ i.x + i.y ≤ ed - g)
        then mergeIntoSet s i else s := by
  unfold mergePair mergeIntoSet
  rfl

theorem foldl_mergePair_filter (sd ed g : Int) (d : Bool) (l s : List AlignedPair) :
    l.foldl (mergePair sd ed g d) s
      = (l.filter (fun i => decide ((sd = 0 ∨ i.x + i.y ≥ sd + g)
          ∧ (d = true ∨ i.x + i.y ≤ ed - g)))).foldl mergeIntoSet s := by
  induction l generalizing s with
  | nil => rfl
  | cons i l ih =>
    rw [List.foldl_cons, ih, mergePair_eq_ite]
    by_cases hc : (sd = 0 ∨ i.x + i.y ≥ sd + g) ∧ (d = true ∨ i.x + i.y ≤ ed - g)
    · rw [if_pos hc, List.filter_cons_of_pos (by simpa using hc), List.foldl_cons]
    · rw [if_neg hc, List.filter_cons_of_neg (by simpa using hc)]

theorem bandIteration_some [FloorRing K] (e : K → K) (P : Nat) (sX sY : List Char) (B : Int)
    (st st' : BandState) (h : bandIteration e P sX sY B st = some st') :
    ∃ sX2 sY2 band,
      getSubString sX st.offsetX (bandLength sX.length B st.offsetX) = some sX2
      ∧ getSubString sY st.offsetY (bandLength sY.length B st.offsetY) = some sY2
      ∧ getAlignedPairs e P sX2 sY2 = some band
      ∧ chooseNextOffsets (band.map
            (fun i => (⟨i.score, i.x + st.offsetX, i.y + st.offsetY⟩ : AlignedPair)))
          st.offsetX st.offsetY sX.length sY.length
          (bandLength sX.length B st.offsetX) (bandLength sY.length B st.offsetY)
          (st.offsetX + st.offsetY)
          (st.offsetX + st.offsetY + bandLength sX.length B st.offsetX
            + bandLength sY.length B st.offsetY) 50
          = some (st'.offsetX, st'.offsetY, st'.done)
      ∧ st'.alignedPairs
          = (band.map
              (fun i => (⟨i.score, i.x + st.offsetX, i.y + st.offsetY⟩ : AlignedPair))).reverse.foldl
            (mergePair (st.offsetX + st.offsetY)
              (st.offsetX + st.offsetY + bandLength sX.length B st.offsetX
                + bandLength sY.length B st.offsetY) 5 st'.done) st.alignedPairs := by
  unfold bandIteration at h
  simp only at h
  unfold bandLength
  cases hX : getSubString sX st.offsetX
      (if (sX.length : Int) < B + st.offsetX then (sX.length : Int) - st.offsetX else B) with
  | none => rw [hX] at h; simp at h
  | some sX2 =>
    rw [hX] at h
    simp only at h
    cases hY : getSubString sY st.offsetY
        (if (sY.length : Int) < B + st.offsetY then (sY.length : Int) - st.offsetY else B) with
    | none => rw [hY] at h; simp at h
    | some sY2 =>
      rw [hY] at h
      simp only at h
      cases hga : getAlignedPairs e P sX2 sY2 with
      | none => rw [hga] at h; simp at h
      | some band =>
        rw [hga] at h
        simp only at h
        refine ⟨sX2, sY2, band, rfl, rfl, hga, ?_⟩
        cases hc : chooseNextOffsets (band.map
              (fun i => (⟨i.score, i.x + st.offsetX, i.y + st.offsetY⟩ : AlignedPair)))
            st.offsetX st.offsetY sX.length sY.length
            (if (sX.length : Int) < B + st.offsetX then (sX.length : Int) - st.offsetX else B)
            (if (sY.length : Int) < B + st.offsetY then (sY.length : Int) - st.offsetY else B)
            (st.offsetX + st.offsetY)
            (st.offsetX + st.offsetY
              + (if (sX.length : Int) < B + st.offsetX then (sX.length : Int) - st.offsetX else B)
              + (if (sY.length : Int) < B + st.offsetY then (sY.length : Int) - st.offsetY else B))
            50 with
        | none => rw [hc] at h; simp at h
        | some r =>
          obtain ⟨nx, ny, d⟩ := r
          rw [hc] at h
          simp only [Option.some.injEq] at h
          subst h
          exact ⟨rfl, rfl⟩

theorem bandIteration_whole_some [FloorRing K] (e : K → K) (P : Nat) (sX sY : List Char)
    (B : Int) (hX : (sX.length : Int) ≤ B) (hY : (sY.length : Int) ≤ B)
    (h : ((sX.length : Int) + 1) * ((sY.length : Int) + 1) * 5 ≤ 2147483647) :
    bandIteration e P sX sY B ⟨0, 0, [], false⟩
      = some ⟨0, 0, getAlignedPairs_allocated e P sX sY, true⟩ := by
  rw [bandIteration_whole e P sX sY B hX hY, getAlignedPairs_eq_some e P sX sY h]
  rfl

/-- C23: in a band iteration that ends in the state `st'`, with `band` the
list that `getAlignedPairs` has returned for the band, the set of `st'` is the
set before the iteration after the merge (lines 516-539), in the order of the
pops, of exactly the translated band pairs `(s, x, y)` with
`(startDiag = 0 or x + y >= startDiag + 5)` and
`(done or x + y <= endDiag - 5)`, where `done` is the flag of `st'`, the one
decided in this iteration; for every other pair `mergePair` leaves the set as
it is. -/
theorem bandIteration_offers [FloorRing K] (e : K → K) (P : Nat) (sX sY : List Char) (B : Int)
    (st st' : BandState) (h : bandIteration e P sX sY B st = some st') :
    ∃ sX2 sY2 band,
      getSubString sX st.offsetX (bandLength sX.length B st.offsetX) = some sX2
      ∧ getSubString sY st.offsetY (bandLength sY.length B st.offsetY) = some sY2
      ∧ getAlignedPairs e P sX2 sY2 = some band
      ∧ st'.alignedPairs
          = ((band.map
              (fun i => (⟨i.score, i.x + st.offsetX, i.y + st.offsetY⟩ : AlignedPair))).reverse.filter
              (fun i => decide ((st.offsetX + st.offsetY = 0
                  ∨ i.x + i.y ≥ st.offsetX + st.offsetY + 5)
                ∧ (st'.done = true
                  ∨ i.x + i.y ≤ st.offsetX + st.offsetY + bandLength sX.length B st.offsetX
                    + bandLength sY.length B st.offsetY - 5)))).foldl mergeIntoSet st.alignedPairs
      ∧ ∀ (s : List AlignedPair) (i : AlignedPair),
          mergePair (st.offsetX + st.offsetY)
            (st.offsetX + st.offsetY + bandLength sX.length B st.offsetX
              + bandLength sY.length B st.offsetY) 5 st'.done s i
          = if (st.offsetX + st.offsetY = 0 ∨ i.x + i.y ≥ st.offsetX + st.offsetY + 5)
              ∧ (st'.done = true
                ∨ i.x + i.y ≤ st.offsetX + st.offsetY + bandLength sX.length B st.offsetX
                  + bandLength sY.length B st.offsetY - 5)
            then mergeIntoSet s i else s := by
  obtain ⟨sX2, sY2, band, hX, hY, hga, _, hs⟩ := bandIteration_some e P sX sY B st st' h
  refine ⟨sX2, sY2, band, hX, hY, hga, ?_, fun s i => mergePair_eq_ite _ _ _ _ s i⟩
  rw [hs, foldl_mergePair_filter]

/-- A witness of C23: the only band of `X = "A"`, `Y = "A"` with `B = 1`. -/
theorem bandIteration_offers_witness :
    bandIteration (K := ℝ) Real.exp 1000000 ['A'] ['A'] 1 ⟨0, 0, [], false⟩
      = some ⟨0, 0, getAlignedPairs_allocated (K := ℝ) Real.exp 1000000 ['A'] ['A'], true⟩
    ∧ ∃ sX2 sY2 band,
      getSubString ['A'] 0 (bandLength ((['A'].length : Nat) : Int) 1 0) = some sX2
      ∧ getSubString ['A'] 0 (bandLength ((['A'].length : Nat) : Int) 1 0) = some sY2
      ∧ getAlignedPairs (K := ℝ) Real.exp 1000000 sX2 sY2 = some band
      ∧ getAlignedPairs_allocated (K := ℝ) Real.exp 1000000 ['A'] ['A']
          = ((band.map
              (fun i => (⟨i.score, i.x + 0, i.y + 0⟩ : AlignedPair))).reverse.filter
              (fun i => decide (((0 : Int) + 0 = 0 ∨ i.x + i.y ≥ 0 + 0 + 5)
                ∧ (true = true
                  ∨ i.x + i.y ≤ 0 + 0 + bandLength ((['A'].length : Nat) : Int) 1 0
                    + bandLength ((['A'].length : Nat) : Int) 1 0 - 5)))).foldl mergeIntoSet []
      ∧ ∀ (s : List AlignedPair) (i : AlignedPair),
          mergePair (0 + 0)
            (0 + 0 + bandLength ((['A'].length : Nat) : Int) 1 0
              + bandLength ((['A'].length : Nat) : Int) 1 0) 5 true s i
          = if ((0 : Int) + 0 = 0 ∨ i.x + i.y ≥ 0 + 0 + 5)
              ∧ (true = true
                ∨ i.x + i.y ≤ 0 + 0 + bandLength ((['A'].length : Nat) : Int) 1 0
                  + bandLength ((['A'].length : Nat) : Int) 1 0 - 5)
            then mergeIntoSet s i else s :=
  ⟨bandIteration_whole_some Real.exp 1000000 ['A'] ['A'] 1 (by decide) (by decide) (by decide),
    bandIteration_offers (K := ℝ) Real.exp 1000000 ['A'] ['A'] 1 ⟨0, 0, [], false⟩
      ⟨0, 0, getAlignedPairs_allocated (K := ℝ) Real.exp 1000000 ['A'] ['A'], true⟩
      (bandIteration_whole_some Real.exp 1000000 ['A'] ['A'] 1 (by decide) (by decide)
        (by decide))⟩

/-! ## The progress of the offsets -/

theorem getEmptyMatrix_exact {L : Type} (lX lY : Int) (h0 : 0 ≤ lX) (h1 : 0 ≤ lY)
    (h : lX * lY * 5 ≤ 2147483647) :
    (getEmptyMatrix (K := L) lX lY) = List.replicate (lX * lY * 5).toNat logZero := by
  have hp : 0 ≤ lX * lY := mul_nonneg h0 h1
  unfold getEmptyMatrix cellNo
  simp only [Nat.cast_ofNat]
  rw [wrapInt32_of_range (lX * lY) (by omega) (by omega),
    wrapInt32_of_range (lX * lY * 5) (by omega) h]

/-- C27, as the spec states it, fails: for `lX = lY = 32768` (two sequences of
`32767` bases, lengths that are `int32_t` values) the `int32_t` product
`lX * lY * cellNo` wraps to `2^30`, and `getEmptyMatrix` returns `2^30` cells,
not `32768 * 32768 * 5`. -/
theorem getEmptyMatrix_count_counterexample :
    ¬ (((getEmptyMatrix (K := ℚ) 32768 32768).length : Int) = 32768 * 32768 * 5) := by
  unfold getEmptyMatrix wrapInt32 cellNo
  rw [List.length_replicate]
  norm_num

/-- C27, amended: for `lX, lY ≥ 0` whose product `lX * lY * 5` is an `int32_t`
value (at most `2^31 - 1`), `getEmptyMatrix lX lY` has exactly `lX * lY * 5`
cells, each equal to `logZero`. -/
theorem getEmptyMatrix_count {L : Type} (lX lY : Int) (h0 : 0 ≤ lX) (h1 : 0 ≤ lY)
    (h : lX * lY * 5 ≤ 2147483647) :
    ((getEmptyMatrix (K := L) lX lY).length : Int) = lX * lY * 5
      ∧ ∀ v ∈ getEmptyMatrix (K := L) lX lY, v = logZero := by
  rw [getEmptyMatrix_exact lX lY h0 h1 h]
  have hp : 0 ≤ lX * lY := mul_nonneg h0 h1
  refine ⟨?_, fun v hv => List.eq_of_mem_replicate hv⟩
  rw [List.length_replicate]
  omega

/-- A witness of C27, amended: `lX = 2`, `lY = 3`. -/
theorem getEmptyMatrix_count_witness :
    (0 : Int) ≤ 2 ∧ (0 : Int) ≤ 3 ∧ (2 : Int) * 3 * 5 ≤ 2147483647
    ∧ (((getEmptyMatrix (K := ℚ) 2 3).length : Int) = 2 * 3 * 5
      ∧ ∀ v ∈ getEmptyMatrix (K := ℚ) 2 3, v = logZero) :=
  ⟨by decide, by decide, by decide, getEmptyMatrix_count 2 3 (by decide) (by decide) (by decide)⟩

/-! ## Bands smaller than the trace-back window -/

theorem logAdd_negInf_left (x : Dbl K) : logAdd negInf x = x := by
  cases x <;>
    simp [logAdd, logZero, Dbl.lt, Dbl.eq, Dbl.ge, Dbl.le, HSub.hSub, Sub.sub, Dbl.sub,
      Dbl.add, Dbl.neg, logUnderflowThreshold, lookup, HMul.hMul, Mul.mul, Dbl.mul,
      HAdd.hAdd, Add.add]

theorem le_lookupCubic_piece1 (t : K) (ha : 0 ≤ t) (hb : t ≤ 1.0) :
    t ≤ (((-0.009350833483040332794189453125 * t + 0.130659520626068115234375) * t + 0.498799800872802734375) * t
          + 0.69320309162139892578125) := by
  have ha' : (0 : K) ≤ t := by linarith
  have hb' : t ≤ (1 : K) := by linarith
  have h := cubic_nonneg_of_bernstein 0.69320309162139892578125 (0.498799800872802734375 - 1)
    0.130659520626068115234375 (-0.009350833483040332794189453125) 0 1 t ha' hb'
    (by norm_num) (by norm_num) (by norm_num) (by norm_num)
  refine le_of_sub_nonneg (le_of_le_of_eq h ?_)
  ring

theorem le_lookupCubic_piece2 (t : K) (ha : 1.0 ≤ t) (hb : t ≤ 2.5) :
    t ≤ (((-0.01453232206404209136962890625 * t + 0.1399423182010650634765625) * t + 0.495635509490966796875) * t
          + 0.6921405792236328125) := by
  have ha' : (1 : K) ≤ t := by linarith
  have hb' : t ≤ ((5 / 2) : K) := by linarith
  have h := cubic_nonneg_of_bernstein 0.6921405792236328125 (0.495635509490966796875 - 1)
    0.1399423182010650634765625 (-0.01453232206404209136962890625) 1 (5 / 2) t ha' hb'
    (by norm_num) (by norm_num) (by norm_num) (by norm_num)
  refine le_of_sub_nonneg (le_of_le_of_eq h ?_)
  ring

theorem le_lookupCubic_piece3 (t : K) (ha : 2.5 ≤ t) (hb : t ≤ 4.5) :
    t ≤ (((-0.004605031572282314300537109375 * t + 0.0634274184703826904296875) * t + 0.6959564685821533203125) * t
          + 0.514272630214691162109375) := by
  have ha' : ((5 / 2) : K) ≤ t := by linarith
  have hb' : t ≤ ((9 / 2) : K) := by linarith
  have h := cubic_nonneg_of_bernstein 0.514272630214691162109375 (0.6959564685821533203125 - 1)
    0.0634274184703826904296875 (-0.004605031572282314300537109375) (5 / 2) (9 / 2) t ha' hb'
    (by norm_num) (by norm_num) (by norm_num) (by norm_num)
  refine le_of_sub_nonneg (le_of_le_of_eq h ?_)
  ring

theorem le_lookupCubic_piece4 (t : K) (ha : 4.5 ≤ t) (hb : t ≤ 7.5) :
    t ≤ (((-0.00045866161235608160495758056640625 * t + 0.009695946238934993743896484375) * t + 0.930734694004058837890625) * t
          + 0.16803716123104095458984375) := by
  have ha' : ((9 / 2) : K) ≤ t := by linarith
  have hb' : t ≤ ((15 / 2) : K) := by linarith
  have h := cubic_nonneg_of_bernstein 0.16803716123104095458984375 (0.930734694004058837890625 - 1)
    0.009695946238934993743896484375 (-0.00045866161235608160495758056640625) (9 / 2) (15 / 2) t ha' hb'
    (by norm_num) (by norm_num) (by norm_num) (by norm_num)
  refine le_of_sub_nonneg (le_of_le_of_eq h ?_)
  ring

theorem le_lookupCubic (t : K) (h0 : 0 ≤ t) (h1 : t ≤ 7.5) : t ≤ lookupCubic t := by
  unfold lookupCubic
  split_ifs with p1 p2 p3
  · exact le_lookupCubic_piece1 t h0 p1
  · exact le_lookupCubic_piece2 t (not_le.mp p1).le p2
  · exact le_lookupCubic_piece3 t (not_le.mp p2).le p3
  · exact le_lookupCubic_piece4 t (not_le.mp p3).le h1

theorem logAdd_fin_ge_max (x y : ℝ) :
    ∃ v, logAdd (fin x) (fin y) = fin v ∧ max x y ≤ v := by
  by_cases h : |x - y| < 7.5
  · refine ⟨_, logAdd_fin_of_near x y h, ?_⟩
    have hc := le_lookupCubic |x - y| (abs_nonneg _) h.le
    rcases le_total x y with hxy | hxy
    · have h1 : |x - y| = y - x := by rw [abs_sub_comm]; exact abs_of_nonneg (by linarith)
      rw [h1] at hc ⊢
      rw [min_eq_left hxy, max_eq_right hxy]
      linarith
    · have h1 : |x - y| = x - y := abs_of_nonneg (by linarith)
      rw [h1] at hc ⊢
      rw [min_eq_right hxy, max_eq_left hxy]
      linarith
  · exact ⟨_, logAdd_fin_of_far x y (not_lt.mp h), le_refl _⟩

theorem logAdd_ge_max_aux (x y : Dbl ℝ) (hx : x.isLog = true) (hy : y.isLog = true) :
    (logAdd x y).isLog = true ∧ Dbl.ge (logAdd x y) x = true ∧ Dbl.ge (logAdd x y) y = true := by
  cases x with
  | nan => simp [Dbl.isLog] at hx
  | posInf => simp [Dbl.isLog] at hx
  | negInf =>
    rw [logAdd_negInf_left]
    cases y <;> simp_all [Dbl.isLog, Dbl.ge, Dbl.le, Dbl.lt, Dbl.eq]
  | fin a =>
    cases y with
    | nan => simp [Dbl.isLog] at hy
    | posInf => simp [Dbl.isLog] at hy
    | negInf =>
      rw [logAdd_negInf_right]
      simp [Dbl.isLog, Dbl.ge, Dbl.le, Dbl.lt, Dbl.eq]
    | fin b =>
      obtain ⟨v, hv, hm⟩ := logAdd_fin_ge_max a b
      rw [hv]
      simp only [ge_fin_fin, decide_eq_true_eq, Dbl.isLog, true_and]
      exact ⟨le_trans (le_max_left _ _) hm, le_trans (le_max_right _ _) hm⟩

/-- C29: for all `x`, `y`, each a real number or the sentinel `logZero`,
`logAdd x y >= x` and `logAdd x y >= y` (and the result is again a real number
or the sentinel); equivalently `lookup t >= t` for every `t` of `[0, 7.5)`,
with the `float` coefficients of the source on each piece. -/
theorem logAdd_ge_max (x y : Dbl ℝ) (hx : x.isLog = true) (hy : y.isLog = true) :
    ((logAdd x y).isLog = true ∧ Dbl.ge (logAdd x y) x = true ∧ Dbl.ge (logAdd x y) y = true)
      ∧ ∀ t : ℝ, 0 ≤ t → t < 7.5 → Dbl.ge (lookup (fin t)) (fin t) = true := by
  refine ⟨logAdd_ge_max_aux x y hx hy, ?_⟩
  intro t h0 h1
  rw [lookup_fin, ge_fin_fin, decide_eq_true_eq]
  exact le_lookupCubic t h0 h1.le

/-- A witness of C29: `x = 0`, `y = logZero`. -/
theorem logAdd_ge_max_witness :
    (fin 0 : Dbl ℝ).isLog = true ∧ (logZero : Dbl ℝ).isLog = true
    ∧ (((logAdd (fin 0) (logZero : Dbl ℝ)).isLog = true
        ∧ Dbl.ge (logAdd (fin 0) (logZero : Dbl ℝ)) (fin 0) = true
        ∧ Dbl.ge (logAdd (fin 0) (logZero : Dbl ℝ)) logZero = true)
      ∧ ∀ t : ℝ, 0 ≤ t → t < 7.5 → Dbl.ge (lookup (fin t)) (fin t) = true) :=
  ⟨rfl, rfl, logAdd_ge_max (fin 0) logZero rfl rfl⟩

theorem lookupCubic_one :
    lookupCubic (1 : K) = 0.69320309162139892578125 + 0.498799800872802734375
      + 0.130659520626068115234375 + -0.009350833483040332794189453125 := by
  unfold lookupCubic
  norm_num

theorem lookupCubic_jump (t : K) (h1 : 1 < t) (h2 : t ≤ 1.0001) :
    lookupCubic t + 0.00005 ≤ lookupCubic 1 := by
  have h2' : t ≤ (10001 / 10000 : K) := by linarith
  have h := cubic_nonneg_of_bernstein
    (0.69320309162139892578125 + 0.498799800872802734375
      + 0.130659520626068115234375 + -0.009350833483040332794189453125 - 0.00005
      - 0.6921405792236328125)
    (-0.495635509490966796875) (-0.1399423182010650634765625)
    (0.01453232206404209136962890625) 1 (10001 / 10000) t h1.le h2'
    (by norm_num) (by norm_num) (by norm_num) (by norm_num)
  rw [lookupCubic_one]
  unfold lookupCubic
  rw [if_neg (by norm_num; exact h1), if_pos (by linarith)]
  refine le_of_sub_nonneg (le_of_le_of_eq h ?_)
  ring

/-- C30: `logAdd` is not monotone.  With `x = 0`, `y = 1`, `y' = 1.0001`:
`y < y'` and `logAdd x y > logAdd x y'`.  The pieces of `lookup` do not join
at `t = 1`: the piece of `[0, 1]` ends at `lookup 1`, and on `(1, 1.0001]` the
next piece stays below it by at least `0.00005`. -/
theorem logAdd_not_monotone :
    Dbl.lt (fin (1 : K)) (fin 1.0001) = true
    ∧ Dbl.gt (logAdd (fin (0 : K)) (fin 1)) (logAdd (fin 0) (fin 1.0001)) = true
    ∧ ∀ t : K, 1 < t → t ≤ 1.0001 →
        Dbl.ge (lookup (fin 1)) (lookup (fin t) + fin 0.00005) = true := by
  have h1 : |(0 : K) - 1| < 7.5 := by norm_num [abs_of_nonneg]
  have h2 : |(0 : K) - 1.0001| < 7.5 := by
    rw [abs_sub_comm, abs_of_nonneg (by norm_num)]; norm_num
  refine ⟨by simp; norm_num, ?_, ?_⟩
  · rw [logAdd_fin_of_near _ _ h1, logAdd_fin_of_near _ _ h2]
    simp only [gt_fin_fin, decide_eq_true_eq]
    have e1 : |(0 : K) - 1| = 1 := by norm_num
    have e2 : |(0 : K) - 1.0001| = 1.0001 := by
      rw [abs_sub_comm, abs_of_nonneg (by norm_num)]; norm_num
    rw [e1, e2]
    have hj := lookupCubic_jump (1.0001 : K) (by norm_num) (le_refl _)
    have hm : min (0 : K) 1 = 0 := min_eq_left (by norm_num)
    have hm' : min (0 : K) 1.0001 = 0 := min_eq_left (by norm_num)
    rw [hm, hm']
    linarith
  · intro t ht1 ht2
    rw [lookup_fin, lookup_fin, fin_add_fin, ge_fin_fin, decide_eq_true_eq]
    exact lookupCubic_jump t ht1 ht2

/-! ## The sparse forward-cell update -/

theorem isLog_add {a b : Dbl K} (ha : a.isLog = true) (hb : b.isLog = true) :
    (a + b).isLog = true := by
  cases a <;> cases b <;> first | rfl | simp [Dbl.isLog] at ha hb

theorem isLog_logAdd {a b : Dbl K} (ha : a.isLog = true) (hb : b.isLog = true) :
    (logAdd a b).isLog = true := by
  cases a with
  | nan => simp [Dbl.isLog] at ha
  | posInf => simp [Dbl.isLog] at ha
  | negInf => rw [logAdd_negInf_left]; exact hb
  | fin x =>
    cases b with
    | nan => simp [Dbl.isLog] at hb
    | posInf => simp [Dbl.isLog] at hb
    | negInf => rw [logAdd_negInf_right]; rfl
    | fin y =>
      by_cases h : |x - y| < 7.5
      · rw [logAdd_fin_of_near x y h]; rfl
      · rw [logAdd_fin_of_far x y (not_lt.mp h)]; rfl

theorem isLog_transitionProb (f t : Nat) (hf : f < 5) (ht : t < 5) :
    (transitionProb (K := K) f t).isLog = true := by
  interval_cases f <;> interval_cases t <;> rfl

theorem transitionProb_of_not_mem (f t : Nat) (hf : f < 5) (ht : t < 5)
    (h : f ∉ finiteSources t) : transitionProb (K := K) f t = logZero := by
  interval_cases f <;> interval_cases t <;> first | rfl | (exact absurd (by decide) h)

theorem readSeq_le (cS : List Nat) (h : ∀ c ∈ cS, c ≤ 4) (i : Int) : readSeq cS i ≤ 4 := by
  unfold readSeq
  by_cases hi : i.toNat < cS.length
  · rw [List.getD_eq_getElem _ _ hi]
    exact h _ (List.getElem_mem hi)
  · rw [List.getD_eq_default _ _ (not_lt.mp hi)]
    omega

theorem emissionProb_fin (x y lX lY : Int) (sX sY : List Nat) (state : Nat) (hs : state < 5)
    (hsX : ∀ c ∈ sX, c ≤ 4) (hsY : ∀ c ∈ sY, c ≤ 4) :
    ∃ v, emissionProb (K := K) x y lX lY sX sY state = fin v := by
  have ha := readSeq_le sX hsX (x - 1)
  have hb := readSeq_le sY hsY (y - 1)
  unfold emissionProb
  generalize readSeq sX (x - 1) = a at ha
  generalize readSeq sY (y - 1) = b at hb
  interval_cases state <;> simp only <;> interval_cases a <;> interval_cases b <;>
    exact ⟨_, rfl⟩

theorem set_getD_self {α : Type} (l : List α) (i : Nat) (d : α) :
    l.set i (l.getD i d) = l := by
  induction l generalizing i with
  | nil => rfl
  | cons a l ih =>
    cases i with
    | zero => rfl
    | succ i => rw [List.getD_cons_succ, List.set_cons_succ, ih]

theorem forwardStep_isLog (fM : List (Dbl K)) (cell pCell t f : Nat) (eP : Dbl K)
    (hM : ∀ v ∈ fM, v.isLog = true) (ht : t < 5) (hf : f < 5) (hp : pCell + 5 ≤ cell)
    (hE : eP.isLog = true) :
    ∀ v ∈ fM.set (cell + t) (logAddAndAssign (fM.getD (cell + t) nan)
        (fM.getD (pCell + f) nan + transitionProb f t + eP)), v.isLog = true := by
  intro v hv
  by_cases hc : cell + t < fM.length
  · rcases List.mem_or_eq_of_mem_set hv with h | h
    · exact hM v h
    · rw [h]
      unfold logAddAndAssign
      apply isLog_logAdd
      · rw [List.getD_eq_getElem _ _ hc]
        exact hM _ (List.getElem_mem hc)
      · apply isLog_add (isLog_add ?_ (isLog_transitionProb f t hf ht)) hE
        have hpf : pCell + f < fM.length := by omega
        rw [List.getD_eq_getElem _ _ hpf]
        exact hM _ (List.getElem_mem hpf)
  · rw [List.set_eq_of_length_le (not_lt.mp hc)] at hv
    exact hM v hv

theorem forwardStep_skip (fM : List (Dbl K)) (cell pCell t f : Nat) (e : K)
    (hM : ∀ v ∈ fM, v.isLog = true) (hp : pCell + 5 ≤ cell) (hf : f < 5)
    (htr : transitionProb (K := K) f t = logZero) :
    fM.set (cell + t) (logAddAndAssign (fM.getD (cell + t) nan)
        (fM.getD (pCell + f) nan + transitionProb f t + fin e)) = fM := by
  by_cases hc : cell + t < fM.length
  · have hpf : pCell + f < fM.length := by omega
    have hlog : (fM.getD (pCell + f) nan).isLog = true := by
      rw [List.getD_eq_getElem _ _ hpf]
      exact hM _ (List.getElem_mem hpf)
    have hv : fM.getD (pCell + f) nan + transitionProb f t + fin e = negInf := by
      rw [htr]
      unfold logZero
      cases h : fM.getD (pCell + f) nan with
      | nan => rw [h] at hlog; simp [Dbl.isLog] at hlog
      | posInf => rw [h] at hlog; simp [Dbl.isLog] at hlog
      | negInf => rfl
      | fin a => rfl
    rw [hv]
    unfold logAddAndAssign
    rw [logAdd_negInf_right]
    exact set_getD_self fM _ _
  · exact List.set_eq_of_length_le (not_lt.mp hc)

theorem forwardInner_filter (cell pCell t : Nat) (e : K) (ht : t < 5) (hp : pCell + 5 ≤ cell)
    (l : List Nat) (hl : ∀ f ∈ l, f < 5) (fM : List (Dbl K))
    (hM : ∀ v ∈ fM, v.isLog = true) :
    l.foldl (fun fM fromState =>
        fM.set (cell + t)
          (logAddAndAssign (fM.getD (cell + t) nan)
            (fM.getD (pCell + fromState) nan + transitionProb fromState t + fin e))) fM
      = (l.filter (fun f => decide (f ∈ finiteSources t))).foldl (fun fM fromState =>
        fM.set (cell + t)
          (logAddAndAssign (fM.getD (cell + t) nan)
            (fM.getD (pCell + fromState) nan + transitionProb fromState t + fin e))) fM
    ∧ ∀ v ∈ l.foldl (fun fM fromState =>
        fM.set (cell + t)
          (logAddAndAssign (fM.getD (cell + t) nan)
            (fM.getD (pCell + fromState) nan + transitionProb fromState t + fin e))) fM,
        v.isLog = true := by
  induction l generalizing fM with
  | nil => exact ⟨rfl, hM⟩
  | cons f l ih =>
    have hf : f < 5 := hl f (List.mem_cons_self _ _)
    have hl' : ∀ g ∈ l, g < 5 := fun g hg => hl g (List.mem_cons_of_mem _ hg)
    have hM' := forwardStep_isLog fM cell pCell t f (fin e) hM ht hf hp rfl
    rw [List.foldl_cons]
    refine ⟨?_, (ih hl' _ hM').2⟩
    by_cases hmem : f ∈ finiteSources t
    · rw [List.filter_cons_of_pos (by simpa using hmem), List.foldl_cons]
      exact (ih hl' _ hM').1
    · rw [List.filter_cons_of_neg (by simpa using hmem),
        forwardStep_skip fM cell pCell t f e hM hp hf
          (transitionProb_of_not_mem f t hf ht hmem)]
      exact (ih hl' _ hM).1

theorem range_filter_finiteSources (t : Nat) (ht : t < 5) :
    (List.range cellNo).filter (fun f => decide (f ∈ finiteSources t)) = finiteSources t := by
  interval_cases t <;> decide

theorem transitionOffSet_cases (t : Nat) (ht : t < 5) :
    (getTransitionOffSetX t = 1 ∧ getTransitionOffSetY t = 1)
      ∨ (getTransitionOffSetX t = 1 ∧ getTransitionOffSetY t = 0)
      ∨ (getTransitionOffSetX t = 0 ∧ getTransitionOffSetY t = 1) := by
  interval_cases t <;> decide

theorem getCell_pred (x y lX : Int) (t cell pCell : Nat) (hlX : 1 ≤ lX) (ht : t < 5)
    (hc : getCell x y lX = some cell)
    (hp : getCell (x - getTransitionOffSetX t) (y - getTransitionOffSetY t) lX = some pCell) :
    pCell + 5 ≤ cell := by
  unfold getCell at hc hp
  split_ifs at hc hp with h1 h2
  simp only [Option.some.injEq] at hc hp
  subst hc hp
  obtain ⟨hx, hy⟩ := h1
  obtain ⟨hx', hy'⟩ := h2
  have hyl : 0 ≤ y * lX := mul_nonneg hy (by omega)
  unfold cellNo
  rcases transitionOffSet_cases t ht with ⟨ex, ey⟩ | ⟨ex, ey⟩ | ⟨ex, ey⟩
  · simp only [ex, ey, Nat.cast_ofNat] at hx' hy' ⊢
    have e : (y - 1) * lX = y * lX - lX := by ring
    rw [e]
    have : 0 ≤ y * lX - lX := by rw [← e]; exact mul_nonneg hy' (by omega)
    omega
  · simp only [ex, ey, Nat.cast_ofNat, sub_zero] at hx' hy' ⊢
    omega
  · simp only [ex, ey, Nat.cast_ofNat, sub_zero] at hx' hy' ⊢
    have e : (y - 1) * lX = y * lX - lX := by ring
    rw [e]
    have : 0 ≤ y * lX - lX := by rw [← e]; exact mul_nonneg hy' (by omega)
    omega

theorem forwardOuter_eq (x y lX lY : Int) (sX sY : List Nat) (cell : Nat) (hlX : 1 ≤ lX)
    (hc : getCell x y lX = some cell)
    (hsX : ∀ c ∈ sX, c ≤ 4) (hsY : ∀ c ∈ sY, c ≤ 4)
    (l : List Nat) (hl : ∀ t ∈ l, t < 5) (fM : List (Dbl K))
    (hM : ∀ v ∈ fM, v.isLog = true) :
    l.foldl (fun fM toState =>
      match getCell (x - getTransitionOffSetX toState) (y - getTransitionOffSetY toState) lX with
      | none => fM
      | some pCell =>
        let eP : Dbl K := emissionProb x y lX lY sX sY toState
        (finiteSources toState).foldl (fun fM fromState =>
          fM.set (cell + toState)
            (logAddAndAssign (fM.getD (cell + toState) nan)
              (fM.getD (pCell + fromState) nan + transitionProb fromState toState + eP))) fM) fM
    = l.foldl (fun fM toState =>
      match getCell (x - getTransitionOffSetX toState) (y - getTransitionOffSetY toState) lX with
      | none => fM
      | some pCell =>
        let eP : Dbl K := emissionProb x y lX lY sX sY toState
        (List.range cellNo).foldl (fun fM fromState =>
          fM.set (cell + toState)
            (logAddAndAssign (fM.getD (cell + toState) nan)
              (fM.getD (pCell + fromState) nan + transitionProb fromState toState + eP))) fM) fM
    ∧ ∀ v ∈ l.foldl (fun fM toState =>
      match getCell (x - getTransitionOffSetX toState) (y - getTransitionOffSetY toState) lX with
      | none => fM
      | some pCell =>
        let eP : Dbl K := emissionProb x y lX lY sX sY toState
        (List.range cellNo).foldl (fun fM fromState =>
          fM.set (cell + toState)
            (logAddAndAssign (fM.getD (cell + toState) nan)
              (fM.getD (pCell + fromState) nan + transitionProb fromState toState + eP))) fM) fM,
        v.isLog = true := by
  induction l generalizing fM with
  | nil => exact ⟨rfl, hM⟩
  | cons t l ih =>
    have ht : t < 5 := hl t (List.mem_cons_self _ _)
    have hl' : ∀ g ∈ l, g < 5 := fun g hg => hl g (List.mem_cons_of_mem _ hg)
    rw [List.foldl_cons, List.foldl_cons]
    cases hp : getCell (x - getTransitionOffSetX t) (y - getTransitionOffSetY t) lX with
    | none => exact ih hl' fM hM
    | some pCell =>
      simp only
      obtain ⟨e, he⟩ := emissionProb_fin (K := K) x y lX lY sX sY t ht hsX hsY
      have hlt := getCell_pred x y lX t cell pCell hlX ht hc hp
      obtain ⟨h1, h2⟩ := forwardInner_filter cell pCell t e ht hlt (List.range cellNo)
        (fun f hf => by simpa [cellNo] using hf) fM hM
      rw [range_filter_finiteSources t ht] at h1
      rw [he, ← h1]
      exact ih hl' _ h2

theorem forwardCellSparse_eq (fM : List (Dbl K)) (x y lX lY : Int) (sX sY : List Nat)
    (hlX : 1 ≤ lX) (hsX : ∀ c ∈ sX, c ≤ 4) (hsY : ∀ c ∈ sY, c ≤ 4)
    (hM : ∀ v ∈ fM, v.isLog = true) :
    forwardCellSparse fM x y lX lY sX sY = forwardCell fM x y lX lY sX sY
      ∧ ∀ v ∈ forwardCell fM x y lX lY sX sY, v.isLog = true := by
  unfold forwardCellSparse forwardCell
  cases hc : getCell x y lX with
  | none => exact ⟨rfl, hM⟩
  | some cell =>
    exact forwardOuter_eq x y lX lY sX sY cell hlX hc hsX hsY (List.range cellNo)
      (fun f hf => by simpa [cellNo] using hf) fM hM

/-- C26: for every matrix whose entries are finite or log-zero (and encoded
sequences, `lX >= 1`), the forward-cell update that, for each destination
state, accumulates only over the source states with a finite transition gives
exactly the matrix of `forwardCell`, whose entries are again finite or
log-zero; the source states left out are exactly those whose transition is
`logZero`. -/
theorem forwardCell_sparse (fM : List (Dbl K)) (x y lX lY : Int) (sX sY : List Nat)
    (hlX : 1 ≤ lX) (hsX : ∀ c ∈ sX, c ≤ 4) (hsY : ∀ c ∈ sY, c ≤ 4)
    (hM : ∀ v ∈ fM, v.isLog = true) :
    forwardCellSparse fM x y lX lY sX sY = forwardCell fM x y lX lY sX sY
      ∧ (∀ v ∈ forwardCell fM x y lX lY sX sY, v.isLog = true)
      ∧ ∀ f t : Nat, f < 5 → t < 5 →
          (f ∈ finiteSources t ↔ transitionProb (K := K) f t ≠ logZero) := by
  obtain ⟨h1, h2⟩ := forwardCellSparse_eq fM x y lX lY sX sY hlX hsX hsY hM
  refine ⟨h1, h2, ?_⟩
  intro f t hf ht
  constructor
  · intro hmem
    interval_cases t <;> interval_cases f <;>
      first
        | (exact absurd hmem (by decide))
        | (intro h; exact absurd h (by simp [transitionProb, transitions, cellNo, logZero,
            matchContinueTransition, matchFromShortGapTransition, matchFromLongGapTransition,
            gapOpenShortTransition, gapShortExtendTransition, gapShortSwitchTransition,
            gapOpenLongTransition, gapLongExtendTransition]))
  · intro hne
    by_contra hmem
    exact hne (transitionProb_of_not_mem f t hf ht hmem)

/-- A witness of C26: the cell `(1, 1)` of the matrix of `X = "A"`, `Y = "A"`
whose cell `(0, 0)` holds a finite entry. -/
theorem forwardCell_sparse_witness :
    (1 : Int) ≤ 2 ∧ (∀ c ∈ [0], c ≤ 4) ∧ (∀ c ∈ [0], c ≤ 4)
    ∧ (∀ v ∈ (fin 0 :: List.replicate 19 negInf : List (Dbl ℚ)), v.isLog = true)
    ∧ (forwardCellSparse (fin 0 :: List.replicate 19 negInf : List (Dbl ℚ)) 1 1 2 2 [0] [0]
        = forwardCell (fin 0 :: List.replicate 19 negInf : List (Dbl ℚ)) 1 1 2 2 [0] [0]
      ∧ (∀ v ∈ forwardCell (fin 0 :: List.replicate 19 negInf : List (Dbl ℚ)) 1 1 2 2 [0] [0],
          v.isLog = true)
      ∧ ∀ f t : Nat, f < 5 → t < 5 →
          (f ∈ finiteSources t ↔ transitionProb (K := ℚ) f t ≠ logZero)) :=
  ⟨by decide, by decide, by decide,
    fun v hv => by
      rcases List.mem_cons.mp hv with h | h
      · rw [h]; rfl
      · rw [List.eq_of_mem_replicate h]; rfl,
    forwardCell_sparse (fin 0 :: List.replicate 19 negInf : List (Dbl ℚ)) 1 1 2 2 [0] [0]
      (by decide) (by decide) (by decide)
      (fun v hv => by
        rcases List.mem_cons.mp hv with h | h
        · rw [h]; rfl
        · rw [List.eq_of_mem_replicate h]; rfl)⟩

/-! ## The positions at which `emissionProb` is evaluated -/

theorem foldlM_eq_some_foldl {α β : Type} (f : α → β → Option α) (g : α → β → α)
    (l : List β) (h : ∀ a, ∀ b ∈ l, f a b = some (g a b)) (a : α) :
    l.foldlM f a = some (l.foldl g a) := by
  induction l generalizing a with
  | nil => rfl
  | cons b l ih =>
    rw [List.foldlM_cons, h a b (List.mem_cons_self _ _), List.foldl_cons]
    exact ih (fun a c hc => h a c (List.mem_cons_of_mem _ hc)) _

theorem getElem?_eq_readSeq (cS : List Nat) (z zL : Int) (hlen : (cS.length : Int) = zL - 1)
    (h1 : 1 ≤ z) (h2 : z < zL) : cS[(z - 1).toNat]? = some (readSeq cS (z - 1)) := by
  have hi : (z - 1).toNat < cS.length := by omega
  unfold readSeq
  rw [List.getD_eq_getElem _ _ hi, List.getElem?_eq_getElem hi]

theorem matchM_getElem? (a b : Nat) (ha : a ≤ 4) (hb : b ≤ 4) :
    (matchM (K := K))[a * 5 + b]? = some ((matchM (K := K)).getD (a * 5 + b) nan) := by
  interval_cases a <;> interval_cases b <;> rfl

theorem gapM_getElem? (a : Nat) (ha : a ≤ 4) :
    (gapM (K := K))[a]? = some ((gapM (K := K)).getD a nan) := by
  interval_cases a <;> rfl

theorem checkPosition_iff (z zL : Int) : checkPosition z zL = true ↔ 1 ≤ z ∧ z < zL := by
  simp [checkPosition]

theorem emissionProbChecked_guard (x y lX lY : Int) (sX sY : List Nat) (state : Nat)
    (v : Dbl K) (h : emissionProbChecked x y lX lY sX sY state = some v) :
    state < 5
      ∧ (state = 0 ∨ state = 1 ∨ state = 3 → 1 ≤ x ∧ x < lX)
      ∧ (state = 0 ∨ state = 2 ∨ state = 4 → 1 ≤ y ∧ y < lY) := by
  unfold emissionProbChecked at h
  by_cases hs : checkState state = true
  · rw [if_pos hs] at h
    have hs5 : state < 5 := by simpa [checkState, cellNo] using hs
    refine ⟨hs5, ?_, ?_⟩
    · intro hst
      rcases hst with rfl | rfl | rfl
      · simp only at h
        by_cases hc : (checkPosition x lX && checkPosition y lY) = true
        · rw [Bool.and_eq_true, checkPosition_iff, checkPosition_iff] at hc
          exact hc.1
        · rw [if_neg hc] at h
          exact absurd h (by simp)
      · simp only at h
        by_cases hc : checkPosition x lX = true
        · exact (checkPosition_iff x lX).mp hc
        · rw [if_neg hc] at h
          exact absurd h (by simp)
      · simp only at h
        by_cases hc : checkPosition x lX = true
        · exact (checkPosition_iff x lX).mp hc
        · rw [if_neg hc] at h
          exact absurd h (by simp)
    · intro hst
      rcases hst with rfl | rfl | rfl
      · simp only at h
        by_cases hc : (checkPosition x lX && checkPosition y lY) = true
        · rw [Bool.and_eq_true, checkPosition_iff, checkPosition_iff] at hc
          exact hc.2
        · rw [if_neg hc] at h
          exact absurd h (by simp)
      · simp only at h
        by_cases hc : checkPosition y lY = true
        · exact (checkPosition_iff y lY).mp hc
        · rw [if_neg hc] at h
          exact absurd h (by simp)
      · simp only at h
        by_cases hc : checkPosition y lY = true
        · exact (checkPosition_iff y lY).mp hc
        · rw [if_neg hc] at h
          exact absurd h (by simp)
  · rw [if_neg hs] at h
    exact absurd h (by simp)

theorem emissionProbChecked_eq (x y lX lY : Int) (sX sY : List Nat) (state : Nat)
    (hs : state < 5)
    (hx : getTransitionOffSetX state = 1 → 1 ≤ x ∧ x < lX)
    (hy : getTransitionOffSetY state = 1 → 1 ≤ y ∧ y < lY)
    (hlenX : (sX.length : Int) = lX - 1) (hlenY : (sY.length : Int) = lY - 1)
    (hsX : ∀ c ∈ sX, c ≤ 4) (hsY : ∀ c ∈ sY, c ≤ 4) :
    emissionProbChecked (K := K) x y lX lY sX sY state
      = some (emissionProb x y lX lY sX sY state) := by
  have ha := readSeq_le sX hsX (x - 1)
  have hb := readSeq_le sY hsY (y - 1)
  unfold emissionProbChecked emissionProb checkState checkPosition cellNo
  interval_cases state
  · obtain ⟨hx1, hx2⟩ := hx rfl
    obtain ⟨hy1, hy2⟩ := hy rfl
    simp only [getElem?_eq_readSeq sX x lX hlenX hx1 hx2,
      getElem?_eq_readSeq sY y lY hlenY hy1 hy2, matchM_getElem? _ _ ha hb]
    simp [hx1, hx2, hy1, hy2]
  · obtain ⟨hx1, hx2⟩ := hx rfl
    simp only [getElem?_eq_readSeq sX x lX hlenX hx1 hx2, gapM_getElem? _ ha]
    simp [hx1, hx2]
  · obtain ⟨hy1, hy2⟩ := hy rfl
    simp only [getElem?_eq_readSeq sY y lY hlenY hy1 hy2, gapM_getElem? _ hb]
    simp [hy1, hy2]
  · obtain ⟨hx1, hx2⟩ := hx rfl
    simp only [getElem?_eq_readSeq sX x lX hlenX hx1 hx2, gapM_getElem? _ ha]
    simp [hx1, hx2]
  · obtain ⟨hy1, hy2⟩ := hy rfl
    simp only [getElem?_eq_readSeq sY y lY hlenY hy1 hy2, gapM_getElem? _ hb]
    simp [hy1, hy2]

theorem emissionProbChecked_of_getCell (x y lX lY : Int) (sX sY : List Nat) (state pCell : Nat)
    (hs : state < 5) (hxl : x < lX) (hyl : y < lY)
    (hp : getCell (x - getTransitionOffSetX state) (y - getTransitionOffSetY state) lX
      = some pCell)
    (hlenX : (sX.length : Int) = lX - 1) (hlenY : (sY.length : Int) = lY - 1)
    (hsX : ∀ c ∈ sX, c ≤ 4) (hsY : ∀ c ∈ sY, c ≤ 4) :
    emissionProbChecked (K := K) x y lX lY sX sY state
      = some (emissionProb x y lX lY sX sY state) := by
  unfold getCell at hp
  split_ifs at hp with h
  apply emissionProbChecked_eq x y lX lY sX sY state hs ?_ ?_ hlenX hlenY hsX hsY
  · intro ho
    rw [ho] at h
    omega
  · intro ho
    rw [ho] at h
    omega

theorem forwardCellChecked_eq (fM : List (Dbl K)) (x y lX lY : Int) (sX sY : List Nat)
    (hxl : x < lX) (hyl : y < lY)
    (hlenX : (sX.length : Int) = lX - 1) (hlenY : (sY.length : Int) = lY - 1)
    (hsX : ∀ c ∈ sX, c ≤ 4) (hsY : ∀ c ∈ sY, c ≤ 4) :
    forwardCellChecked fM x y lX lY sX sY = some (forwardCell fM x y lX lY sX sY) := by
  unfold forwardCellChecked forwardCell
  cases getCell x y lX with
  | none => rfl
  | some cell =>
    simp only
    apply foldlM_eq_some_foldl
    intro a t ht
    have ht5 : t < 5 := by simpa [cellNo] using ht
    cases hp : getCell (x - getTransitionOffSetX t) (y - getTransitionOffSetY t) lX with
    | none => rfl
    | some pCell =>
      simp only
      rw [emissionProbChecked_of_getCell x y lX lY sX sY t pCell ht5 hxl hyl hp hlenX hlenY
        hsX hsY]

theorem backwardCellChecked_eq (bM : List (Dbl K)) (x y lX lY : Int) (sX sY : List Nat)
    (hxl : x < lX) (hyl : y < lY)
    (hlenX : (sX.length : Int) = lX - 1) (hlenY : (sY.length : Int) = lY - 1)
    (hsX : ∀ c ∈ sX, c ≤ 4) (hsY : ∀ c ∈ sY, c ≤ 4) :
    backwardCellChecked bM x y lX lY sX sY = some (backwardCell bM x y lX lY sX sY) := by
  unfold backwardCellChecked backwardCell
  cases getCell x y lX with
  | none => rfl
  | some cell =>
    simp only
    apply foldlM_eq_some_foldl
    intro a t ht
    have ht5 : t < 5 := by simpa [cellNo] using ht
    cases hp : getCell (x - getTransitionOffSetX t) (y - getTransitionOffSetY t) lX with
    | none => rfl
    | some pCell =>
      simp only
      rw [emissionProbChecked_of_getCell x y lX lY sX sY t pCell ht5 hxl hyl hp hlenX hlenY
        hsX hsY]

theorem forwardMatrixChecked_eq (lX lY : Int) (sX sY : List Nat)
    (hlenX : (sX.length : Int) = lX - 1) (hlenY : (sY.length : Int) = lY - 1)
    (hsX : ∀ c ∈ sX, c ≤ 4) (hsY : ∀ c ∈ sY, c ≤ 4) :
    forwardMatrixChecked (K := K) lX lY sX sY = some (forwardMatrix lX lY sX sY) := by
  unfold forwardMatrixChecked forwardMatrix
  apply foldlM_eq_some_foldl
  intro a x hx
  apply foldlM_eq_some_foldl
  intro b y hy
  rw [List.mem_range] at hx hy
  exact forwardCellChecked_eq b x y lX lY sX sY (by omega) (by omega) hlenX hlenY hsX hsY

theorem backwardMatrixChecked_eq (lX lY : Int) (sX sY : List Nat)
    (hlenX : (sX.length : Int) = lX - 1) (hlenY : (sY.length : Int) = lY - 1)
    (hsX : ∀ c ∈ sX, c ≤ 4) (hsY : ∀ c ∈ sY, c ≤ 4) :
    backwardMatrixChecked (K := K) lX lY sX sY = some (backwardMatrix lX lY sX sY) := by
  unfold backwardMatrixChecked backwardMatrix
  apply foldlM_eq_some_foldl
  intro a x hx
  apply foldlM_eq_some_foldl
  intro b y hy
  rw [List.mem_reverse, List.mem_range] at hx hy
  exact backwardCellChecked_eq b x y lX lY sX sY (by omega) (by omega) hlenX hlenY hsX hsY

theorem posteriorMatchProbChecked_eq (e : K → K) (fM bM : List (Dbl K)) (x y lX lY : Int)
    (sX sY : List Nat) (tp : Dbl K) (hx1 : 1 ≤ x) (hxl : x < lX) (hy1 : 1 ≤ y) (hyl : y < lY)
    (hlenX : (sX.length : Int) = lX - 1) (hlenY : (sY.length : Int) = lY - 1)
    (hsX : ∀ c ∈ sX, c ≤ 4) (hsY : ∀ c ∈ sY, c ≤ 4) :
    posteriorMatchProbChecked e fM bM x y lX lY sX sY tp
      = some (posteriorMatchProb e fM bM x y lX lY sX sY tp) := by
  unfold posteriorMatchProbChecked posteriorMatchProb
  have h1 : getCell (x - 1) (y - 1) lX = some (((y - 1) * lX + (x - 1)) * cellNo).toNat := by
    unfold getCell
    rw [if_pos (by omega)]
  have h2 : getCell x y lX = some ((y * lX + x) * cellNo).toNat := by
    unfold getCell
    rw [if_pos (by omega)]
  simp only
  rw [h1, h2]
  simp only
  rw [emissionProbChecked_eq x y lX lY sX sY 0 (by omega) (fun _ => ⟨hx1, hxl⟩)
    (fun _ => ⟨hy1, hyl⟩) hlenX hlenY hsX hsY]

theorem getPosteriorProbsChecked_eq [FloorRing K] (e : K → K) (P : Nat)
    (fM bM : List (Dbl K)) (lX lY : Int) (sX sY : List Nat) (acc : List AlignedPair)
    (tp : Dbl K)
    (hlenX : (sX.length : Int) = lX - 1) (hlenY : (sY.length : Int) = lY - 1)
    (hsX : ∀ c ∈ sX, c ≤ 4) (hsY : ∀ c ∈ sY, c ≤ 4) :
    getPosteriorProbsChecked e P fM bM lX lY sX sY acc tp
      = some (getPosteriorProbs e P fM bM lX lY sX sY acc tp) := by
  unfold getPosteriorProbsChecked getPosteriorProbs
  apply foldlM_eq_some_foldl
  intro a x hx
  apply foldlM_eq_some_foldl
  intro b y hy
  rw [List.mem_range'_1] at hx hy
  rw [posteriorMatchProbChecked_eq e fM bM x y lX lY sX sY tp (by omega) (by omega) (by omega)
    (by omega) hlenX hlenY hsX hsY]
  simp only
  split_ifs <;> rfl

theorem map_convertChar_le (s : List Char) : ∀ c ∈ s.map convertChar, c ≤ 4 := by
  intro c hc
  rw [List.mem_map] at hc
  obtain ⟨a, _, rfl⟩ := hc
  exact convertChar_le a

/-- C25: for every `X`, `Y` (encoded by `convertSequence`, `lX = |X| + 1`,
`lY = |Y| + 1`), `forwardMatrix`, `backwardMatrix` and `getPosteriorProbs` run
over `emissionProbChecked` never fail a check and compute what they compute
over `emissionProb`: at every call the state is one of the five, `1 <= x < lX`
when the state consumes `X` (states 0, 1, 3), `1 <= y < lY` when it consumes
`Y` (states 0, 2, 4), the reads `sX[x - 1]`, `sY[y - 1]` are inside the encoded
sequences and the table index is inside the table. -/
theorem emissionProb_positions [FloorRing K] (sX sY : List Char) :
    forwardMatrixChecked (K := K) ((sX.length : Int) + 1) ((sY.length : Int) + 1)
        (sX.map convertChar) (sY.map convertChar)
      = some (forwardMatrix ((sX.length : Int) + 1) ((sY.length : Int) + 1)
          (sX.map convertChar) (sY.map convertChar))
    ∧ backwardMatrixChecked (K := K) ((sX.length : Int) + 1) ((sY.length : Int) + 1)
        (sX.map convertChar) (sY.map convertChar)
      = some (backwardMatrix ((sX.length : Int) + 1) ((sY.length : Int) + 1)
          (sX.map convertChar) (sY.map convertChar))
    ∧ (∀ (e : K → K) (P : Nat) (fM bM : List (Dbl K)) (tp : Dbl K),
        getPosteriorProbsChecked e P fM bM ((sX.length : Int) + 1) ((sY.length : Int) + 1)
          (sX.map convertChar) (sY.map convertChar) [] tp
        = some (getPosteriorProbs e P fM bM ((sX.length : Int) + 1) ((sY.length : Int) + 1)
          (sX.map convertChar) (sY.map convertChar) [] tp))
    ∧ ∀ (x y : Int) (state : Nat) (v : Dbl K),
        emissionProbChecked (K := K) x y ((sX.length : Int) + 1) ((sY.length : Int) + 1)
          (sX.map convertChar) (sY.map convertChar) state = some v →
        state < 5
        ∧ (state = 0 ∨ state = 1 ∨ state = 3 → 1 ≤ x ∧ x < (sX.length : Int) + 1)
        ∧ (state = 0 ∨ state = 2 ∨ state = 4 → 1 ≤ y ∧ y < (sY.length : Int) + 1) := by
  have hlenX : (((sX.map convertChar).length : Nat) : Int) = (sX.length : Int) + 1 - 1 := by
    rw [List.length_map]; omega
  have hlenY : (((sY.map convertChar).length : Nat) : Int) = (sY.length : Int) + 1 - 1 := by
    rw [List.length_map]; omega
  refine ⟨forwardMatrixChecked_eq _ _ _ _ hlenX hlenY (map_convertChar_le sX)
      (map_convertChar_le sY),
    backwardMatrixChecked_eq _ _ _ _ hlenX hlenY (map_convertChar_le sX)
      (map_convertChar_le sY),
    fun e P fM bM tp => getPosteriorProbsChecked_eq e P fM bM _ _ _ _ [] tp hlenX hlenY
      (map_convertChar_le sX) (map_convertChar_le sY), ?_⟩
  intro x y state v h
  exact emissionProbChecked_guard x y _ _ _ _ state v h

/-! ## Rational values of doubles -/

theorem ofRat_add (a b : Dbl ℚ) : (Dbl.ofRat (a + b) : Dbl K) = Dbl.ofRat a + Dbl.ofRat b := by
  cases a <;> cases b <;> first | rfl | (show fin _ = fin _; rw [Rat.cast_add])

theorem ofRat_neg (a : Dbl ℚ) : (Dbl.ofRat (Dbl.neg a) : Dbl K) = Dbl.neg (Dbl.ofRat a) := by
  cases a <;> first | rfl | (show fin _ = fin _; rw [Rat.cast_neg])

theorem ofRat_sub (a b : Dbl ℚ) : (Dbl.ofRat (a - b) : Dbl K) = Dbl.ofRat a - Dbl.ofRat b := by
  show Dbl.ofRat (Dbl.add a (Dbl.neg b)) = Dbl.add (Dbl.ofRat a) (Dbl.neg (Dbl.ofRat b))
  rw [← ofRat_neg]
  exact ofRat_add a (Dbl.neg b)

theorem ofRat_infOfSign (a : ℚ) :
    (Dbl.ofRat (Dbl.infOfSign a) : Dbl K) = Dbl.infOfSign (a : K) := by
  have e1 : (0 : K) < (a : K) ↔ 0 < a := Rat.cast_pos
  have e2 : (a : K) < 0 ↔ a < 0 := Rat.cast_lt_zero
  unfold Dbl.infOfSign
  simp only [e1, e2]
  split_ifs <;> rfl

theorem ofRat_mul (a b : Dbl ℚ) : (Dbl.ofRat (a * b) : Dbl K) = Dbl.ofRat a * Dbl.ofRat b := by
  cases a <;> cases b <;>
    first
      | rfl
      | (show fin _ = fin _; rw [Rat.cast_mul])
      | (show Dbl.ofRat (Dbl.infOfSign _) = Dbl.infOfSign _; rw [ofRat_infOfSign, Rat.cast_neg])
      | (show Dbl.ofRat (Dbl.infOfSign _) = Dbl.infOfSign _; rw [ofRat_infOfSign])

theorem ofRat_div (a b : Dbl ℚ) : (Dbl.ofRat (a / b) : Dbl K) = Dbl.ofRat a / Dbl.ofRat b := by
  cases a with
  | nan => cases b <;> rfl
  | negInf =>
    cases b with
    | fin y =>
      show Dbl.ofRat (if 0 ≤ y then negInf else posInf) = if 0 ≤ (y : K) then negInf else posInf
      by_cases h : 0 ≤ y
      · rw [if_pos h, if_pos (Rat.cast_nonneg.mpr h)]; rfl
      · rw [if_neg h, if_neg (by rwa [Rat.cast_nonneg])]; rfl
    | nan => rfl
    | negInf => rfl
    | posInf => rfl
  | posInf =>
    cases b with
    | fin y =>
      show Dbl.ofRat (if 0 ≤ y then posInf else negInf) = if 0 ≤ (y : K) then posInf else negInf
      by_cases h : 0 ≤ y
      · rw [if_pos h, if_pos (Rat.cast_nonneg.mpr h)]; rfl
      · rw [if_neg h, if_neg (by rwa [Rat.cast_nonneg])]; rfl
    | nan => rfl
    | negInf => rfl
    | posInf => rfl
  | fin x =>
    cases b with
    | fin y =>
      show Dbl.ofRat (if y = 0 then Dbl.infOfSign x else fin (x / y))
        = if (y : K) = 0 then Dbl.infOfSign (x : K) else fin ((x : K) / (y : K))
      by_cases h : y = 0
      · rw [if_pos h, if_pos (by rw [h]; exact Rat.cast_zero), ofRat_infOfSign]
      · rw [if_neg h, if_neg (by rwa [Rat.cast_eq_zero])]
        show fin _ = fin _
        rw [Rat.cast_div]
    | nan => rfl
    | negInf => show fin _ = fin _; rw [Rat.cast_zero]
    | posInf => show fin _ = fin _; rw [Rat.cast_zero]

theorem lt_ofRat (a b : Dbl ℚ) : Dbl.lt (Dbl.ofRat a : Dbl K) (Dbl.ofRat b) = Dbl.lt a b := by
  cases a <;> cases b <;>
    first | rfl | (show decide _ = decide _; exact decide_eq_decide.mpr Rat.cast_lt)

theorem eq_ofRat (a b : Dbl ℚ) : Dbl.eq (Dbl.ofRat a : Dbl K) (Dbl.ofRat b) = Dbl.eq a b := by
  cases a <;> cases b <;>
    first | rfl | (show decide _ = decide _; exact decide_eq_decide.mpr Rat.cast_inj)

theorem le_ofRat (a b : Dbl ℚ) : Dbl.le (Dbl.ofRat a : Dbl K) (Dbl.ofRat b) = Dbl.le a b := by
  unfold Dbl.le
  rw [lt_ofRat, eq_ofRat]

theorem ge_ofRat (a b : Dbl ℚ) : Dbl.ge (Dbl.ofRat a : Dbl K) (Dbl.ofRat b) = Dbl.ge a b :=
  le_ofRat b a

theorem gt_ofRat (a b : Dbl ℚ) : Dbl.gt (Dbl.ofRat a : Dbl K) (Dbl.ofRat b) = Dbl.gt a b :=
  lt_ofRat b a

theorem cast_lookupCubic (t : ℚ) : ((lookupCubic t : ℚ) : K) = lookupCubic (t : K) := by
  have e1 : (t : K) ≤ 1.0 ↔ t ≤ 1.0 := by
    rw [show (1.0 : K) = ((1.0 : ℚ) : K) by norm_num, Rat.cast_le]
  have e2 : (t : K) ≤ 2.5 ↔ t ≤ 2.5 := by
    rw [show (2.5 : K) = ((2.5 : ℚ) : K) by norm_num, Rat.cast_le]
  have e3 : (t : K) ≤ 4.5 ↔ t ≤ 4.5 := by
    rw [show (4.5 : K) = ((4.5 : ℚ) : K) by norm_num, Rat.cast_le]
  unfold lookupCubic
  simp only [e1, e2, e3]
  split_ifs <;> (push_cast; norm_num)

theorem lookup_nan : lookup (nan : Dbl K) = nan := rfl

theorem lookup_negInf : lookup (negInf : Dbl K) = posInf := by
  have h : (0 : K) < 0.009350833483040332794189453125 := by norm_num
  unfold lookup
  simp [Dbl.le, Dbl.lt, HMul.hMul, Mul.mul, Dbl.mul, HAdd.hAdd, Add.add, Dbl.add,
    Dbl.infOfSign, h]

theorem lookup_posInf : lookup (posInf : Dbl K) = negInf := by
  have h : ¬ (0 : K) < -0.00045866161235608160495758056640625 := by norm_num
  have h' : (-0.00045866161235608160495758056640625 : K) < 0 := by norm_num
  unfold lookup
  simp [Dbl.le, Dbl.lt, Dbl.eq, HMul.hMul, Mul.mul, Dbl.mul, HAdd.hAdd, Add.add, Dbl.add,
    Dbl.infOfSign, h, h']

theorem ofRat_lookup (x : Dbl ℚ) : (Dbl.ofRat (lookup x) : Dbl K) = lookup (Dbl.ofRat x) := by
  cases x with
  | nan => rfl
  | negInf => rw [lookup_negInf]; exact (lookup_negInf (K := K)).symm
  | posInf => rw [lookup_posInf]; exact (lookup_posInf (K := K)).symm
  | fin t =>
    rw [lookup_fin]
    show fin _ = lookup (fin (t : K))
    rw [lookup_fin, cast_lookupCubic]

theorem ofRat_logAdd (x y : Dbl ℚ) :
    (Dbl.ofRat (logAdd x y) : Dbl K) = logAdd (Dbl.ofRat x) (Dbl.ofRat y) := by
  have h75 : (fin 7.5 : Dbl K) = Dbl.ofRat (fin 7.5) := by
    show fin _ = fin _
    norm_num
  have hz : (negInf : Dbl K) = Dbl.ofRat negInf := rfl
  unfold logAdd logZero logUnderflowThreshold
  rw [lt_ofRat, ← ofRat_sub, ← ofRat_sub, h75, ge_ofRat, ge_ofRat, hz, eq_ofRat, eq_ofRat]
  split_ifs
  · rfl
  · rw [ofRat_add, ofRat_lookup, ofRat_sub]
  · rfl
  · rw [ofRat_add, ofRat_lookup, ofRat_sub]

theorem getD_map_ofRat (l : List (Dbl ℚ)) (i : Nat) :
    (l.map Dbl.ofRat).getD i (nan : Dbl K) = Dbl.ofRat (l.getD i nan) := by
  rw [show (nan : Dbl K) = Dbl.ofRat nan from rfl, List.getD_map]

theorem transitionProb_ofRat (f t : Nat) :
    transitionProb (K := K) f t = Dbl.ofRat (transitionProb f t) := by
  have h : transitions (K := K) = (transitions (K := ℚ)).map Dbl.ofRat := by
    simp only [transitions, List.map_cons, List.map_nil, matchContinueTransition,
      matchFromShortGapTransition, matchFromLongGapTransition, gapOpenShortTransition,
      gapShortExtendTransition, gapShortSwitchTransition, gapOpenLongTransition,
      gapLongExtendTransition, logZero, Dbl.ofRat]
    norm_num
  unfold transitionProb
  rw [h, getD_map_ofRat]

theorem matchM_ofRat (i : Nat) :
    (matchM (K := K)).getD i nan = Dbl.ofRat ((matchM (K := ℚ)).getD i nan) := by
  have h : matchM (K := K) = (matchM (K := ℚ)).map Dbl.ofRat := by
    simp only [matchM, List.map_cons, List.map_nil, matchEmission, transversionEmission,
      transitionEmission, matchNEmission, Dbl.ofRat]
    norm_num
  rw [h, getD_map_ofRat]

theorem gapM_ofRat (i : Nat) :
    (gapM (K := K)).getD i nan = Dbl.ofRat ((gapM (K := ℚ)).getD i nan) := by
  have h : gapM (K := K) = (gapM (K := ℚ)).map Dbl.ofRat := by
    simp only [gapM, List.map_cons, List.map_nil, gapEmission, Dbl.ofRat]
    norm_num
  rw [h, getD_map_ofRat]

theorem emissionProb_ofRat (x y lX lY : Int) (sX sY : List Nat) (state : Nat) :
    emissionProb (K := K) x y lX lY sX sY state
      = Dbl.ofRat (emissionProb x y lX lY sX sY state) := by
  unfold emissionProb
  split
  · exact matchM_ofRat _
  · exact gapM_ofRat _
  · exact gapM_ofRat _
  · exact gapM_ofRat _
  · exact gapM_ofRat _
  · show fin _ = fin _
    norm_num

theorem startStateProbs_ofRat (state : Nat) :
    startStateProbs (K := K) state = Dbl.ofRat (startStateProbs state) := by
  have h : ([matchContinueTransition, gapOpenShortTransition, gapOpenShortTransition,
      gapOpenLongTransition, gapOpenLongTransition] : List (Dbl K))
      = ([matchContinueTransition, gapOpenShortTransition, gapOpenShortTransition,
        gapOpenLongTransition, gapOpenLongTransition] : List (Dbl ℚ)).map Dbl.ofRat := by
    simp only [List.map_cons, List.map_nil, matchContinueTransition, gapOpenShortTransition,
      gapOpenLongTransition, Dbl.ofRat]
    norm_num
  unfold startStateProbs
  rw [h, getD_map_ofRat]

theorem endStateProbs_ofRat (state : Nat) :
    endStateProbs (K := K) state = Dbl.ofRat (endStateProbs state) := by
  have h : ([fin (-1.6094379124341), fin (-1.6094379124341), fin (-1.6094379124341),
      fin (-1.6094379124341), fin (-1.6094379124341)] : List (Dbl K))
      = ([fin (-1.6094379124341), fin (-1.6094379124341), fin (-1.6094379124341),
        fin (-1.6094379124341), fin (-1.6094379124341)] : List (Dbl ℚ)).map Dbl.ofRat := by
    simp only [List.map_cons, List.map_nil, Dbl.ofRat]
    norm_num
  unfold endStateProbs
  simp only
  rw [h, getD_map_ofRat]

theorem getEmptyMatrix_ofRat (lX lY : Int) :
    getEmptyMatrix (K := K) lX lY = (getEmptyMatrix (K := ℚ) lX lY).map Dbl.ofRat := by
  unfold getEmptyMatrix logZero
  rw [List.map_replicate]
  rfl

theorem initialiseForwardMatrix_ofRat (lX lY : Int) :
    initialiseForwardMatrix (K := K) lX lY
      = (initialiseForwardMatrix (K := ℚ) lX lY).map Dbl.ofRat := by
  unfold initialiseForwardMatrix
  simp only
  rw [getEmptyMatrix_ofRat]
  cases getCell 0 0 lX with
  | none => rfl
  | some cell =>
    simp only
    apply List.foldl_hom
    intro fM i
    rw [List.map_set, startStateProbs_ofRat]

theorem initialiseBackwardMatrix_ofRat (lX lY : Int) :
    initialiseBackwardMatrix (K := K) lX lY
      = (initialiseBackwardMatrix (K := ℚ) lX lY).map Dbl.ofRat := by
  unfold initialiseBackwardMatrix
  simp only
  rw [getEmptyMatrix_ofRat]
  cases getCell (lX - 1) (lY - 1) lX with
  | none => rfl
  | some cell =>
    simp only
    apply List.foldl_hom
    intro bM i
    rw [List.map_set, endStateProbs_ofRat]

theorem forwardCell_ofRat (fM : List (Dbl ℚ)) (x y lX lY : Int) (sX sY : List Nat) :
    forwardCell (K := K) (fM.map Dbl.ofRat) x y lX lY sX sY
      = (forwardCell fM x y lX lY sX sY).map Dbl.ofRat := by
  unfold forwardCell
  cases getCell x y lX with
  | none => rfl
  | some cell =>
    simp only
    apply List.foldl_hom
    intro fM t
    cases getCell (x - getTransitionOffSetX t) (y - getTransitionOffSetY t) lX with
    | none => rfl
    | some pCell =>
      simp only
      apply List.foldl_hom
      intro fM f
      unfold logAddAndAssign
      rw [List.map_set, getD_map_ofRat, getD_map_ofRat, ofRat_logAdd, ofRat_add, ofRat_add,
        ← transitionProb_ofRat, ← emissionProb_ofRat]

theorem backwardCell_ofRat (bM : List (Dbl ℚ)) (x y lX lY : Int) (sX sY : List Nat) :
    backwardCell (K := K) (bM.map Dbl.ofRat) x y lX lY sX sY
      = (backwardCell bM x y lX lY sX sY).map Dbl.ofRat := by
  unfold backwardCell
  cases getCell x y lX with
  | none => rfl
  | some cell =>
    simp only
    apply List.foldl_hom
    intro bM t
    cases getCell (x - getTransitionOffSetX t) (y - getTransitionOffSetY t) lX with
    | none => rfl
    | some pCell =>
      simp only
      apply List.foldl_hom
      intro bM f
      unfold logAddAndAssign
      rw [List.map_set, getD_map_ofRat, getD_map_ofRat, ofRat_logAdd, ofRat_add, ofRat_add,
        ← transitionProb_ofRat, ← emissionProb_ofRat]

theorem forwardMatrix_ofRat (lX lY : Int) (sX sY : List Nat) :
    forwardMatrix (K := K) lX lY sX sY = (forwardMatrix (K := ℚ) lX lY sX sY).map Dbl.ofRat := by
  unfold forwardMatrix
  rw [initialiseForwardMatrix_ofRat]
  apply List.foldl_hom
  intro fM x
  apply List.foldl_hom
  intro fM y
  exact forwardCell_ofRat fM x y lX lY sX sY

theorem backwardMatrix_ofRat (lX lY : Int) (sX sY : List Nat) :
    backwardMatrix (K := K) lX lY sX sY
      = (backwardMatrix (K := ℚ) lX lY sX sY).map Dbl.ofRat := by
  unfold backwardMatrix
  rw [initialiseBackwardMatrix_ofRat]
  apply List.foldl_hom
  intro bM x
  apply List.foldl_hom
  intro bM y
  exact backwardCell_ofRat bM x y lX lY sX sY

theorem totalForwardProb_ofRat (fM : List (Dbl ℚ)) (lX lY : Int) :
    totalForwardProb (K := K) (fM.map Dbl.ofRat) lX lY
      = Dbl.ofRat (totalForwardProb fM lX lY) := by
  unfold totalForwardProb
  cases getCell (lX - 1) (lY - 1) lX with
  | none => rfl
  | some cell =>
    simp only
    rw [getD_map_ofRat, endStateProbs_ofRat, ← ofRat_add]
    apply List.foldl_hom
    intro tp i
    unfold logAddAndAssign
    rw [ofRat_logAdd, ofRat_add, getD_map_ofRat, ← endStateProbs_ofRat]

theorem totalBackwardProb_ofRat (bM : List (Dbl ℚ)) (lX : Int) :
    totalBackwardProb (K := K) (bM.map Dbl.ofRat) lX
      = Dbl.ofRat (totalBackwardProb bM lX) := by
  unfold totalBackwardProb
  cases getCell 0 0 lX with
  | none => rfl
  | some cell =>
    simp only
    rw [getD_map_ofRat, startStateProbs_ofRat, ← ofRat_add]
    apply List.foldl_hom
    intro tp i
    unfold logAddAndAssign
    rw [ofRat_logAdd, ofRat_add, getD_map_ofRat, ← startStateProbs_ofRat]

theorem posteriorMatchLog_ofRat (fM bM : List (Dbl ℚ)) (x y lX lY : Int) (sX sY : List Nat)
    (tp : Dbl ℚ) :
    posteriorMatchLog (K := K) (fM.map Dbl.ofRat) (bM.map Dbl.ofRat) x y lX lY sX sY
        (Dbl.ofRat tp)
      = Dbl.ofRat (posteriorMatchLog fM bM x y lX lY sX sY tp) := by
  unfold posteriorMatchLog
  simp only
  cases getCell (x - 1) (y - 1) lX with
  | none => rfl
  | some pCell =>
    cases getCell x y lX with
    | none => rfl
    | some cell =>
      simp only
      rw [ofRat_sub]
      congr 1
      rw [getD_map_ofRat, getD_map_ofRat, transitionProb_ofRat, emissionProb_ofRat,
        ← ofRat_add, ← ofRat_add, ← ofRat_add]
      apply List.foldl_hom
      intro f i
      unfold logAddAndAssign
      rw [ofRat_logAdd, ofRat_add, ofRat_add, ofRat_add, getD_map_ofRat,
        ← transitionProb_ofRat]

theorem alignmentPosteriorLog_ofRat (sX sY : List Char) (x y : Int) :
    alignmentPosteriorLog (K := K) sX sY x y
      = Dbl.ofRat (alignmentPosteriorLog sX sY x y) := by
  have h2 : (fin 2 : Dbl K) = Dbl.ofRat (fin 2) := by
    show fin _ = fin _
    norm_num
  unfold alignmentPosteriorLog
  simp only
  rw [forwardMatrix_ofRat, backwardMatrix_ofRat, totalForwardProb_ofRat,
    totalBackwardProb_ofRat, h2, ← ofRat_add, ← ofRat_div, posteriorMatchLog_ofRat]

theorem posteriorMatchProb_eq_exp (e : K → K) (fM bM : List (Dbl K)) (x y lX lY : Int)
    (sX sY : List Nat) (tp : Dbl K) :
    posteriorMatchProb e fM bM x y lX lY sX sY tp
      = Dbl.exp e (posteriorMatchLog fM bM x y lX lY sX sY tp) := by
  unfold posteriorMatchProb posteriorMatchLog
  simp only
  cases getCell (x - 1) (y - 1) lX with
  | none => rfl
  | some pCell =>
    cases getCell x y lX with
    | none => rfl
    | some cell => rfl

theorem mem_getAlignedPairs_iff [FloorRing K] (e : K → K) (P : Nat) (hP : P ≤ 2147483647)
    (sX sY : List Char) (t : AlignedPair) :
    t ∈ getAlignedPairs_allocated e P sX sY ↔
      ∃ x y : Int, 1 ≤ x ∧ x < (sX.length : Int) + 1 ∧ 1 ≤ y ∧ y < (sY.length : Int) + 1
        ∧ specEmit P (Dbl.exp e (alignmentPosteriorLog sX sY x y)) x y = some t := by
  unfold getAlignedPairs_allocated alignmentPosteriorLog
  simp only
  rw [(getPosteriorProbs_spec_aux e P hP _ _ _ _ _ _ _).2 t]
  simp only [posteriorMatchProb_eq_exp]

theorem inRange_ofRat (lo hi : ℚ) (d : Dbl ℚ) (h : Dbl.inRange lo hi d = true) :
    ∃ q : ℚ, (Dbl.ofRat d : Dbl K) = fin (q : K) ∧ lo ≤ q ∧ q ≤ hi := by
  cases d with
  | fin q =>
    simp only [Dbl.inRange, Bool.and_eq_true, decide_eq_true_eq] at h
    exact ⟨q, rfl, h.1, h.2⟩
  | nan => simp [Dbl.inRange] at h
  | negInf => simp [Dbl.inRange] at h
  | posInf => simp [Dbl.inRange] at h

/-! ## The exchange of the two sequences -/

theorem posteriorLog_A_AA :
    Dbl.inRange (-367023 / 1000000 : ℚ) (-367022 / 1000000)
      (alignmentPosteriorLog (K := ℚ) ['A'] ['A', 'A'] 1 1) = true := by
  decide!

theorem posteriorLog_AA_A :
    Dbl.inRange (-366993 / 1000000 : ℚ) (-366992 / 1000000)
      (alignmentPosteriorLog (K := ℚ) ['A', 'A'] ['A'] 1 1) = true := by
  decide!

theorem mem_getAlignedPairs_of_log (sX sY : List Char) (x y : Int)
    (hx1 : 1 ≤ x) (hx2 : x < (sX.length : Int) + 1) (hy1 : 1 ≤ y)
    (hy2 : y < (sY.length : Int) + 1) (q : ℝ)
    (hq : alignmentPosteriorLog (K := ℝ) sX sY x y = fin q) (h0 : -1 / 2 ≤ q) (h1 : q ≤ 0) :
    (⟨⌊Real.exp q * 1000000⌋, x - 1, y - 1⟩ : AlignedPair)
      ∈ getAlignedPairs_allocated (K := ℝ) Real.exp 1000000 sX sY := by
  rw [mem_getAlignedPairs_iff Real.exp 1000000 (by norm_num)]
  refine ⟨x, y, hx1, hx2, hy1, hy2, ?_⟩
  rw [hq]
  have he1 : Real.exp q ≤ 1 := Real.exp_le_one_iff.mpr h1
  have he0 : (0.01 : ℝ) ≤ Real.exp q := by
    have := Real.add_one_le_exp q
    norm_num at this ⊢
    linarith
  show specEmit 1000000 (fin (Real.exp q)) x y = _
  unfold specEmit
  simp only
  rw [if_pos he0, min_eq_left he1]
  norm_num

theorem floor_gap (q1 q2 : ℝ) (h1 : q1 ≤ -367022 / 1000000)
    (h2 : -366993 / 1000000 ≤ q2) :
    ⌊Real.exp q1 * 1000000⌋ + 2 ≤ ⌊Real.exp q2 * 1000000⌋ := by
  have e1 : Real.exp q1 ≤ Real.exp (-367022 / 1000000) := Real.exp_le_exp.mpr h1
  have e2 : Real.exp (-366993 / 1000000) ≤ Real.exp q2 := Real.exp_le_exp.mpr h2
  have e3 : Real.exp (-366993 / 1000000)
      = Real.exp (-367022 / 1000000) * Real.exp (29 / 1000000) := by
    rw [← Real.exp_add]
    norm_num
  have e4 : (29 / 1000000 : ℝ) + 1 ≤ Real.exp (29 / 1000000) := Real.add_one_le_exp _
  have e5 : (-367022 / 1000000 : ℝ) + 1 ≤ Real.exp (-367022 / 1000000) :=
    Real.add_one_le_exp _
  have e6 : Real.exp (-367022 / 1000000) * (29 / 1000000 + 1)
      ≤ Real.exp (-367022 / 1000000) * Real.exp (29 / 1000000) :=
    mul_le_mul_of_nonneg_left e4 (Real.exp_pos _).le
  have hgap : Real.exp q1 * 1000000 + 3 ≤ Real.exp q2 * 1000000 := by
    rw [e3] at e2
    nlinarith
  have f1 : (⌊Real.exp q1 * 1000000⌋ : ℝ) ≤ Real.exp q1 * 1000000 := Int.floor_le _
  have f2 : Real.exp q2 * 1000000 < (⌊Real.exp q2 * 1000000⌋ : ℝ) + 1 :=
    Int.lt_floor_add_one _
  have : ((⌊Real.exp q1 * 1000000⌋ + 2 : Int) : ℝ) < ((⌊Real.exp q2 * 1000000⌋ : Int) : ℝ) := by
    push_cast
    linarith
  exact le_of_lt (Int.cast_lt.mp this)

theorem getAlignedPairs_A_AA_scores :
    ∃ s s' : Int, (⟨s, 0, 0⟩ : AlignedPair)
        ∈ getAlignedPairs_allocated (K := ℝ) Real.exp 1000000 ['A'] ['A', 'A']
      ∧ (⟨s', 0, 0⟩ : AlignedPair)
        ∈ getAlignedPairs_allocated (K := ℝ) Real.exp 1000000 ['A', 'A'] ['A']
      ∧ s + 2 ≤ s' := by
  obtain ⟨q1, hq1, l1, u1⟩ := inRange_ofRat (K := ℝ) _ _ _ posteriorLog_A_AA
  obtain ⟨q2, hq2, l2, u2⟩ := inRange_ofRat (K := ℝ) _ _ _ posteriorLog_AA_A
  rw [← alignmentPosteriorLog_ofRat] at hq1 hq2
  have l1R : (-367023 / 1000000 : ℝ) ≤ (q1 : ℝ) := by
    have : ((-367023 / 1000000 : ℚ) : ℝ) ≤ (q1 : ℝ) := Rat.cast_le.mpr l1
    norm_num at this ⊢
    linarith
  have u1R : (q1 : ℝ) ≤ -367022 / 1000000 := by
    have : (q1 : ℝ) ≤ ((-367022 / 1000000 : ℚ) : ℝ) := Rat.cast_le.mpr u1
    norm_num at this ⊢
    linarith
  have l2R : (-366993 / 1000000 : ℝ) ≤ (q2 : ℝ) := by
    have : ((-366993 / 1000000 : ℚ) : ℝ) ≤ (q2 : ℝ) := Rat.cast_le.mpr l2
    norm_num at this ⊢
    linarith
  have u2R : (q2 : ℝ) ≤ -366992 / 1000000 := by
    have : (q2 : ℝ) ≤ ((-366992 / 1000000 : ℚ) : ℝ) := Rat.cast_le.mpr u2
    norm_num at this ⊢
    linarith
  have m1 := mem_getAlignedPairs_of_log ['A'] ['A', 'A'] 1 1 (by decide) (by decide)
    (by decide) (by decide) (q1 : ℝ) hq1 (by linarith) (by linarith)
  have m2 := mem_getAlignedPairs_of_log ['A', 'A'] ['A'] 1 1 (by decide) (by decide)
    (by decide) (by decide) (q2 : ℝ) hq2 (by linarith) (by linarith)
  exact ⟨_, _, m1, m2, floor_gap _ _ u1R l2R⟩

/-! ## The symmetry of the tables of the pair-HMM -/

theorem matchM_symm (a b : Nat) (ha : a ≤ 4) (hb : b ≤ 4) :
    (matchM (K := K)).getD (a * 5 + b) nan = (matchM (K := K)).getD (b * 5 + a) nan := by
  interval_cases a <;> interval_cases b <;> rfl

/-- C31: the pair-HMM is symmetric under the exchange of `X` and `Y`.  With
`swapState` the permutation of the states `0 .. 4` that swaps `1 <-> 2` and
`3 <-> 4`: the transition, start and end tables are invariant under it, it
carries the offsets in `Y` to the offsets in `X` (and back), and the match
emission of the bases `(a, b)` is that of `(b, a)`, in the table and in
`emissionProb`. -/
theorem pairHMM_symmetric :
    (∀ s : Nat, s < 5 → swapState s < 5 ∧ swapState (swapState s) = s)
    ∧ (∀ fromState toState : Nat, fromState < 5 → toState < 5 →
        transitionProb (K := K) (swapState fromState) (swapState toState)
          = transitionProb fromState toState)
    ∧ (∀ s : Nat, s < 5 → startStateProbs (K := K) (swapState s) = startStateProbs s)
    ∧ (∀ s : Nat, s < 5 → endStateProbs (K := K) (swapState s) = endStateProbs s)
    ∧ (∀ s : Nat, s < 5 → getTransitionOffSetX (swapState s) = getTransitionOffSetY s
        ∧ getTransitionOffSetY (swapState s) = getTransitionOffSetX s)
    ∧ (∀ a b : Nat, a ≤ 4 → b ≤ 4 →
        (matchM (K := K)).getD (a * 5 + b) nan = (matchM (K := K)).getD (b * 5 + a) nan)
    ∧ (∀ (x y lX lY : Int) (sX sY : List Nat),
        readSeq sX (x - 1) ≤ 4 → readSeq sY (y - 1) ≤ 4 →
        emissionProb (K := K) y x lY lX sY sX 0 = emissionProb x y lX lY sX sY 0) := by
  refine ⟨?_, ?_, ?_, ?_, ?_, ?_, ?_⟩
  · intro s hs
    interval_cases s <;> decide
  · intro f t hf ht
    interval_cases f <;> interval_cases t <;> rfl
  · intro s hs
    interval_cases s <;> rfl
  · intro s hs
    interval_cases s <;> rfl
  · intro s hs
    interval_cases s <;> decide
  · exact matchM_symm
  · intro x y lX lY sX sY ha hb
    unfold emissionProb
    exact matchM_symm _ _ hb ha

/-! ## Enclosures of the values of a run -/

theorem boxUnit_pos : (0 : K) < ((boxUnit : Int) : K) := by
  norm_num [boxUnit]

theorem boxDivDown_le (n : Int) :
    ((boxDivDown n : Int) : K) * ((boxUnit : Int) : K) ≤ (n : K) := by
  have h : boxDivDown n * boxUnit ≤ n := Int.ediv_mul_le n (by norm_num [boxUnit])
  exact_mod_cast h

theorem le_boxDivUp (n : Int) :
    (n : K) ≤ ((boxDivUp n : Int) : K) * ((boxUnit : Int) : K) := by
  have h : (-n) / boxUnit * boxUnit ≤ -n := Int.ediv_mul_le (-n) (by norm_num [boxUnit])
  have h2 : n ≤ boxDivUp n * boxUnit := by
    unfold boxDivUp
    rw [neg_mul]
    linarith
  exact_mod_cast h2

theorem boxMul_lower (a b : Int) (A B : K) (ha : 0 ≤ a) (hb : 0 ≤ b)
    (hA : (a : K) ≤ A * ((boxUnit : Int) : K)) (hB : (b : K) ≤ B * ((boxUnit : Int) : K)) :
    ((boxDivDown (a * b) : Int) : K) ≤ A * B * ((boxUnit : Int) : K) := by
  have hu := boxUnit_pos (K := K)
  have h1 := boxDivDown_le (K := K) (a * b)
  have ha' : (0 : K) ≤ (a : K) := by exact_mod_cast ha
  have hb' : (0 : K) ≤ (b : K) := by exact_mod_cast hb
  have h2 : (a : K) * (b : K) ≤ (A * ((boxUnit : Int) : K)) * (B * ((boxUnit : Int) : K)) :=
    mul_le_mul hA hB hb' (le_trans ha' hA)
  have h3 : ((boxDivDown (a * b) : Int) : K) * ((boxUnit : Int) : K)
      ≤ (A * B * ((boxUnit : Int) : K)) * ((boxUnit : Int) : K) := by
    push_cast at h1
    calc ((boxDivDown (a * b) : Int) : K) * ((boxUnit : Int) : K)
        ≤ (a : K) * (b : K) := h1
      _ ≤ (A * ((boxUnit : Int) : K)) * (B * ((boxUnit : Int) : K)) := h2
      _ = (A * B * ((boxUnit : Int) : K)) * ((boxUnit : Int) : K) := by ring
  exact le_of_mul_le_mul_right h3 hu

theorem boxMul_upper (a b : Int) (A B : K) (hA0 : 0 ≤ A) (hB0 : 0 ≤ B)
    (hA : A * ((boxUnit : Int) : K) ≤ (a : K)) (hB : B * ((boxUnit : Int) : K) ≤ (b : K)) :
    A * B * ((boxUnit : Int) : K) ≤ ((boxDivUp (a * b) : Int) : K) := by
  have hu := boxUnit_pos (K := K)
  have h1 := le_boxDivUp (K := K) (a * b)
  have hAu : (0 : K) ≤ A * ((boxUnit : Int) : K) := mul_nonneg hA0 hu.le
  have hBu : (0 : K) ≤ B * ((boxUnit : Int) : K) := mul_nonneg hB0 hu.le
  have h2 : (A * ((boxUnit : Int) : K)) * (B * ((boxUnit : Int) : K)) ≤ (a : K) * (b : K) :=
    mul_le_mul hA hB hBu (le_trans hAu hA)
  have h3 : (A * B * ((boxUnit : Int) : K)) * ((boxUnit : Int) : K)
      ≤ ((boxDivUp (a * b) : Int) : K) * ((boxUnit : Int) : K) := by
    push_cast at h1
    calc (A * B * ((boxUnit : Int) : K)) * ((boxUnit : Int) : K)
        = (A * ((boxUnit : Int) : K)) * (B * ((boxUnit : Int) : K)) := by ring
      _ ≤ (a : K) * (b : K) := h2
      _ ≤ ((boxDivUp (a * b) : Int) : K) * ((boxUnit : Int) : K) := h1
  exact le_of_mul_le_mul_right h3 hu

theorem boxCubic_encloses (c : Int × Int × Int × Int) (dl dh : Int) (D : K)
    (hc : 0 ≤ c.1) (h0 : 0 ≤ dl) (hl : (dl : K) ≤ D * ((boxUnit : Int) : K))
    (hh : D * ((boxUnit : Int) : K) ≤ (dh : K)) :
    boxEncloses (boxCubic c dl dh)
      (fin (((-((c.1 : K) / ((boxUnit : Int) : K)) * D + (c.2.1 : K) / ((boxUnit : Int) : K)) * D
        + (c.2.2.1 : K) / ((boxUnit : Int) : K)) * D
        + (c.2.2.2 : K) / ((boxUnit : Int) : K))) := by
  have hu := boxUnit_pos (K := K)
  have hune : ((boxUnit : Int) : K) ≠ 0 := ne_of_gt hu
  have hD0 : 0 ≤ D := by
    have h : (0 : K) ≤ D * ((boxUnit : Int) : K) :=
      le_trans (by exact_mod_cast h0) hl
    exact nonneg_of_mul_nonneg_left h hu
  have hdh0 : 0 ≤ dh := by
    have h : (0 : K) ≤ (dh : K) := le_trans (mul_nonneg hD0 hu.le) hh
    exact_mod_cast h
  have hcu : (c.1 : K) / ((boxUnit : Int) : K) * ((boxUnit : Int) : K) = (c.1 : K) :=
    div_mul_cancel₀ _ hune
  have hc0 : (0 : K) ≤ (c.1 : K) / ((boxUnit : Int) : K) :=
    div_nonneg (by exact_mod_cast hc) hu.le
  -- the cubic term
  have p1l := boxMul_lower c.1 dl ((c.1 : K) / ((boxUnit : Int) : K)) D hc h0 hcu.ge hl
  have p1h := boxMul_upper c.1 dh ((c.1 : K) / ((boxUnit : Int) : K)) D hc0 hD0 hcu.le hh
  unfold boxCubic
  simp only
  split_ifs with h1 h2
  · trivial
  · trivial
  · have h1' : 0 ≤ c.2.1 - boxDivUp (c.1 * dh) := not_lt.mp h1
    have h2' : 0 ≤ boxDivDown ((c.2.1 - boxDivUp (c.1 * dh)) * dl) + c.2.2.1 := not_lt.mp h2
    set T1 : K := -((c.1 : K) / ((boxUnit : Int) : K)) * D
      + (c.2.1 : K) / ((boxUnit : Int) : K) with hT1
    have t1l : ((c.2.1 - boxDivUp (c.1 * dh) : Int) : K) ≤ T1 * ((boxUnit : Int) : K) := by
      have e : T1 * ((boxUnit : Int) : K)
          = (c.2.1 : K) - (c.1 : K) / ((boxUnit : Int) : K) * D * ((boxUnit : Int) : K) := by
        rw [hT1]
        field_simp
        ring
      rw [e]
      push_cast
      linarith
    have t1h : T1 * ((boxUnit : Int) : K) ≤ ((c.2.1 - boxDivDown (c.1 * dl) : Int) : K) := by
      have e : T1 * ((boxUnit : Int) : K)
          = (c.2.1 : K) - (c.1 : K) / ((boxUnit : Int) : K) * D * ((boxUnit : Int) : K) := by
        rw [hT1]
        field_simp
        ring
      rw [e]
      push_cast
      linarith
    have hT10 : 0 ≤ T1 := by
      have h : (0 : K) ≤ T1 * ((boxUnit : Int) : K) :=
        le_trans (by exact_mod_cast h1') t1l
      exact nonneg_of_mul_nonneg_left h hu
    have p2l := boxMul_lower _ dl T1 D h1' h0 t1l hl
    have p2h := boxMul_upper _ dh T1 D hT10 hD0 t1h hh
    set T2 : K := T1 * D + (c.2.2.1 : K) / ((boxUnit : Int) : K) with hT2
    have t2l : ((boxDivDown ((c.2.1 - boxDivUp (c.1 * dh)) * dl) + c.2.2.1 : Int) : K)
        ≤ T2 * ((boxUnit : Int) : K) := by
      have e : T2 * ((boxUnit : Int) : K)
          = T1 * D * ((boxUnit : Int) : K) + (c.2.2.1 : K) := by
        rw [hT2]
        field_simp
      rw [e]
      push_cast
      linarith
    have t2h : T2 * ((boxUnit : Int) : K)
        ≤ ((boxDivUp ((c.2.1 - boxDivDown (c.1 * dl)) * dh) + c.2.2.1 : Int) : K) := by
      have e : T2 * ((boxUnit : Int) : K)
          = T1 * D * ((boxUnit : Int) : K) + (c.2.2.1 : K) := by
        rw [hT2]
        field_simp
      rw [e]
      push_cast
      linarith
    have hT20 : 0 ≤ T2 := by
      have h : (0 : K) ≤ T2 * ((boxUnit : Int) : K) :=
        le_trans (by exact_mod_cast h2') t2l
      exact nonneg_of_mul_nonneg_left h hu
    have p3l := boxMul_lower _ dl T2 D h2' h0 t2l hl
    have p3h := boxMul_upper _ dh T2 D hT20 hD0 t2h hh
    refine ⟨_, rfl, ?_, ?_⟩
    · have e : (T2 * D + (c.2.2.2 : K) / ((boxUnit : Int) : K)) * ((boxUnit : Int) : K)
          = T2 * D * ((boxUnit : Int) : K) + (c.2.2.2 : K) := by
        field_simp
      rw [e]
      push_cast
      linarith
    · have e : (T2 * D + (c.2.2.2 : K) / ((boxUnit : Int) : K)) * ((boxUnit : Int) : K)
          = T2 * D * ((boxUnit : Int) : K) + (c.2.2.2 : K) := by
        field_simp
      rw [e]
      push_cast
      linarith

theorem boxLookupCubic_encloses (dl dh : Int) (D : K)
    (hl : (dl : K) ≤ D * ((boxUnit : Int) : K)) (hh : D * ((boxUnit : Int) : K) ≤ (dh : K)) :
    boxEncloses (boxLookupCubic dl dh) (fin (lookupCubic D)) := by
  have hu := boxUnit_pos (K := K)
  have hU : ((boxUnit : Int) : K) = 281474976710656 := by norm_num [boxUnit]
  unfold boxLookupCubic
  split_ifs with h0 h1 h2 h3 h4
  · trivial
  · -- the piece `[0, 1]`
    have hD : D ≤ 1.0 := by
      have : D * ((boxUnit : Int) : K) ≤ 1 * ((boxUnit : Int) : K) := by
        rw [one_mul]
        exact le_trans hh (by exact_mod_cast h1)
      have := le_of_mul_le_mul_right this hu
      norm_num
      exact this
    have e := boxCubic_encloses (boxCubicCoeffs 0) dl dh D (by decide) (not_lt.mp h0) hl hh
    have e2 : lookupCubic D
        = ((-(((boxCubicCoeffs 0).1 : K) / ((boxUnit : Int) : K)) * D
            + ((boxCubicCoeffs 0).2.1 : K) / ((boxUnit : Int) : K)) * D
          + ((boxCubicCoeffs 0).2.2.1 : K) / ((boxUnit : Int) : K)) * D
          + ((boxCubicCoeffs 0).2.2.2 : K) / ((boxUnit : Int) : K) := by
      unfold lookupCubic
      rw [if_pos hD, hU]
      simp only [boxCubicCoeffs]
      norm_num
    rw [e2]
    exact e
  · -- the piece `(1, 2.5]`
    have hD1 : ¬ D ≤ 1.0 := by
      intro hle
      have : D * ((boxUnit : Int) : K) ≤ 1 * ((boxUnit : Int) : K) :=
        mul_le_mul_of_nonneg_right (by norm_num at hle; exact hle) hu.le
      rw [one_mul] at this
      have h5 : ((boxUnit : Int) : K) < (dl : K) := by exact_mod_cast h2.1
      linarith
    have hD2 : D ≤ 2.5 := by
      have h5 : (2 : K) * (dh : K) ≤ 5 * ((boxUnit : Int) : K) := by exact_mod_cast h2.2
      have : D * ((boxUnit : Int) : K) ≤ 2.5 * ((boxUnit : Int) : K) := by
        norm_num
        linarith
      exact le_of_mul_le_mul_right this hu
    have e := boxCubic_encloses (boxCubicCoeffs 1) dl dh D (by decide) (not_lt.mp h0) hl hh
    have e2 : lookupCubic D
        = ((-(((boxCubicCoeffs 1).1 : K) / ((boxUnit : Int) : K)) * D
            + ((boxCubicCoeffs 1).2.1 : K) / ((boxUnit : Int) : K)) * D
          + ((boxCubicCoeffs 1).2.2.1 : K) / ((boxUnit : Int) : K)) * D
          + ((boxCubicCoeffs 1).2.2.2 : K) / ((boxUnit : Int) : K) := by
      unfold lookupCubic
      rw [if_neg hD1, if_pos hD2, hU]
      simp only [boxCubicCoeffs]
      norm_num
    rw [e2]
    exact e
  · -- the piece `(2.5, 4.5]`
    have hD2 : ¬ D ≤ 2.5 := by
      intro hle
      have : D * ((boxUnit : Int) : K) ≤ 2.5 * ((boxUnit : Int) : K) :=
        mul_le_mul_of_nonneg_right hle hu.le
      have h5 : (5 : K) * ((boxUnit : Int) : K) < 2 * (dl : K) := by exact_mod_cast h3.1
      norm_num at this
      linarith
    have hD1 : ¬ D ≤ 1.0 := fun hle => hD2 (le_trans hle (by norm_num))
    have hD3 : D ≤ 4.5 := by
      have h5 : (2 : K) * (dh : K) ≤ 9 * ((boxUnit : Int) : K) := by exact_mod_cast h3.2
      have : D * ((boxUnit : Int) : K) ≤ 4.5 * ((boxUnit : Int) : K) := by
        norm_num
        linarith
      exact le_of_mul_le_mul_right this hu
    have e := boxCubic_encloses (boxCubicCoeffs 2) dl dh D (by decide) (not_lt.mp h0) hl hh
    have e2 : lookupCubic D
        = ((-(((boxCubicCoeffs 2).1 : K) / ((boxUnit : Int) : K)) * D
            + ((boxCubicCoeffs 2).2.1 : K) / ((boxUnit : Int) : K)) * D
          + ((boxCubicCoeffs 2).2.2.1 : K) / ((boxUnit : Int) : K)) * D
          + ((boxCubicCoeffs 2).2.2.2 : K) / ((boxUnit : Int) : K) := by
      unfold lookupCubic
      rw [if_neg hD1, if_neg hD2, if_pos hD3, hU]
      simp only [boxCubicCoeffs]
      norm_num
    rw [e2]
    exact e
  · -- the piece above `4.5`
    have hD3 : ¬ D ≤ 4.5 := by
      intro hle
      have : D * ((boxUnit : Int) : K) ≤ 4.5 * ((boxUnit : Int) : K) :=
        mul_le_mul_of_nonneg_right hle hu.le
      have h5 : (9 : K) * ((boxUnit : Int) : K) < 2 * (dl : K) := by exact_mod_cast h4
      norm_num at this
      linarith
    have hD2 : ¬ D ≤ 2.5 := fun hle => hD3 (le_trans hle (by norm_num))
    have hD1 : ¬ D ≤ 1.0 := fun hle => hD3 (le_trans hle (by norm_num))
    have e := boxCubic_encloses (boxCubicCoeffs 3) dl dh D (by decide) (not_lt.mp h0) hl hh
    have e2 : lookupCubic D
        = ((-(((boxCubicCoeffs 3).1 : K) / ((boxUnit : Int) : K)) * D
            + ((boxCubicCoeffs 3).2.1 : K) / ((boxUnit : Int) : K)) * D
          + ((boxCubicCoeffs 3).2.2.1 : K) / ((boxUnit : Int) : K)) * D
          + ((boxCubicCoeffs 3).2.2.2 : K) / ((boxUnit : Int) : K) := by
      unfold lookupCubic
      rw [if_neg hD1, if_neg hD2, if_neg hD3, hU]
      simp only [boxCubicCoeffs]
      norm_num
    rw [e2]
    exact e
  · trivial

theorem boxAdd_encloses (a b : Box) (x y : Dbl K) (ha : boxEncloses a x)
    (hb : boxEncloses b y) : boxEncloses (boxAdd a b) (x + y) := by
  cases a with
  | negInf =>
    cases b with
    | negInf =>
      simp only [boxEncloses] at ha hb
      rw [ha, hb]
      rfl
    | box c d =>
      obtain ⟨s, hs, _, _⟩ := hb
      simp only [boxEncloses] at ha
      rw [ha, hs]
      rfl
    | top => trivial
  | box a1 a2 =>
    obtain ⟨r, hr, hr1, hr2⟩ := ha
    cases b with
    | negInf =>
      simp only [boxEncloses] at hb
      rw [hr, hb]
      rfl
    | box c d =>
      obtain ⟨s, hs, hs1, hs2⟩ := hb
      rw [hr, hs]
      refine ⟨r + s, rfl, ?_, ?_⟩
      · push_cast
        linarith
      · push_cast
        linarith
    | top => trivial
  | top => cases b <;> trivial

theorem boxSub_encloses (a b : Box) (x y : Dbl K) (ha : boxEncloses a x)
    (hb : boxEncloses b y) : boxEncloses (boxSub a b) (x - y) := by
  cases a with
  | negInf => cases b <;> trivial
  | box a1 a2 =>
    obtain ⟨r, hr, hr1, hr2⟩ := ha
    cases b with
    | negInf => trivial
    | box c d =>
      obtain ⟨s, hs, hs1, hs2⟩ := hb
      rw [hr, hs, fin_sub_fin]
      refine ⟨r - s, rfl, ?_, ?_⟩
      · push_cast
        linarith
      · push_cast
        linarith
    | top => trivial
  | top => cases b <;> trivial

theorem boxHalf_encloses (a : Box) (x : Dbl K) (ha : boxEncloses a x) :
    boxEncloses (boxHalf a) (x / fin 2) := by
  cases a with
  | negInf => trivial
  | box a1 a2 =>
    obtain ⟨r, hr, hr1, hr2⟩ := ha
    rw [hr]
    have e : (fin r : Dbl K) / fin 2 = fin (r / 2) := by
      show (if (2 : K) = 0 then Dbl.infOfSign r else fin (r / 2)) = _
      rw [if_neg (by norm_num)]
    rw [e]
    have h1 : a1 / 2 * 2 ≤ a1 := Int.ediv_mul_le a1 (by norm_num)
    have h2 : (-a2) / 2 * 2 ≤ -a2 := Int.ediv_mul_le (-a2) (by norm_num)
    have h1' : ((a1 / 2 : Int) : K) * 2 ≤ (a1 : K) := by exact_mod_cast h1
    have h2' : (((-a2) / 2 : Int) : K) * 2 ≤ -(a2 : K) := by exact_mod_cast h2
    refine ⟨r / 2, rfl, ?_, ?_⟩
    · have : r / 2 * ((boxUnit : Int) : K) = r * ((boxUnit : Int) : K) / 2 := by ring
      rw [this]
      linarith
    · have : r / 2 * ((boxUnit : Int) : K) = r * ((boxUnit : Int) : K) / 2 := by ring
      rw [this]
      push_cast
      linarith
  | top => trivial

theorem boxOfRat_encloses (d : Dbl ℚ) : boxEncloses (boxOfRat d) (Dbl.ofRat d : Dbl K) := by
  cases d with
  | nan => trivial
  | negInf => rfl
  | posInf => trivial
  | fin q =>
    have hU : ((boxUnit : Int) : K) = ((281474976710656 : ℚ) : K) := by norm_num [boxUnit]
    refine ⟨(q : K), rfl, ?_, ?_⟩
    · have h : ((⌊q * 281474976710656⌋ : Int) : ℚ) ≤ q * 281474976710656 := Int.floor_le _
      have h2 : (((⌊q * 281474976710656⌋ : Int) : ℚ) : K) ≤ ((q * 281474976710656 : ℚ) : K) :=
        Rat.cast_le.mpr h
      rw [Rat.cast_intCast, Rat.cast_mul] at h2
      rw [hU]
      exact h2
    · have h : q * 281474976710656 ≤ ((⌈q * 281474976710656⌉ : Int) : ℚ) := Int.le_ceil _
      have h2 : ((q * 281474976710656 : ℚ) : K) ≤ (((⌈q * 281474976710656⌉ : Int) : ℚ) : K) :=
        Rat.cast_le.mpr h
      rw [Rat.cast_intCast, Rat.cast_mul] at h2
      rw [hU]
      exact h2

theorem boxLogAdd_encloses (a b : Box) (x y : Dbl K) (ha : boxEncloses a x)
    (hb : boxEncloses b y) : boxEncloses (boxLogAdd a b) (logAdd x y) := by
  have hu := boxUnit_pos (K := K)
  cases a with
  | negInf =>
    simp only [boxEncloses] at ha
    rw [ha, logAdd_negInf_left]
    cases b <;> exact hb
  | top =>
    cases b with
    | negInf =>
      simp only [boxEncloses] at hb
      rw [hb, logAdd_negInf_right]
      exact ha
    | box c d => trivial
    | top => trivial
  | box al ah =>
    cases b with
    | negInf =>
      simp only [boxEncloses] at hb
      rw [hb, logAdd_negInf_right]
      exact ha
    | top => trivial
    | box bl bh =>
      obtain ⟨r, hr, hr1, hr2⟩ := ha
      obtain ⟨s, hs, hs1, hs2⟩ := hb
      rw [hr, hs]
      have hdl : ((max 0 (max (al - bh) (bl - ah)) : Int) : K)
          ≤ |r - s| * ((boxUnit : Int) : K) := by
        have h0 : (0 : K) ≤ |r - s| * ((boxUnit : Int) : K) := mul_nonneg (abs_nonneg _) hu.le
        have h1 : (r - s) * ((boxUnit : Int) : K) ≤ |r - s| * ((boxUnit : Int) : K) :=
          mul_le_mul_of_nonneg_right (le_abs_self _) hu.le
        have h2 : (s - r) * ((boxUnit : Int) : K) ≤ |r - s| * ((boxUnit : Int) : K) := by
          rw [abs_sub_comm]
          exact mul_le_mul_of_nonneg_right (le_abs_self _) hu.le
        push_cast
        refine max_le h0 (max_le ?_ ?_)
        · linarith
        · linarith
      have hdh : |r - s| * ((boxUnit : Int) : K)
          ≤ ((max (ah - bl) (bh - al) : Int) : K) := by
        push_cast
        rcases abs_cases (r - s) with ⟨h, _⟩ | ⟨h, _⟩
        · rw [h]
          refine le_trans ?_ (le_max_left _ _)
          linarith
        · rw [h]
          refine le_trans ?_ (le_max_right _ _)
          linarith
      unfold boxLogAdd
      simp only
      split_ifs with h1 h2
      · -- far apart
        have h1' : (15 : K) * ((boxUnit : Int) : K)
            ≤ 2 * ((max 0 (max (al - bh) (bl - ah)) : Int) : K) := by exact_mod_cast h1
        have hfar : (7.5 : K) ≤ |r - s| := by
          have : (7.5 : K) * ((boxUnit : Int) : K) ≤ |r - s| * ((boxUnit : Int) : K) := by
            norm_num
            linarith
          exact le_of_mul_le_mul_right this hu
        rw [logAdd_fin_of_far r s hfar]
        refine ⟨max r s, rfl, ?_, ?_⟩
        · push_cast
          rw [max_mul_of_nonneg _ _ hu.le]
          exact max_le_max hr1 hs1
        · push_cast
          rw [max_mul_of_nonneg _ _ hu.le]
          exact max_le_max hr2 hs2
      · -- near
        have h2' : (2 : K) * ((max (ah - bl) (bh - al) : Int) : K)
            < 15 * ((boxUnit : Int) : K) := by exact_mod_cast h2
        have hnear : |r - s| < (7.5 : K) := by
          have : |r - s| * ((boxUnit : Int) : K) < 7.5 * ((boxUnit : Int) : K) := by
            norm_num
            linarith
          exact lt_of_mul_lt_mul_right this hu.le
        rw [logAdd_fin_of_near r s hnear]
        have hmin : boxEncloses (Box.box (min al bl) (min ah bh)) (fin (min r s) : Dbl K) := by
          refine ⟨min r s, rfl, ?_, ?_⟩
          · push_cast
            rw [min_mul_of_nonneg _ _ hu.le]
            exact min_le_min hr1 hs1
          · push_cast
            rw [min_mul_of_nonneg _ _ hu.le]
            exact min_le_min hr2 hs2
        have := boxAdd_encloses _ _ _ _ hmin (boxLookupCubic_encloses _ _ |r - s| hdl hdh)
        exact this
      · trivial

/-! ### The matrices -/

theorem forall₂_set {α β : Type} (R : α → β → Prop) (l1 : List α) (l2 : List β)
    (h : List.Forall₂ R l1 l2) (i : Nat) (a : α) (b : β) (hab : R a b) :
    List.Forall₂ R (l1.set i a) (l2.set i b) := by
  induction h generalizing i with
  | nil => exact List.Forall₂.nil
  | cons hxy _ ih =>
    cases i with
    | zero => exact List.Forall₂.cons hab (by assumption)
    | succ i => exact List.Forall₂.cons hxy (ih i)

theorem forall₂_getD {α β : Type} (R : α → β → Prop) (l1 : List α) (l2 : List β)
    (h : List.Forall₂ R l1 l2) (i : Nat) (a : α) (b : β) (hab : R a b) :
    R (l1.getD i a) (l2.getD i b) := by
  induction h generalizing i with
  | nil => exact hab
  | cons hxy _ ih =>
    cases i with
    | zero => exact hxy
    | succ i => exact ih i

theorem foldl_rel {α β γ : Type} (R : α → β → Prop) (f : α → γ → α) (g : β → γ → β)
    (h : ∀ a b c, R a b → R (f a c) (g b c)) (l : List γ) (a : α) (b : β) (hab : R a b) :
    R (l.foldl f a) (l.foldl g b) := by
  induction l generalizing a b with
  | nil => exact hab
  | cons c l ih => exact ih _ _ (h a b c hab)

theorem boxMatrix_getD (bs : List Box) (vs : List (Dbl K))
    (h : List.Forall₂ boxEncloses bs vs) (i : Nat) :
    boxEncloses (bs.getD i Box.top) (vs.getD i nan) :=
  forall₂_getD _ _ _ h i _ _ trivial

theorem boxMatrix_ofRat (l : List (Dbl ℚ)) :
    List.Forall₂ boxEncloses (l.map boxOfRat) (l.map Dbl.ofRat : List (Dbl K)) := by
  induction l with
  | nil => exact List.Forall₂.nil
  | cons d l ih => exact List.Forall₂.cons (boxOfRat_encloses d) ih

theorem boxTransitionProb_encloses (f t : Nat) :
    boxEncloses (boxTransitionProb f t) (transitionProb (K := K) f t) := by
  rw [transitionProb_ofRat (K := K)]
  exact boxOfRat_encloses _

theorem boxEmissionProb_encloses (x y lX lY : Int) (sX sY : List Nat) (state : Nat) :
    boxEncloses (boxEmissionProb x y lX lY sX sY state)
      (emissionProb (K := K) x y lX lY sX sY state) := by
  rw [emissionProb_ofRat (K := K)]
  exact boxOfRat_encloses _

theorem boxForwardCell_encloses (bs : List Box) (vs : List (Dbl K))
    (h : List.Forall₂ boxEncloses bs vs) (x y lX lY : Int) (sX sY : List Nat) :
    List.Forall₂ boxEncloses (boxForwardCell bs x y lX lY sX sY)
      (forwardCell vs x y lX lY sX sY) := by
  unfold boxForwardCell forwardCell
  cases getCell x y lX with
  | none => exact h
  | some cell =>
    simp only
    refine foldl_rel _ _ _ ?_ _ _ _ h
    intro bs vs t h
    cases getCell (x - getTransitionOffSetX t) (y - getTransitionOffSetY t) lX with
    | none => exact h
    | some pCell =>
      simp only
      refine foldl_rel _ _ _ ?_ _ _ _ h
      intro bs vs f h
      unfold logAddAndAssign
      exact forall₂_set _ _ _ h _ _ _
        (boxLogAdd_encloses _ _ _ _ (boxMatrix_getD _ _ h _)
          (boxAdd_encloses _ _ _ _
            (boxAdd_encloses _ _ _ _ (boxMatrix_getD _ _ h _) (boxTransitionProb_encloses f t))
            (boxEmissionProb_encloses x y lX lY sX sY t)))

theorem boxBackwardCell_encloses (bs : List Box) (vs : List (Dbl K))
    (h : List.Forall₂ boxEncloses bs vs) (x y lX lY : Int) (sX sY : List Nat) :
    List.Forall₂ boxEncloses (boxBackwardCell bs x y lX lY sX sY)
      (backwardCell vs x y lX lY sX sY) := by
  unfold boxBackwardCell backwardCell
  cases getCell x y lX with
  | none => exact h
  | some cell =>
    simp only
    refine foldl_rel _ _ _ ?_ _ _ _ h
    intro bs vs t h
    cases getCell (x - getTransitionOffSetX t) (y - getTransitionOffSetY t) lX with
    | none => exact h
    | some pCell =>
      simp only
      refine foldl_rel _ _ _ ?_ _ _ _ h
      intro bs vs f h
      unfold logAddAndAssign
      exact forall₂_set _ _ _ h _ _ _
        (boxLogAdd_encloses _ _ _ _ (boxMatrix_getD _ _ h _)
          (boxAdd_encloses _ _ _ _
            (boxAdd_encloses _ _ _ _ (boxMatrix_getD _ _ h _) (boxTransitionProb_encloses f t))
            (boxEmissionProb_encloses x y lX lY sX sY t)))

theorem boxForwardMatrix_encloses (lX lY : Int) (sX sY : List Nat) :
    List.Forall₂ boxEncloses (boxForwardMatrix lX lY sX sY)
      (forwardMatrix (K := K) lX lY sX sY) := by
  unfold boxForwardMatrix forwardMatrix boxInitialiseForwardMatrix
  rw [initialiseForwardMatrix_ofRat (K := K)]
  refine foldl_rel _ _ _ ?_ _ _ _ (boxMatrix_ofRat _)
  intro bs vs x h
  refine foldl_rel _ _ _ ?_ _ _ _ h
  intro bs vs y h
  exact boxForwardCell_encloses bs vs h x y lX lY sX sY

theorem boxBackwardMatrix_encloses (lX lY : Int) (sX sY : List Nat) :
    List.Forall₂ boxEncloses (boxBackwardMatrix lX lY sX sY)
      (backwardMatrix (K := K) lX lY sX sY) := by
  unfold boxBackwardMatrix backwardMatrix boxInitialiseBackwardMatrix
  rw [initialiseBackwardMatrix_ofRat (K := K)]
  refine foldl_rel _ _ _ ?_ _ _ _ (boxMatrix_ofRat _)
  intro bs vs x h
  refine foldl_rel _ _ _ ?_ _ _ _ h
  intro bs vs y h
  exact boxBackwardCell_encloses bs vs h x y lX lY sX sY

theorem boxTotalForwardProb_encloses (bs : List Box) (vs : List (Dbl K))
    (h : List.Forall₂ boxEncloses bs vs) (lX lY : Int) :
    boxEncloses (boxTotalForwardProb bs lX lY) (totalForwardProb vs lX lY) := by
  unfold boxTotalForwardProb totalForwardProb
  cases getCell (lX - 1) (lY - 1) lX with
  | none => trivial
  | some cell =>
    simp only
    refine foldl_rel _ _ _ ?_ _ _ _ ?_
    · intro b v i hbv
      unfold logAddAndAssign
      refine boxLogAdd_encloses _ _ _ _ hbv (boxAdd_encloses _ _ _ _ ?_ (boxMatrix_getD _ _ h _))
      rw [endStateProbs_ofRat (K := K)]
      exact boxOfRat_encloses _
    · refine boxAdd_encloses _ _ _ _ ?_ (boxMatrix_getD _ _ h _)
      rw [endStateProbs_ofRat (K := K)]
      exact boxOfRat_encloses _

theorem boxTotalBackwardProb_encloses (bs : List Box) (vs : List (Dbl K))
    (h : List.Forall₂ boxEncloses bs vs) (lX : Int) :
    boxEncloses (boxTotalBackwardProb bs lX) (totalBackwardProb vs lX) := by
  unfold boxTotalBackwardProb totalBackwardProb
  cases getCell 0 0 lX with
  | none => trivial
  | some cell =>
    simp only
    refine foldl_rel _ _ _ ?_ _ _ _ ?_
    · intro b v i hbv
      unfold logAddAndAssign
      refine boxLogAdd_encloses _ _ _ _ hbv (boxAdd_encloses _ _ _ _ ?_ (boxMatrix_getD _ _ h _))
      rw [startStateProbs_ofRat (K := K)]
      exact boxOfRat_encloses _
    · refine boxAdd_encloses _ _ _ _ ?_ (boxMatrix_getD _ _ h _)
      rw [startStateProbs_ofRat (K := K)]
      exact boxOfRat_encloses _

theorem boxPosteriorMatchLog_encloses (bF bB : List Box) (fM bM : List (Dbl K))
    (hF : List.Forall₂ boxEncloses bF fM) (hB : List.Forall₂ boxEncloses bB bM)
    (x y lX lY : Int) (sX sY : List Nat) (bt : Box) (tp : Dbl K) (ht : boxEncloses bt tp) :
    boxEncloses (boxPosteriorMatchLog bF bB x y lX lY sX sY bt)
      (posteriorMatchLog fM bM x y lX lY sX sY tp) := by
  unfold boxPosteriorMatchLog posteriorMatchLog
  simp only
  cases getCell (x - 1) (y - 1) lX with
  | none => trivial
  | some pCell =>
    cases getCell x y lX with
    | none => trivial
    | some cell =>
      simp only
      refine boxSub_encloses _ _ _ _ ?_ ht
      refine foldl_rel _ _ _ ?_ _ _ _ ?_
      · intro b v i hbv
        unfold logAddAndAssign
        exact boxLogAdd_encloses _ _ _ _ hbv
          (boxAdd_encloses _ _ _ _
            (boxAdd_encloses _ _ _ _
              (boxAdd_encloses _ _ _ _ (boxMatrix_getD _ _ hF _)
                (boxTransitionProb_encloses _ _))
              (boxEmissionProb_encloses x y lX lY sX sY 0))
            (boxMatrix_getD _ _ hB _))
      · exact boxAdd_encloses _ _ _ _
          (boxAdd_encloses _ _ _ _
            (boxAdd_encloses _ _ _ _ (boxMatrix_getD _ _ hF _)
              (boxTransitionProb_encloses _ _))
            (boxEmissionProb_encloses x y lX lY sX sY 0))
          (boxMatrix_getD _ _ hB _)

theorem boxAlignmentPosteriorLog_encloses (sX sY : List Char) (x y : Int) :
    boxEncloses (boxAlignmentPosteriorLog sX sY x y)
      (alignmentPosteriorLog (K := K) sX sY x y) := by
  unfold boxAlignmentPosteriorLog alignmentPosteriorLog
  simp only
  exact boxPosteriorMatchLog_encloses _ _ _ _ (boxForwardMatrix_encloses _ _ _ _)
    (boxBackwardMatrix_encloses _ _ _ _) _ _ _ _ _ _ _ _
    (boxHalf_encloses _ _ (boxAdd_encloses _ _ _ _
      (boxTotalForwardProb_encloses _ _ (boxForwardMatrix_encloses _ _ _ _) _ _)
      (boxTotalBackwardProb_encloses _ _ (boxBackwardMatrix_encloses _ _ _ _) _)))

theorem boxWithin_encloses (lo hi : Int) (b : Box) (v : Dbl K)
    (hw : boxWithin lo hi b = true) (h : boxEncloses b v) :
    ∃ r : K, v = fin r ∧ (lo : K) ≤ r * ((boxUnit : Int) : K)
      ∧ r * ((boxUnit : Int) : K) ≤ (hi : K) := by
  cases b with
  | negInf => simp [boxWithin] at hw
  | top => simp [boxWithin] at hw
  | box a c =>
    simp only [boxWithin, Bool.and_eq_true, decide_eq_true_eq] at hw
    obtain ⟨r, hr, h1, h2⟩ := h
    have ha : (lo : K) ≤ (a : K) := by exact_mod_cast hw.1
    have hc : (c : K) ≤ (hi : K) := by exact_mod_cast hw.2
    exact ⟨r, hr, le_trans ha h1, le_trans h2 hc⟩

theorem alignmentPosteriorLog_of_box (sX sY : List Char) (x y : Int) (lo hi : Int)
    (h : boxWithin lo hi (boxAlignmentPosteriorLog sX sY x y) = true) :
    ∃ q : K, alignmentPosteriorLog (K := K) sX sY x y = fin q
      ∧ (lo : K) ≤ q * ((boxUnit : Int) : K) ∧ q * ((boxUnit : Int) : K) ≤ (hi : K) :=
  boxWithin_encloses lo hi _ _ h (boxAlignmentPosteriorLog_encloses sX sY x y)

/-! ### The two sides of the threshold `0.01` -/

theorem exp_lt_threshold (q : ℝ) (h : q ≤ -46052 / 10000) : Real.exp q < 0.01 := by
  have h1 : Real.exp q ≤ Real.exp (-(46052 / 10000)) := Real.exp_le_exp.mpr (by linarith)
  have h2 : (1.584895 : ℝ) ≤ Real.exp (46052 / 100000) := by
    have := expSeriesLowNum_le_exp 460520
    rw [show ((460520 : ℕ) : ℝ) / 10 ^ 6 = 46052 / 100000 by norm_num] at this
    refine le_trans ?_ this
    rw [le_div_iff₀ (by positivity)]
    have h : 1584895 * (362880 * 10 ^ 54) ≤ 1000000 * expSeriesLowNum 460520 := by decide
    have hR : (1584895 : ℝ) * (362880 * 10 ^ 54) ≤ 1000000 * (expSeriesLowNum 460520 : ℝ) := by
      exact_mod_cast h
    norm_num at hR ⊢
    linarith
  have h3 : Real.exp (46052 / 10000) = Real.exp (46052 / 100000) ^ 10 := by
    rw [← Real.exp_nat_mul]; congr 1; norm_num
  have h4 : (1.584895 : ℝ) ^ 10 ≤ Real.exp (46052 / 100000) ^ 10 :=
    pow_le_pow_left₀ (by norm_num) h2 10
  have h5 : (100 : ℝ) < Real.exp (46052 / 10000) := by
    rw [h3]; refine lt_of_lt_of_le ?_ h4; norm_num
  have h6 : Real.exp (-(46052 / 10000)) < 0.01 := by
    rw [Real.exp_neg, inv_lt_comm₀ (Real.exp_pos _) (by norm_num)]
    refine lt_of_le_of_lt ?_ h5; norm_num
  linarith

theorem threshold_le_exp (q : ℝ) (h : -46050 / 10000 ≤ q) : 0.01 ≤ Real.exp q := by
  have h1 : Real.exp (-(46050 / 10000)) ≤ Real.exp q := Real.exp_le_exp.mpr (by linarith)
  have h2 : Real.exp (4605 / 10000) ≤ (1.58487 : ℝ) := by
    have := exp_le_expSeriesUppNum 460500 (by norm_num)
    rw [show ((460500 : ℕ) : ℝ) / 10 ^ 6 = 4605 / 10000 by norm_num] at this
    refine le_trans this ?_
    rw [div_le_iff₀ (by positivity)]
    have h : 100000 * expSeriesUppNum 460500 ≤ 158487 * (362880 * 10 ^ 62) := by decide
    have hR : (100000 : ℝ) * (expSeriesUppNum 460500 : ℝ) ≤ 158487 * (362880 * 10 ^ 62) := by
      exact_mod_cast h
    norm_num at hR ⊢
    linarith
  have h3 : Real.exp (46050 / 10000) = Real.exp (4605 / 10000) ^ 10 := by
    rw [← Real.exp_nat_mul]; congr 1; norm_num
  have h4 : Real.exp (4605 / 10000) ^ 10 ≤ (1.58487 : ℝ) ^ 10 :=
    pow_le_pow_left₀ (Real.exp_pos _).le h2 10
  have h5 : Real.exp (46050 / 10000) ≤ (100 : ℝ) := by
    rw [h3]; refine le_trans h4 ?_; norm_num
  have h6 : (0.01 : ℝ) ≤ Real.exp (-(46050 / 10000)) := by
    rw [Real.exp_neg, le_inv_comm₀ (by norm_num) (Real.exp_pos _)]
    refine le_trans h5 ?_; norm_num
  linarith

/-! ### The run on `X = "A"`, `Y = "GNCCGN"` and the run on `Y`, `X` -/

theorem boxPosteriorLog_A_GNCCGN :
    boxWithin (-1296300000000000) (-1296250000000000)
      (boxAlignmentPosteriorLog ['A'] ['G', 'N', 'C', 'C', 'G', 'N'] 1 2) = true := by
  decide!

theorem boxPosteriorLog_GNCCGN_A :
    boxWithin (-1296190000000000) (-1296180000000000)
      (boxAlignmentPosteriorLog ['G', 'N', 'C', 'C', 'G', 'N'] ['A'] 2 1) = true := by
  decide!

theorem posteriorLog_A_GNCCGN :
    ∃ q : ℝ, alignmentPosteriorLog (K := ℝ) ['A'] ['G', 'N', 'C', 'C', 'G', 'N'] 1 2 = fin q
      ∧ q ≤ -46052 / 10000 := by
  obtain ⟨q, hq, _, h2⟩ := alignmentPosteriorLog_of_box (K := ℝ) ['A']
    ['G', 'N', 'C', 'C', 'G', 'N'] 1 2 (-1296300000000000) (-1296250000000000)
    boxPosteriorLog_A_GNCCGN
  refine ⟨q, hq, ?_⟩
  norm_num [boxUnit] at h2
  linarith

theorem posteriorLog_GNCCGN_A :
    ∃ q : ℝ, alignmentPosteriorLog (K := ℝ) ['G', 'N', 'C', 'C', 'G', 'N'] ['A'] 2 1 = fin q
      ∧ -46050 / 10000 ≤ q ∧ q ≤ 0 := by
  obtain ⟨q, hq, h1, h2⟩ := alignmentPosteriorLog_of_box (K := ℝ)
    ['G', 'N', 'C', 'C', 'G', 'N'] ['A'] 2 1 (-1296190000000000) (-1296180000000000)
    boxPosteriorLog_GNCCGN_A
  refine ⟨q, hq, ?_, ?_⟩
  · norm_num [boxUnit] at h1
    linarith
  · norm_num [boxUnit] at h2
    linarith

theorem specEmit_coords [FloorRing K] (P : Nat) (p : Dbl K) (x y : Int) (t : AlignedPair)
    (h : specEmit P p x y = some t) : t.x = x - 1 ∧ t.y = y - 1 := by
  unfold specEmit at h
  cases p with
  | nan => simp at h
  | negInf => simp at h
  | posInf =>
    simp only [Option.some.injEq] at h
    rw [← h]
    exact ⟨rfl, rfl⟩
  | fin v =>
    simp only at h
    split_ifs at h
    simp only [Option.some.injEq] at h
    rw [← h]
    exact ⟨rfl, rfl⟩

theorem mem_getAlignedPairs_of_exp (sX sY : List Char) (x y : Int)
    (hx1 : 1 ≤ x) (hx2 : x < (sX.length : Int) + 1) (hy1 : 1 ≤ y)
    (hy2 : y < (sY.length : Int) + 1) (q : ℝ)
    (hq : alignmentPosteriorLog (K := ℝ) sX sY x y = fin q) (h0 : 0.01 ≤ Real.exp q) :
    ∃ s : Int, (⟨s, x - 1, y - 1⟩ : AlignedPair)
      ∈ getAlignedPairs_allocated (K := ℝ) Real.exp 1000000 sX sY := by
  refine ⟨⌊min (Real.exp q) 1 * ((1000000 : Nat) : ℝ)⌋, ?_⟩
  rw [mem_getAlignedPairs_iff Real.exp 1000000 (by norm_num)]
  refine ⟨x, y, hx1, hx2, hy1, hy2, ?_⟩
  rw [hq]
  show specEmit 1000000 (fin (Real.exp q)) x y = _
  unfold specEmit
  simp only
  rw [if_pos h0]

theorem not_mem_getAlignedPairs_of_exp (sX sY : List Char) (x y : Int) (q : ℝ)
    (hq : alignmentPosteriorLog (K := ℝ) sX sY x y = fin q) (h0 : Real.exp q < 0.01)
    (s : Int) :
    (⟨s, x - 1, y - 1⟩ : AlignedPair)
      ∉ getAlignedPairs_allocated (K := ℝ) Real.exp 1000000 sX sY := by
  rw [mem_getAlignedPairs_iff Real.exp 1000000 (by norm_num)]
  rintro ⟨x', y', _, _, _, _, h⟩
  obtain ⟨hx, hy⟩ := specEmit_coords _ _ _ _ _ h
  simp only at hx hy
  have hx' : x' = x := by omega
  have hy' : y' = y := by omega
  rw [hx', hy', hq] at h
  have h' : specEmit 1000000 (fin (Real.exp q)) x y = some ⟨s, x - 1, y - 1⟩ := h
  unfold specEmit at h'
  simp only at h'
  rw [if_neg (not_le.mpr h0)] at h'
  simp at h'

theorem getAlignedPairs_A_GNCCGN_coords :
    (∃ s : Int, (⟨s, 1, 0⟩ : AlignedPair)
        ∈ getAlignedPairs_allocated (K := ℝ) Real.exp 1000000
          ['G', 'N', 'C', 'C', 'G', 'N'] ['A'])
    ∧ ∀ s : Int, (⟨s, 0, 1⟩ : AlignedPair)
        ∉ getAlignedPairs_allocated (K := ℝ) Real.exp 1000000
          ['A'] ['G', 'N', 'C', 'C', 'G', 'N'] := by
  obtain ⟨q1, hq1, u1⟩ := posteriorLog_A_GNCCGN
  obtain ⟨q2, hq2, l2, _⟩ := posteriorLog_GNCCGN_A
  constructor
  · exact mem_getAlignedPairs_of_exp ['G', 'N', 'C', 'C', 'G', 'N'] ['A'] 2 1 (by decide)
      (by decide) (by decide) (by decide) q2 hq2 (threshold_le_exp q2 l2)
  · intro s
    exact not_mem_getAlignedPairs_of_exp ['A'] ['G', 'N', 'C', 'C', 'G', 'N'] 1 2 q1 hq1
      (exp_lt_threshold q1 u1) s

/-! ## The run with the two sequences in exchanged roles -/

theorem getD_set_eq {α : Type} (l : List α) (i : Nat) (a d : α) (h : i < l.length) :
    (l.set i a).getD i d = a := by
  rw [List.getD_eq_getElem?_getD, List.getElem?_set_self h]
  rfl

theorem getD_set_ne {α : Type} (l : List α) (i j : Nat) (a d : α) (h : i ≠ j) :
    (l.set i a).getD j d = l.getD j d := by
  rw [List.getD_eq_getElem?_getD, List.getElem?_set_ne h, List.getD_eq_getElem?_getD]

theorem foldl_rel_mem {α β γ : Type} (R : α → β → Prop) (f : α → γ → α) (g : β → γ → β)
    (l : List γ) (h : ∀ a b c, c ∈ l → R a b → R (f a c) (g b c)) (a : α) (b : β)
    (hab : R a b) : R (l.foldl f a) (l.foldl g b) := by
  induction l generalizing a b with
  | nil => exact hab
  | cons c l ih =>
    exact ih (fun a b c hc => h a b c (List.mem_cons_of_mem _ hc)) _ _
      (h a b c (List.mem_cons_self _ _) hab)

theorem cellIndex_lt (nX nY x y s : Nat) (hx : x < nX) (hy : y < nY) (hs : s < 5) :
    (y * nX + x) * 5 + s < nX * nY * 5 := by
  have h1 : (y + 1) * nX ≤ nY * nX := Nat.mul_le_mul_right nX hy
  have h2 : (y + 1) * nX = y * nX + nX := by ring
  have h3 : nY * nX = nX * nY := Nat.mul_comm _ _
  generalize y * nX = p at h1 h2 ⊢
  generalize nX * nY = q at h3 ⊢
  omega

theorem cellIndex_inj (n x y s x2 y2 s2 : Nat) (hx : x < n) (hx2 : x2 < n) (hs : s < 5)
    (hs2 : s2 < 5) (h : (y * n + x) * 5 + s = (y2 * n + x2) * 5 + s2) :
    x = x2 ∧ y = y2 ∧ s = s2 := by
  have hy : y = y2 := by
    rcases Nat.lt_trichotomy y y2 with hlt | heq | hgt
    · exfalso
      have h1 : (y + 1) * n ≤ y2 * n := Nat.mul_le_mul_right n hlt
      have h2 : (y + 1) * n = y * n + n := by ring
      generalize y * n = p at h h1 h2
      generalize y2 * n = p2 at h h1
      omega
    · exact heq
    · exfalso
      have h1 : (y2 + 1) * n ≤ y * n := Nat.mul_le_mul_right n hgt
      have h2 : (y2 + 1) * n = y2 * n + n := by ring
      generalize y2 * n = p at h h1 h2
      generalize y * n = p2 at h h1
      omega
  subst hy
  generalize y * n = p at h
  omega

theorem swapState_lt (s : Nat) (hs : s < 5) : swapState s < 5 := by
  interval_cases s <;> decide

theorem swapState_swapState (s : Nat) : swapState (swapState s) = s := by
  by_cases h : s < 5
  · interval_cases s <;> rfl
  · obtain ⟨k, rfl⟩ : ∃ k, s = k + 5 := ⟨s - 5, by omega⟩
    rfl

theorem swapState_inj (s t : Nat) (h : swapState s = swapState t) : s = t := by
  rw [← swapState_swapState s, h, swapState_swapState]

theorem mirrorStates_eq : mirrorStates = (List.range cellNo).map swapState := by
  decide

theorem mirrorStates_tail_eq : mirrorStates.tail = (List.range' 1 (cellNo - 1)).map swapState := by
  decide

theorem transposed_symm_index {L : Type} (nX nY : Nat) (m m' : List (Dbl L))
    (h : Transposed nX nY m m') (x y s : Nat) (hx : x < nX) (hy : y < nY) (hs : s < 5) :
    m'.getD ((y * nX + x) * 5 + swapState s) nan = m.getD ((x * nY + y) * 5 + s) nan := by
  have := h.2.2 x y (swapState s) hx hy (swapState_lt s hs)
  rw [swapState_swapState] at this
  exact this

theorem transposed_set {L : Type} (nX nY : Nat) (m m' : List (Dbl L))
    (h : Transposed nX nY m m')
    (x y s : Nat) (hx : x < nX) (hy : y < nY) (hs : s < 5) (v : Dbl L) :
    Transposed nX nY (m.set ((x * nY + y) * 5 + s) v)
      (m'.set ((y * nX + x) * 5 + swapState s) v) := by
  obtain ⟨hl, hl', hv⟩ := h
  refine ⟨by rw [List.length_set]; exact hl, by rw [List.length_set]; exact hl', ?_⟩
  intro x2 y2 s2 hx2 hy2 hs2
  have hss := swapState_lt s hs
  have hss2 := swapState_lt s2 hs2
  by_cases hc : x2 = x ∧ y2 = y ∧ s2 = swapState s
  · obtain ⟨rfl, rfl, rfl⟩ := hc
    rw [swapState_swapState, getD_set_eq, getD_set_eq]
    · rw [hl, Nat.mul_comm nX nY]
      exact cellIndex_lt nY nX y2 x2 s hy2 hx2 hs
    · rw [hl']
      exact cellIndex_lt nX nY x2 y2 _ hx2 hy2 hss
  · rw [getD_set_ne, getD_set_ne]
    · exact hv x2 y2 s2 hx2 hy2 hs2
    · intro he
      obtain ⟨e1, e2, e3⟩ := cellIndex_inj nY y x s y2 x2 (swapState s2) hy hy2 hs hss2 he
      apply hc
      refine ⟨e2.symm, e1.symm, ?_⟩
      rw [e3, swapState_swapState]
    · intro he
      obtain ⟨e1, e2, e3⟩ := cellIndex_inj nX x y (swapState s) x2 y2 s2 hx hx2 hss hs2 he
      exact hc ⟨e1.symm, e2.symm, e3.symm⟩

theorem getCell_nat (x y n : Nat) :
    getCell (x : Int) (y : Int) (n : Int) = some ((y * n + x) * 5) := by
  unfold getCell cellNo
  rw [if_pos ⟨Int.ofNat_zero_le x, Int.ofNat_zero_le y⟩]
  congr 1

theorem getCell_sub (x y n dx dy : Nat) :
    getCell ((x : Int) - (dx : Int)) ((y : Int) - (dy : Int)) (n : Int)
      = if dx ≤ x ∧ dy ≤ y then some (((y - dy) * n + (x - dx)) * 5) else none := by
  by_cases h : dx ≤ x ∧ dy ≤ y
  · rw [if_pos h]
    have e1 : (x : Int) - (dx : Int) = ((x - dx : Nat) : Int) := by omega
    have e2 : (y : Int) - (dy : Int) = ((y - dy : Nat) : Int) := by omega
    rw [e1, e2, getCell_nat]
  · rw [if_neg h]
    unfold getCell
    rw [if_neg]
    omega

theorem transitionOffSet_swap (t : Nat) (ht : t < 5) :
    ∃ dx dy : Nat, getTransitionOffSetX t = (dx : Int) ∧ getTransitionOffSetY t = (dy : Int)
      ∧ getTransitionOffSetX (swapState t) = (dy : Int)
      ∧ getTransitionOffSetY (swapState t) = (dx : Int) := by
  interval_cases t
  · exact ⟨1, 1, rfl, rfl, rfl, rfl⟩
  · exact ⟨1, 0, rfl, rfl, rfl, rfl⟩
  · exact ⟨0, 1, rfl, rfl, rfl, rfl⟩
  · exact ⟨1, 0, rfl, rfl, rfl, rfl⟩
  · exact ⟨0, 1, rfl, rfl, rfl, rfl⟩

theorem transitionProb_swap (f t : Nat) (hf : f < 5) (ht : t < 5) :
    transitionProb (K := K) (swapState f) (swapState t) = transitionProb f t := by
  interval_cases f <;> interval_cases t <;> rfl

theorem startStateProbs_swap (s : Nat) (hs : s < 5) :
    startStateProbs (K := K) (swapState s) = startStateProbs s := by
  interval_cases s <;> rfl

theorem endStateProbs_swap (s : Nat) (hs : s < 5) :
    endStateProbs (K := K) (swapState s) = endStateProbs s := by
  interval_cases s <;> rfl

theorem emissionProb_swap (x y lX lY lX2 lY2 : Int) (sX sY : List Nat) (t : Nat) (ht : t < 5)
    (hsX : ∀ c ∈ sX, c ≤ 4) (hsY : ∀ c ∈ sY, c ≤ 4) :
    emissionProb (K := K) x y lX lY sX sY (swapState t)
      = emissionProb y x lY2 lX2 sY sX t := by
  interval_cases t
  · exact matchM_symm _ _ (readSeq_le sX hsX _) (readSeq_le sY hsY _)
  · rfl
  · rfl
  · rfl
  · rfl

theorem forwardCell_transposed (nX nY : Nat) (m m' : List (Dbl K))
    (h : Transposed nX nY m m') (x y : Nat) (hx : x < nX) (hy : y < nY)
    (sX sY : List Nat) (hsX : ∀ c ∈ sX, c ≤ 4) (hsY : ∀ c ∈ sY, c ≤ 4) :
    Transposed nX nY (forwardCell m y x nY nX sY sX)
      (forwardCellMirror m' x y nX nY sX sY) := by
  unfold forwardCell forwardCellMirror
  rw [getCell_nat, getCell_nat, mirrorStates_eq]
  simp only
  rw [List.foldl_map]
  refine foldl_rel_mem (Transposed nX nY) _ _ _ ?_ _ _ h
  intro a b t ht hab
  have ht5 : t < 5 := List.mem_range.mp ht
  obtain ⟨dx, dy, e1, e2, e3, e4⟩ := transitionOffSet_swap t ht5
  simp only [e1, e2, e3, e4]
  rw [getCell_sub, getCell_sub]
  by_cases hc : dx ≤ y ∧ dy ≤ x
  · rw [if_pos hc, if_pos ⟨hc.2, hc.1⟩]
    simp only
    rw [List.foldl_map]
    refine foldl_rel_mem (Transposed nX nY) _ _ _ ?_ _ _ hab
    intro a b f hf hab
    have hf5 : f < 5 := List.mem_range.mp hf
    have v1 := transposed_symm_index nX nY a b hab x y t hx hy ht5
    have v2 := transposed_symm_index nX nY a b hab (x - dy) (y - dx) f (by omega) (by omega) hf5
    rw [v1, v2, transitionProb_swap f t hf5 ht5,
      emissionProb_swap (K := K) x y nX nY nX nY sX sY t ht5 hsX hsY]
    exact transposed_set nX nY a b hab x y t hx hy ht5 _
  · rw [if_neg hc, if_neg (fun h => hc ⟨h.2, h.1⟩)]
    exact hab

theorem backwardCell_transposed (nX nY : Nat) (m m' : List (Dbl K))
    (h : Transposed nX nY m m') (x y : Nat) (hx : x < nX) (hy : y < nY)
    (sX sY : List Nat) (hsX : ∀ c ∈ sX, c ≤ 4) (hsY : ∀ c ∈ sY, c ≤ 4) :
    Transposed nX nY (backwardCell m y x nY nX sY sX)
      (backwardCellMirror m' x y nX nY sX sY) := by
  unfold backwardCell backwardCellMirror
  rw [getCell_nat, getCell_nat, mirrorStates_eq]
  simp only
  rw [List.foldl_map]
  refine foldl_rel_mem (Transposed nX nY) _ _ _ ?_ _ _ h
  intro a b t ht hab
  have ht5 : t < 5 := List.mem_range.mp ht
  obtain ⟨dx, dy, e1, e2, e3, e4⟩ := transitionOffSet_swap t ht5
  simp only [e1, e2, e3, e4]
  rw [getCell_sub, getCell_sub]
  by_cases hc : dx ≤ y ∧ dy ≤ x
  · rw [if_pos hc, if_pos ⟨hc.2, hc.1⟩]
    simp only
    rw [List.foldl_map]
    refine foldl_rel_mem (Transposed nX nY) _ _ _ ?_ _ _ hab
    intro a b f hf hab
    have hf5 : f < 5 := List.mem_range.mp hf
    have v1 := transposed_symm_index nX nY a b hab x y t hx hy ht5
    have v2 := transposed_symm_index nX nY a b hab (x - dy) (y - dx) f (by omega) (by omega) hf5
    rw [v1, v2, transitionProb_swap f t hf5 ht5,
      emissionProb_swap (K := K) x y nX nY nX nY sX sY t ht5 hsX hsY]
    exact transposed_set nX nY a b hab (x - dy) (y - dx) f (by omega) (by omega) hf5 _
  · rw [if_neg hc, if_neg (fun h => hc ⟨h.2, h.1⟩)]
    exact hab

theorem transposed_replicate {L : Type} (nX nY : Nat) (v : Dbl L) :
    Transposed nX nY (List.replicate (nX * nY * 5) v) (List.replicate (nX * nY * 5) v) := by
  refine ⟨List.length_replicate _ _, List.length_replicate _ _, ?_⟩
  intro x y s hx hy hs
  have h1 := cellIndex_lt nX nY x y s hx hy hs
  have h2 := cellIndex_lt nY nX y x (swapState s) hy hx (swapState_lt s hs)
  rw [Nat.mul_comm nY nX] at h2
  rw [List.getD_eq_getElem?_getD, List.getD_eq_getElem?_getD,
    List.getElem?_replicate, List.getElem?_replicate, if_pos h1, if_pos h2]

theorem getEmptyMatrix_transposed {L : Type} (nX nY : Nat) (hX : 1 ≤ nX) (hY : 1 ≤ nY)
    (h : (nX : Int) * (nY : Int) * 5 ≤ 2147483647) :
    Transposed nX nY (getEmptyMatrix (K := L) (nY : Int) (nX : Int))
      (getEmptyMatrix (nX : Int) (nY : Int)) := by
  have h2 : (nY : Int) * (nX : Int) * 5 ≤ 2147483647 := by rw [mul_comm (nY : Int)]; exact h
  rw [getEmptyMatrix_exact (nY : Int) (nX : Int) (by omega) (by omega) h2,
    getEmptyMatrix_exact (nX : Int) (nY : Int) (by omega) (by omega) h]
  have e1 : ((nX : Int) * (nY : Int) * 5).toNat = nX * nY * 5 := by
    have : (nX : Int) * (nY : Int) * 5 = ((nX * nY * 5 : Nat) : Int) := by push_cast; ring
    rw [this, Int.toNat_ofNat]
  have e2 : ((nY : Int) * (nX : Int) * 5).toNat = nX * nY * 5 := by
    rw [mul_comm (nY : Int)]; exact e1
  rw [e1, e2]
  exact transposed_replicate nX nY _

theorem initialiseForwardMatrix_transposed (nX nY : Nat) (hX : 1 ≤ nX) (hY : 1 ≤ nY)
    (h : (nX : Int) * (nY : Int) * 5 ≤ 2147483647) :
    Transposed nX nY (initialiseForwardMatrix (K := K) (nY : Int) (nX : Int))
      (initialiseForwardMatrixMirror (nX : Int) (nY : Int)) := by
  unfold initialiseForwardMatrix initialiseForwardMatrixMirror
  have c1 : getCell 0 0 (nY : Int) = some ((0 * nY + 0) * 5) := getCell_nat 0 0 nY
  have c2 : getCell 0 0 (nX : Int) = some ((0 * nX + 0) * 5) := getCell_nat 0 0 nX
  rw [c1, c2, mirrorStates_eq]
  simp only
  rw [List.foldl_map]
  refine foldl_rel_mem (Transposed nX nY) _ _ _ ?_ _ _ (getEmptyMatrix_transposed nX nY hX hY h)
  intro a b s hs hab
  have hs5 : s < 5 := List.mem_range.mp hs
  rw [startStateProbs_swap s hs5]
  exact transposed_set nX nY a b hab 0 0 s (by omega) (by omega) hs5 _

theorem initialiseBackwardMatrix_transposed (nX nY : Nat) (hX : 1 ≤ nX) (hY : 1 ≤ nY)
    (h : (nX : Int) * (nY : Int) * 5 ≤ 2147483647) :
    Transposed nX nY (initialiseBackwardMatrix (K := K) (nY : Int) (nX : Int))
      (initialiseBackwardMatrixMirror (nX : Int) (nY : Int)) := by
  unfold initialiseBackwardMatrix initialiseBackwardMatrixMirror
  have c1 : getCell ((nY : Int) - 1) ((nX : Int) - 1) (nY : Int)
      = some (((nX - 1) * nY + (nY - 1)) * 5) := by
    have := getCell_sub nY nX nY 1 1
    rw [if_pos ⟨hY, hX⟩] at this
    exact this
  have c2 : getCell ((nX : Int) - 1) ((nY : Int) - 1) (nX : Int)
      = some (((nY - 1) * nX + (nX - 1)) * 5) := by
    have := getCell_sub nX nY nX 1 1
    rw [if_pos ⟨hX, hY⟩] at this
    exact this
  rw [c1, c2, mirrorStates_eq]
  simp only
  rw [List.foldl_map]
  refine foldl_rel_mem (Transposed nX nY) _ _ _ ?_ _ _ (getEmptyMatrix_transposed nX nY hX hY h)
  intro a b s hs hab
  have hs5 : s < 5 := List.mem_range.mp hs
  rw [endStateProbs_swap s hs5]
  exact transposed_set nX nY a b hab (nX - 1) (nY - 1) s (by omega) (by omega) hs5 _

theorem forwardMatrix_transposed (nX nY : Nat) (hX : 1 ≤ nX) (hY : 1 ≤ nY)
    (h : (nX : Int) * (nY : Int) * 5 ≤ 2147483647)
    (sX sY : List Nat) (hsX : ∀ c ∈ sX, c ≤ 4) (hsY : ∀ c ∈ sY, c ≤ 4) :
    Transposed nX nY (forwardMatrix (K := K) (nY : Int) (nX : Int) sY sX)
      (forwardMatrixMirror (nX : Int) (nY : Int) sX sY) := by
  unfold forwardMatrix forwardMatrixMirror
  rw [Int.toNat_ofNat, Int.toNat_ofNat]
  refine foldl_rel_mem (Transposed nX nY) _ _ _ ?_ _ _
    (initialiseForwardMatrix_transposed nX nY hX hY h)
  intro a b y hy hab
  refine foldl_rel_mem (Transposed nX nY) _ _ _ ?_ _ _ hab
  intro a b x hx hab
  exact forwardCell_transposed nX nY a b hab x y (List.mem_range.mp hx) (List.mem_range.mp hy)
    sX sY hsX hsY

theorem backwardMatrix_transposed (nX nY : Nat) (hX : 1 ≤ nX) (hY : 1 ≤ nY)
    (h : (nX : Int) * (nY : Int) * 5 ≤ 2147483647)
    (sX sY : List Nat) (hsX : ∀ c ∈ sX, c ≤ 4) (hsY : ∀ c ∈ sY, c ≤ 4) :
    Transposed nX nY (backwardMatrix (K := K) (nY : Int) (nX : Int) sY sX)
      (backwardMatrixMirror (nX : Int) (nY : Int) sX sY) := by
  unfold backwardMatrix backwardMatrixMirror
  rw [Int.toNat_ofNat, Int.toNat_ofNat]
  refine foldl_rel_mem (Transposed nX nY) _ _ _ ?_ _ _
    (initialiseBackwardMatrix_transposed nX nY hX hY h)
  intro a b y hy hab
  refine foldl_rel_mem (Transposed nX nY) _ _ _ ?_ _ _ hab
  intro a b x hx hab
  exact backwardCell_transposed nX nY a b hab x y
    (List.mem_range.mp (List.mem_reverse.mp hx)) (List.mem_range.mp (List.mem_reverse.mp hy))
    sX sY hsX hsY

theorem totalForwardProb_transposed (nX nY : Nat) (hX : 1 ≤ nX) (hY : 1 ≤ nY)
    (m m' : List (Dbl K)) (h : Transposed nX nY m m') :
    totalForwardProbMirror m' (nX : Int) (nY : Int) = totalForwardProb m (nY : Int) (nX : Int) := by
  unfold totalForwardProb totalForwardProbMirror
  have c1 : getCell ((nY : Int) - 1) ((nX : Int) - 1) (nY : Int)
      = some (((nX - 1) * nY + (nY - 1)) * 5) := by
    have := getCell_sub nY nX nY 1 1
    rw [if_pos ⟨hY, hX⟩] at this
    exact this
  have c2 : getCell ((nX : Int) - 1) ((nY : Int) - 1) (nX : Int)
      = some (((nY - 1) * nX + (nX - 1)) * 5) := by
    have := getCell_sub nX nY nX 1 1
    rw [if_pos ⟨hX, hY⟩] at this
    exact this
  rw [c1, c2, mirrorStates_tail_eq]
  simp only
  rw [List.foldl_map]
  have v0 := transposed_symm_index nX nY m m' h (nX - 1) (nY - 1) 0 (by omega) (by omega)
    (by omega)
  have s0 : swapState 0 = 0 := rfl
  rw [s0] at v0
  rw [v0]
  refine foldl_rel_mem (fun a b => a = b) _ _ _ ?_ _ _ rfl
  intro a b s hs hab
  have hs5 : s < 5 := by
    have := List.mem_range'_1.mp hs
    unfold cellNo at this
    omega
  rw [hab, endStateProbs_swap s hs5,
    transposed_symm_index nX nY m m' h (nX - 1) (nY - 1) s (by omega) (by omega) hs5]

theorem totalBackwardProb_transposed (nX nY : Nat) (hX : 1 ≤ nX) (hY : 1 ≤ nY)
    (m m' : List (Dbl K)) (h : Transposed nX nY m m') :
    totalBackwardProbMirror m' (nX : Int) = totalBackwardProb m (nY : Int) := by
  unfold totalBackwardProb totalBackwardProbMirror
  have c1 : getCell 0 0 (nY : Int) = some ((0 * nY + 0) * 5) := getCell_nat 0 0 nY
  have c2 : getCell 0 0 (nX : Int) = some ((0 * nX + 0) * 5) := getCell_nat 0 0 nX
  rw [c1, c2, mirrorStates_tail_eq]
  simp only
  rw [List.foldl_map]
  have v0 := transposed_symm_index nX nY m m' h 0 0 0 (by omega) (by omega) (by omega)
  have s0 : swapState 0 = 0 := rfl
  rw [s0] at v0
  rw [v0]
  refine foldl_rel_mem (fun a b => a = b) _ _ _ ?_ _ _ rfl
  intro a b s hs hab
  have hs5 : s < 5 := by
    have := List.mem_range'_1.mp hs
    unfold cellNo at this
    omega
  rw [hab, startStateProbs_swap s hs5,
    transposed_symm_index nX nY m m' h 0 0 s (by omega) (by omega) hs5]

theorem posteriorMatchProb_transposed (e : K → K) (nX nY : Nat) (fM fM' bM bM' : List (Dbl K))
    (hf : Transposed nX nY fM fM') (hb : Transposed nX nY bM bM')
    (x y : Nat) (hx1 : 1 ≤ x) (hx : x < nX) (hy1 : 1 ≤ y) (hy : y < nY)
    (sX sY : List Nat) (hsX : ∀ c ∈ sX, c ≤ 4) (hsY : ∀ c ∈ sY, c ≤ 4) (tp : Dbl K) :
    posteriorMatchProbMirror e fM' bM' (x : Int) (y : Int) (nX : Int) (nY : Int) sX sY tp
      = posteriorMatchProb e fM bM (y : Int) (x : Int) (nY : Int) (nX : Int) sY sX tp := by
  unfold posteriorMatchProb posteriorMatchProbMirror
  have c1 : getCell ((y : Int) - 1) ((x : Int) - 1) (nY : Int)
      = some (((x - 1) * nY + (y - 1)) * 5) := by
    have := getCell_sub y x nY 1 1
    rw [if_pos ⟨hy1, hx1⟩] at this
    exact this
  have c2 : getCell ((x : Int) - 1) ((y : Int) - 1) (nX : Int)
      = some (((y - 1) * nX + (x - 1)) * 5) := by
    have := getCell_sub x y nX 1 1
    rw [if_pos ⟨hx1, hy1⟩] at this
    exact this
  rw [c1, c2, getCell_nat, getCell_nat, mirrorStates_tail_eq]
  simp only
  rw [List.foldl_map]
  have s0 : swapState 0 = 0 := rfl
  have v0 := transposed_symm_index nX nY fM fM' hf (x - 1) (y - 1) 0 (by omega) (by omega)
    (by omega)
  have w0 := transposed_symm_index nX nY bM bM' hb x y 0 hx hy (by omega)
  have e0 := emissionProb_swap (K := K) x y nX nY nX nY sX sY 0 (by omega) hsX hsY
  rw [s0] at v0 w0 e0
  rw [v0, w0, e0]
  congr 2
  refine foldl_rel_mem (fun a b => a = b) _ _ _ ?_ _ _ rfl
  intro a b s hs hab
  have hs5 : s < 5 := by
    have := List.mem_range'_1.mp hs
    unfold cellNo at this
    omega
  have t0 := transitionProb_swap (K := K) s 0 hs5 (by omega)
  rw [s0] at t0
  rw [hab, t0,
    transposed_symm_index nX nY fM fM' hf (x - 1) (y - 1) s (by omega) (by omega) hs5]

theorem getPosteriorProbs_transposed [FloorRing K] (e : K → K) (P : Nat) (nX nY : Nat)
    (fM fM' bM bM' : List (Dbl K))
    (hf : Transposed nX nY fM fM') (hb : Transposed nX nY bM bM')
    (sX sY : List Nat) (hsX : ∀ c ∈ sX, c ≤ 4) (hsY : ∀ c ∈ sY, c ≤ 4) (tp : Dbl K) :
    getPosteriorProbsMirror e P fM' bM' (nX : Int) (nY : Int) sX sY [] tp
      = (getPosteriorProbs e P fM bM (nY : Int) (nX : Int) sY sX [] tp).map swapPair := by
  unfold getPosteriorProbs getPosteriorProbsMirror
  rw [Int.toNat_ofNat, Int.toNat_ofNat]
  refine foldl_rel_mem (fun (a b : List AlignedPair) => b = a.map swapPair) _ _ _ ?_ _ _ rfl
  intro a b y hy hab
  refine foldl_rel_mem (fun (a b : List AlignedPair) => b = a.map swapPair) _ _ _ ?_ _ _ hab
  intro a b x hx hab
  have hy2 := List.mem_range'_1.mp hy
  have hx2 := List.mem_range'_1.mp hx
  simp only
  rw [posteriorMatchProb_transposed e nX nY fM fM' bM bM' hf hb x y hx2.1 (by omega) hy2.1
    (by omega) sX sY hsX hsY tp]
  split
  · rw [hab, List.map_append]
    rfl
  · exact hab

theorem matricesOverflow_comm (lX lY : Int) : matricesOverflow lX lY = matricesOverflow lY lX := by
  unfold matricesOverflow
  rw [mul_comm lX lY]

/-- C21, as the spec states it, fails in both halves (`PAIR_ALIGNMENT_PROB_1 =
10 ^ 6`).  The sets of coordinates: for `X = "A"`, `Y = "GNCCGN"` both calls
return, `getAlignedPairs Y X` holds a triple at `(1, 0)`, and
`getAlignedPairs X Y` holds none at `(0, 1)` (the posteriors of the two cells
are `0.010002...` and `0.009999...`, on the two sides of the threshold `0.01`).
The scores: for `X = "A"`, `Y = "AA"` both calls return a triple at `(0, 0)`,
and the two scores differ by at least 2. -/
theorem getAlignedPairs_swap_counterexample :
    (∃ l l', getAlignedPairs (K := ℝ) Real.exp 1000000 ['A'] ['G', 'N', 'C', 'C', 'G', 'N']
          = some l
        ∧ getAlignedPairs (K := ℝ) Real.exp 1000000 ['G', 'N', 'C', 'C', 'G', 'N'] ['A']
          = some l'
        ∧ (∃ s : Int, (⟨s, 1, 0⟩ : AlignedPair) ∈ l')
        ∧ ∀ s : Int, (⟨s, 0, 1⟩ : AlignedPair) ∉ l)
    ∧ (∃ l l' s s', getAlignedPairs (K := ℝ) Real.exp 1000000 ['A'] ['A', 'A'] = some l
        ∧ getAlignedPairs (K := ℝ) Real.exp 1000000 ['A', 'A'] ['A'] = some l'
        ∧ (⟨s, 0, 0⟩ : AlignedPair) ∈ l ∧ (⟨s', 0, 0⟩ : AlignedPair) ∈ l' ∧ s + 2 ≤ s') := by
  obtain ⟨c1, c2⟩ := getAlignedPairs_A_GNCCGN_coords
  obtain ⟨s, s', m1, m2, hs⟩ := getAlignedPairs_A_AA_scores
  exact ⟨⟨_, _,
      getAlignedPairs_eq_some Real.exp 1000000 ['A'] ['G', 'N', 'C', 'C', 'G', 'N'] (by decide),
      getAlignedPairs_eq_some Real.exp 1000000 ['G', 'N', 'C', 'C', 'G', 'N'] ['A'] (by decide),
      c1, c2⟩,
    ⟨_, _, s, s', getAlignedPairs_eq_some Real.exp 1000000 ['A'] ['A', 'A'] (by decide),
      getAlignedPairs_eq_some Real.exp 1000000 ['A', 'A'] ['A'] (by decide), m1, m2, hs⟩⟩

/-- C21, amended: for every `X`, `Y`, swapping the coordinates of every triple
of `getAlignedPairs Y X` yields exactly the list of triples, scores included, of
the run of `getAlignedPairs X Y` that takes the states in the order
`0, 2, 1, 4, 3` and the cells with `y` in the outer loop
(`getAlignedPairsMirror`), a run that adds the terms of `getAlignedPairs X Y`
with `logAdd` in another order; and `getAlignedPairs Y X` fails to return
exactly when `getAlignedPairs X Y` does. -/
theorem getAlignedPairs_swap_mirror [FloorRing K] (e : K → K) (P : Nat) (sX sY : List Char) :
    (getAlignedPairs e P sY sX).map (List.map swapPair) = getAlignedPairsMirror e P sX sY
      ∧ (getAlignedPairs e P sY sX = none ↔ getAlignedPairs e P sX sY = none) := by
  refine ⟨?_, ?_⟩
  · unfold getAlignedPairs getAlignedPairsMirror
    simp only
    rw [matricesOverflow_comm ((sY.length : Int) + 1)]
    by_cases ho : matricesOverflow ((sX.length : Int) + 1) ((sY.length : Int) + 1) = true
    · rw [if_pos ho, if_pos ho]
      rfl
    · rw [if_neg ho, if_neg ho]
      have hfit : ((sX.length : Int) + 1) * ((sY.length : Int) + 1) * 5 ≤ 2147483647 := by
        by_contra hc
        exact ho ((matricesOverflow_iff _ _).mpr hc)
      rw [convertSequence_in_getAlignedPairs, convertSequence_in_getAlignedPairs]
      simp only [Option.getD_some, Option.map_some']
      have eX : ((sX.length : Int) + 1) = ((sX.length + 1 : Nat) : Int) := by push_cast; rfl
      have eY : ((sY.length : Int) + 1) = ((sY.length + 1 : Nat) : Int) := by push_cast; rfl
      rw [eX, eY] at hfit ⊢
      have hf := forwardMatrix_transposed (K := K) (sX.length + 1) (sY.length + 1) (by omega)
        (by omega) hfit _ _ (map_convertChar_le sX) (map_convertChar_le sY)
      have hb := backwardMatrix_transposed (K := K) (sX.length + 1) (sY.length + 1) (by omega)
        (by omega) hfit _ _ (map_convertChar_le sX) (map_convertChar_le sY)
      rw [totalForwardProb_transposed _ _ (by omega) (by omega) _ _ hf,
        totalBackwardProb_transposed _ _ (by omega) (by omega) _ _ hb,
        getPosteriorProbs_transposed e P _ _ _ _ _ _ hf hb _ _ (map_convertChar_le sX)
          (map_convertChar_le sY)]
  · rw [getAlignedPairs_none_iff, getAlignedPairs_none_iff,
      mul_comm ((sY.length : Int) + 1)]

/-- C21, amended, at `X = "A"`, `Y = "AA"` (`PAIR_ALIGNMENT_PROB_1 = 10 ^ 6`):
the run in the other order returns, as `getAlignedPairs Y X` with the
coordinates swapped, the pair `(0, 0)` with a score that exceeds its score in
`getAlignedPairs X Y` by at least 2; the order of the additions matters. -/
theorem getAlignedPairs_swap_mirror_witness :
    ∃ l l' s s', getAlignedPairs (K := ℝ) Real.exp 1000000 ['A'] ['A', 'A'] = some l
      ∧ getAlignedPairsMirror (K := ℝ) Real.exp 1000000 ['A'] ['A', 'A'] = some l'
      ∧ (⟨s, 0, 0⟩ : AlignedPair) ∈ l ∧ (⟨s', 0, 0⟩ : AlignedPair) ∈ l' ∧ s + 2 ≤ s' := by
  obtain ⟨s, s', m1, m2, hs⟩ := getAlignedPairs_A_AA_scores
  have h := (getAlignedPairs_swap_mirror (K := ℝ) Real.exp 1000000 ['A'] ['A', 'A']).1
  rw [getAlignedPairs_eq_some Real.exp 1000000 ['A', 'A'] ['A'] (by decide)] at h
  exact ⟨_, _, s, s', getAlignedPairs_eq_some Real.exp 1000000 ['A'] ['A', 'A'] (by decide),
    h.symm, m1, List.mem_map.mpr ⟨_, m2, rfl⟩, hs⟩

end Cactus
